import Mathlib

/-!
# alfalfa: coefficient token decoding and inter-frame mode selection

A shallow embedding of `src/decoder/tokens.cc` (`TokenDecoder::decode`,
`Block::parse_tokens`) and of `src/encoder/encode_inter.cc`
(`out_of_bounds`, `Encoder::diamond_search`, `Encoder::luma_mb_inter_predict`),
followed by the properties proved about them.

Machine integers are `Nat`/`Int` with the reductions written out: `% 65536`
for `uint16_t`, `% 256` for `uint8_t`, `toInt16` for a narrowing to `int16_t`.
-/

namespace Alfalfa

/-! ## Machine integers and bounds-checked arrays -/

/-- The value an `int16_t` holds after an integer is narrowed to it
(two's complement, modulo 2^16). -/
def toInt16 (z : Int) : Int := (z + 32768) % 65536 - 32768

/-- An 8-bit probability handed to the boolean decoder. -/
abbrev Probability := Nat

/-- What stops a call before it returns: the `out_of_range` of a bounds-checked
`.at()`, the `runtime_error( "not supported" )` of the mode selection, a
loop of the model that did not finish within its fuel, or an `assert` whose
condition is false. -/
inductive Fault where
  | out_of_range
  | not_supported
  | out_of_fuel
  | assertion_failed
  deriving DecidableEq, Repr

/-- `SafeArray<T, n>`: an array of exactly `n` entries. -/
abbrev SafeArray (α : Type) (n : Nat) := Fin n → α

/-- `SafeArray::at( i )`: the entry, or `out_of_range` when `i` is not below the size. -/
def SafeArray.at_ {α : Type} {n : Nat} (a : SafeArray α n) (i : Nat) : Except Fault α :=
  if h : i < n then .ok (a ⟨i, h⟩) else .error .out_of_range

/-! ## The boolean decoder, seen from this code

`bool_decoder.hh` is outside the sources. The code only calls `data.get( p )`
and `data.get()`; the decoder is therefore an arbitrary deterministic machine
with a state of type `σ` that answers each query with a bit and moves to a new
state. The list `queries` records the queries in the order they were made. -/

/-- One call of `BoolDecoder::get`: with a probability, or without one (the sign bit). -/
inductive Query where
  | prob (p : Probability)
  | uniform
  deriving DecidableEq, Repr

/-- The decoder object `data`: its internal state and the record of the queries made so far. -/
structure BoolDecoder (σ : Type) where
  state : σ
  queries : List Query

/-- `data.get( ... )`: ask the underlying machine `answer`, record the query. -/
def BoolDecoder.get {σ : Type} (answer : σ → Query → Bool × σ) (data : BoolDecoder σ)
    (q : Query) : Bool × BoolDecoder σ :=
  ((answer data.state q).1, ⟨(answer data.state q).2, data.queries ++ [q]⟩)

/-- A boolean source that replays a fixed list of answers, whatever the query;
once the list is used up it answers `false`. -/
def script_answer : List Bool → Query → Bool × List Bool
  | [], _ => (false, [])
  | b :: bs, _ => (b, bs)

/-- The answers a machine gives to a list of queries asked one after the other,
and the state it ends in. -/
def run_queries {σ : Type} (answer : σ → Query → Bool × σ) : σ → List Query → List Bool × σ
  | s, [] => ([], s)
  | s, q :: qs =>
    ((answer s q).1 :: (run_queries answer (answer s q).2 qs).1,
      (run_queries answer (answer s q).2 qs).2)

/-- A list of bits read as a big-endian unsigned integer (first bit most significant). -/
def big_endian (bits : List Bool) : Nat :=
  bits.foldl (fun acc b => 2 * acc + b.toNat) 0

/-! ## `TokenDecoder<length>::decode` (tokens.cc, lines 11-19) -/

/-- `TokenDecoder<length>`: the template parameter `length` (an `unsigned int`),
the `uint16_t` base value and the `length` bit probabilities. -/
structure TokenDecoder where
  length : Nat
  base_value_ : Nat
  bit_probabilities_ : SafeArray Probability length

/-- The loop `for ( uint8_t i = 0; i < length; i++ )` from the state `(i, increment, data)`.
The counter is a `uint8_t`, so `i++` is taken modulo 256; `increment` is a
`uint16_t`, so each assignment is taken modulo 65536. The loop is not known to
end for every `length`, hence the fuel: one unit per evaluation of the loop
condition. -/
def TokenDecoder.decode_loop {σ : Type} (answer : σ → Query → Bool × σ) (td : TokenDecoder) :
    Nat → Nat → Nat → BoolDecoder σ → Except Fault (Nat × BoolDecoder σ)
  | 0, _, _, _ => .error .out_of_fuel
  | fuel + 1, i, increment, data =>
    if i < td.length then
      match td.bit_probabilities_.at_ i with
      | .error e => .error e
      | .ok p =>
        TokenDecoder.decode_loop answer td fuel ((i + 1) % 256)
          (((increment <<< 1) + (data.get answer (.prob p)).1.toNat) % 65536)
          (data.get answer (.prob p)).2
    else .ok (increment, data)

/-- `TokenDecoder<length>::decode( data )`: returns `base_value_ + increment` as a `uint16_t`. -/
def TokenDecoder.decode {σ : Type} (answer : σ → Query → Bool × σ) (td : TokenDecoder)
    (fuel : Nat) (data : BoolDecoder σ) : Except Fault (Nat × BoolDecoder σ) :=
  match td.decode_loop answer fuel 0 0 data with
  | .error e => .error e
  | .ok r => .ok ((td.base_value_ + r.1) % 65536, r.2)

/-- The queries `decode` is meant to make: the probability of bit position `i`, for `i = 0..length-1`. -/
def TokenDecoder.bit_queries (td : TokenDecoder) : List Query :=
  List.ofFn (fun i : Fin td.length => Query.prob (td.bit_probabilities_ i))

/-- A decoder of 256 bits, all of probability 128, with base value 0. -/
def wide_decoder : TokenDecoder := ⟨256, 0, fun _ => 128⟩

/-- A decoder of 2 bits with base value 7. -/
def small_decoder : TokenDecoder := ⟨2, 7, fun _ => 128⟩

/-! ## `Block::parse_tokens` (tokens.cc, lines 24-109) -/

/-- The block types. The enum is declared outside the sources; the code here
only compares with `Y_after_Y2` and uses the type as the first index of the
coefficient probability table. The other three names are those of the codec
and play no part in what is proved. -/
inductive BlockType where
  | Y_after_Y2
  | Y2
  | UV
  | Y_without_Y2
  deriving DecidableEq, Repr

/-- The integer value of a block type, as used by `coeff_probs.at( type_ )`. -/
def BlockType.index : BlockType → Nat
  | .Y_after_Y2 => 0
  | .Y2 => 1
  | .UV => 2
  | .Y_without_Y2 => 3

/-- `ProbabilityArray< MAX_ENTROPY_TOKENS >`: the eleven probabilities of the
token tree (tree positions 0 to 10). -/
abbrev ProbabilityArray := SafeArray Probability 11

/-- `ProbabilityTables`, of which only `coeff_probs` is read here: the table
indexed by block type (4), coefficient band (8), token context (3) and tree
position (11). The sizes are set in headers outside the sources: 3 contexts
and 11 tree positions are what the code and the spec use, 4 and 8 are the
codec's, and nothing proved below depends on these two. -/
structure ProbabilityTables where
  coeff_probs : SafeArray (SafeArray (SafeArray ProbabilityArray 3) 8) 4

/-- The constants of `tokens.hh` and its neighbours that `parse_tokens` reads
and that are outside the sources: the band of each position, the zigzag
storage slot of each position, and the five category decoders. They are
parameters of the model; a band is typed as an index of the 8 bands and a
slot as an index of the 16 coefficients. -/
structure TokenConstants where
  coefficient_to_band : SafeArray (Fin 8) 16
  zigzag : SafeArray (Fin 16) 16
  token_decoder_1 : TokenDecoder
  token_decoder_2 : TokenDecoder
  token_decoder_3 : TokenDecoder
  token_decoder_4 : TokenDecoder
  token_decoder_5 : TokenDecoder

/-- The part of a `Block` that `parse_tokens` reads or writes. `above` and `left`
stand for `context().above` and `context().left`: `none` when the neighbour is
not initialized, otherwise the neighbour's `has_nonzero()`. -/
structure Block where
  type_ : BlockType
  coefficients_ : SafeArray Int 16
  has_nonzero_ : Bool
  above : Option Bool
  left : Option Bool

/-- What was decoded at a position: end of block, a zero, or a nonzero token
with the value stored. -/
inductive Token where
  | EOB
  | ZERO
  | value (v : Int)
  deriving DecidableEq, Repr

/-- Record of one iteration of the loop, kept for stating properties of the
pass: the position, the token context its probabilities were selected with,
whether tree position 0 (end of block) was queried, and what was decoded. -/
structure Visit where
  index : Nat
  token_context : Nat
  eob_queried : Bool
  token : Token
  deriving DecidableEq, Repr

/-- The variables of `parse_tokens` between two iterations of its loop, with the
record of the iterations made so far. -/
structure ParseState (σ : Type) where
  data : BoolDecoder σ
  coefficients_ : SafeArray Int 16
  has_nonzero_ : Bool
  last_was_zero : Bool
  token_context : Nat
  visits : List Visit

/-- How an iteration of the loop ends: at its end or by `continue` (`next`), or
by `break` (`stop`). -/
inductive Flow (α : Type) where
  | next (s : α)
  | stop (s : α)

/-- `data.get( prob.at( k ) )`. -/
def get_at {σ : Type} (answer : σ → Query → Bool × σ) (prob : ProbabilityArray) (k : Nat)
    (data : BoolDecoder σ) : Except Fault (Bool × BoolDecoder σ) :=
  match prob.at_ k with
  | .error e => .error e
  | .ok p => .ok (data.get answer (.prob p))

/-- `value = token_decoder_k.decode( data )`: the `uint16_t` result is narrowed
to the `int16_t` variable `value`. -/
def decode_category {σ : Type} (answer : σ → Query → Bool × σ) (td : TokenDecoder) (fuel : Nat)
    (data : BoolDecoder σ) : Except Fault (Int × BoolDecoder σ) :=
  match td.decode answer fuel data with
  | .error e => .error e
  | .ok r => .ok (toInt16 r.1, r.2)

/-- Lines 66-98: the branch taken when tree position 2 answered true: the value
is 2, 3, 4, 5 or 6, or comes from one of the category decoders. -/
def parse_large {σ : Type} (answer : σ → Query → Bool × σ) (tc : TokenConstants) (fuel : Nat)
    (prob : ProbabilityArray) (data : BoolDecoder σ) : Except Fault (Int × BoolDecoder σ) := do
  let r3 ← get_at answer prob 3 data
  if !r3.1 then
    let r4 ← get_at answer prob 4 r3.2
    if !r4.1 then
      pure (2, r4.2)
    else
      let r5 ← get_at answer prob 5 r4.2
      if !r5.1 then pure (3, r5.2) else pure (4, r5.2)
  else
    let r6 ← get_at answer prob 6 r3.2
    if !r6.1 then
      let r7 ← get_at answer prob 7 r6.2
      if !r7.1 then
        pure (5 + ((r7.2.get answer (.prob 159)).1.toNat : Int), (r7.2.get answer (.prob 159)).2)
      else
        decode_category answer tc.token_decoder_1 fuel r7.2
    else
      let r8 ← get_at answer prob 8 r6.2
      if !r8.1 then
        let r9 ← get_at answer prob 9 r8.2
        if !r9.1 then
          decode_category answer tc.token_decoder_2 fuel r9.2
        else
          decode_category answer tc.token_decoder_3 fuel r9.2
      else
        let r10 ← get_at answer prob 10 r8.2
        if !r10.1 then
          decode_category answer tc.token_decoder_4 fuel r10.2
        else
          decode_category answer tc.token_decoder_5 fuel r10.2

/-- Lines 59-99: the magnitude of a nonzero token and the token context it
sets (1 for the literal one, 2 otherwise). -/
def parse_magnitude {σ : Type} (answer : σ → Query → Bool × σ) (tc : TokenConstants) (fuel : Nat)
    (prob : ProbabilityArray) (data : BoolDecoder σ) :
    Except Fault (Int × Nat × BoolDecoder σ) := do
  let r2 ← get_at answer prob 2 data
  if !r2.1 then
    pure (1, 1, r2.2)
  else
    let r ← parse_large answer tc fuel prob r2.2
    pure (r.1, 2, r.2)

/-- Lines 50-107: the iteration from the query of tree position 1 on.
`eob_queried` only feeds the record of the iteration. -/
def parse_after_eob {σ : Type} (answer : σ → Query → Bool × σ) (tc : TokenConstants) (fuel : Nat)
    (prob : ProbabilityArray) (index : Nat) (eob_queried : Bool) (s : ParseState σ)
    (data : BoolDecoder σ) : Except Fault (Flow (ParseState σ)) := do
  let r1 ← get_at answer prob 1 data
  if !r1.1 then
    pure (.next { s with
      data := r1.2, last_was_zero := true, token_context := 0,
      visits := s.visits ++ [⟨index, s.token_context, eob_queried, .ZERO⟩] })
  else
    let m ← parse_magnitude answer tc fuel prob r1.2
    let sign := m.2.2.get answer .uniform
    let value := if sign.1 then toInt16 (-m.1) else m.1
    let slot ← tc.zigzag.at_ index
    match (s.coefficients_.at_ slot.val : Except Fault Int) with
    | .error e => .error e
    | .ok _ =>
      pure (.next {
        data := sign.2,
        coefficients_ := Function.update s.coefficients_ slot value,
        has_nonzero_ := true,
        last_was_zero := false,
        token_context := m.2.1,
        visits := s.visits ++ [⟨index, s.token_context, eob_queried, .value value⟩] })

/-- Lines 39-40: `probability_tables.coeff_probs.at( type_ ).at(
coefficient_to_band.at( index ) ).at( token_context )`. -/
def select_prob (tc : TokenConstants) (probability_tables : ProbabilityTables)
    (type_ : BlockType) (index : Nat) (token_context : Nat) : Except Fault ProbabilityArray := do
  let by_type ← probability_tables.coeff_probs.at_ type_.index
  let band ← tc.coefficient_to_band.at_ index
  let by_band ← by_type.at_ band.val
  by_band.at_ token_context

/-- Lines 38-107: one iteration of the loop at position `index`. -/
def parse_body {σ : Type} (answer : σ → Query → Bool × σ) (tc : TokenConstants)
    (probability_tables : ProbabilityTables) (fuel : Nat) (type_ : BlockType) (index : Nat)
    (s : ParseState σ) : Except Fault (Flow (ParseState σ)) := do
  let prob ← select_prob tc probability_tables type_ index s.token_context
  if !s.last_was_zero then
    let r0 ← get_at answer prob 0 s.data
    if !r0.1 then
      pure (.stop { s with
        data := r0.2,
        visits := s.visits ++ [⟨index, s.token_context, true, .EOB⟩] })
    else
      parse_after_eob answer tc fuel prob index true s r0.2
  else
    parse_after_eob answer tc fuel prob index false s s.data

/-- The loop `for ( index = ...; index < 16; index++ )` from position `index`:
`remaining` counts the iterations the loop can still make, and `parse_tokens`
starts it with `16 - index`. -/
def parse_loop {σ : Type} (answer : σ → Query → Bool × σ) (tc : TokenConstants)
    (probability_tables : ProbabilityTables) (fuel : Nat) (type_ : BlockType) :
    Nat → Nat → ParseState σ → Except Fault (ParseState σ)
  | 0, _, s => .ok s
  | remaining + 1, index, s =>
    if index < 16 then
      match parse_body answer tc probability_tables fuel type_ index s with
      | .error e => .error e
      | .ok (.stop s') => .ok s'
      | .ok (.next s') =>
        parse_loop answer tc probability_tables fuel type_ remaining (index + 1) s'
    else .ok s

/-- Lines 32-33: the number of present neighbours whose `has_nonzero()` is set. -/
def initial_context (b : Block) : Nat :=
  (match b.above with | some nz => nz.toNat | none => 0)
    + (match b.left with | some nz => nz.toNat | none => 0)

/-- Line 35: the first position of the pass. -/
def start_index (type_ : BlockType) : Nat :=
  if type_ = BlockType.Y_after_Y2 then 1 else 0

/-- The state in which `parse_tokens` enters its loop. -/
def initial_state {σ : Type} (b : Block) (data : BoolDecoder σ) : ParseState σ :=
  { data := data, coefficients_ := b.coefficients_, has_nonzero_ := b.has_nonzero_,
    last_was_zero := false, token_context := initial_context b, visits := [] }

/-- `Block::parse_tokens( data, probability_tables )`: the state after the pass
(block storage, `has_nonzero_`, the decoder and the record of the iterations).
`fuel` bounds each run of a category decoder. -/
def parse_tokens {σ : Type} (answer : σ → Query → Bool × σ) (tc : TokenConstants)
    (probability_tables : ProbabilityTables) (fuel : Nat) (b : Block) (data : BoolDecoder σ) :
    Except Fault (ParseState σ) :=
  parse_loop answer tc probability_tables fuel b.type_
    (16 - start_index b.type_) (start_index b.type_) (initial_state b data)

/-! ## The constants of the token coder, as the spec gives them -/

/-- Modelled from the spec: `tokens.hh`, which declares `token_decoder_1` to
`token_decoder_5`, is outside the sources. Section 4.2 gives the ranges of the
extended categories they decode, 7-10, 11-18, 19-34, 35-66 and 67 upwards, and
section 4.1 the 11 bits of the last one: base values 7, 11, 19, 35, 67 and
bit lengths 2, 3, 4, 5, 11. -/
def spec_categories (tc : TokenConstants) : Prop :=
  (tc.token_decoder_1.base_value_ = 7 ∧ tc.token_decoder_1.length = 2) ∧
  (tc.token_decoder_2.base_value_ = 11 ∧ tc.token_decoder_2.length = 3) ∧
  (tc.token_decoder_3.base_value_ = 19 ∧ tc.token_decoder_3.length = 4) ∧
  (tc.token_decoder_4.base_value_ = 35 ∧ tc.token_decoder_4.length = 5) ∧
  (tc.token_decoder_5.base_value_ = 67 ∧ tc.token_decoder_5.length = 11)

/-- The largest magnitude the categories of `spec_categories` reach: 67 + (2^11 - 1). -/
def max_magnitude : Nat := 2114

/-- A set of constants for concrete runs: a zigzag order, a band for each
position, and category decoders with the base values and lengths of
`spec_categories`. -/
def sample_constants : TokenConstants where
  coefficient_to_band := ![0, 1, 2, 3, 6, 4, 5, 6, 6, 6, 6, 6, 6, 6, 6, 7]
  zigzag := ![0, 1, 4, 8, 5, 2, 3, 6, 9, 12, 13, 10, 7, 11, 14, 15]
  token_decoder_1 := ⟨2, 7, ![165, 145]⟩
  token_decoder_2 := ⟨3, 11, ![173, 148, 140]⟩
  token_decoder_3 := ⟨4, 19, ![176, 155, 140, 135]⟩
  token_decoder_4 := ⟨5, 35, ![180, 157, 141, 134, 130]⟩
  token_decoder_5 := ⟨11, 67, ![254, 254, 243, 230, 196, 177, 153, 140, 133, 130, 129]⟩

/-- Probability tables with every entry 128, for concrete runs. -/
def flat_tables : ProbabilityTables := ⟨fun _ _ _ _ => 128⟩

/-- A block of the given type with all coefficients zero, `has_nonzero_` unset
and no neighbour. -/
def zero_block (type_ : BlockType) : Block :=
  { type_ := type_, coefficients_ := fun _ => 0, has_nonzero_ := false,
    above := none, left := none }

/-! ## The token encoding of a coefficient sequence

The encoder is outside the sources. Its output is defined here from the words
of the spec, section 4.2: the structural inverse of the decoding pass, with
the same tree, the same context updates and the end-of-block rule. -/

/-- Modelled from the spec: the `length` bits of `offset`, most significant
first (section 4.1, "emit its L-bit offset"). -/
def offset_bits (offset : Nat) : Nat → List Bool
  | 0 => []
  | length + 1 => offset_bits (offset / 2) length ++ [decide (offset % 2 = 1)]

/-- Modelled from the spec: the decisions of a category decoder for `offset`,
each with the fixed probability of its bit position. -/
def encode_offset (td : TokenDecoder) (offset : Nat) : List (Query × Bool) :=
  td.bit_queries.zip (offset_bits offset td.length)

/-- Modelled from the spec: the cascade of decisions, from tree position 2 on,
that selects the magnitude `m ≥ 1`: literal 1, literals 2, 3, 4, then the
categories 5-6 (one extra bit of probability 159), 7-10, 11-18, 19-34, 35-66
and 67 upwards. -/
def encode_magnitude (tc : TokenConstants) (prob : ProbabilityArray) (m : Nat) :
    List (Query × Bool) :=
  if m ≤ 1 then [(.prob (prob 2), false)]
  else (.prob (prob 2), true) ::
    if m ≤ 4 then
      (.prob (prob 3), false) ::
        if m = 2 then [(.prob (prob 4), false)]
        else [(.prob (prob 4), true), (.prob (prob 5), decide (m = 4))]
    else (.prob (prob 3), true) ::
      if m ≤ 10 then
        (.prob (prob 6), false) ::
          if m ≤ 6 then [(.prob (prob 7), false), (.prob 159, decide (m = 6))]
          else (.prob (prob 7), true) :: encode_offset tc.token_decoder_1 (m - 7)
      else (.prob (prob 6), true) ::
        if m ≤ 34 then
          (.prob (prob 8), false) ::
            if m ≤ 18 then (.prob (prob 9), false) :: encode_offset tc.token_decoder_2 (m - 11)
            else (.prob (prob 9), true) :: encode_offset tc.token_decoder_3 (m - 19)
        else
          (.prob (prob 8), true) ::
            if m ≤ 66 then (.prob (prob 10), false) :: encode_offset tc.token_decoder_4 (m - 35)
            else (.prob (prob 10), true) :: encode_offset tc.token_decoder_5 (m - 67)

/-- The probabilities selected for a position, as a total function: the array
`select_prob` returns, and an array of zeros where it fails. -/
def prob_for (tc : TokenConstants) (probability_tables : ProbabilityTables)
    (type_ : BlockType) (index : Nat) (token_context : Nat) : ProbabilityArray :=
  match select_prob tc probability_tables type_ index token_context with
  | .ok prob => prob
  | .error _ => fun _ => 0

/-- The token context a coefficient leaves for the next position: 0 after a
zero, 1 after magnitude 1, 2 after a larger magnitude. -/
def context_after (v : Int) : Nat :=
  if v = 0 then 0 else if v.natAbs = 1 then 1 else 2

/-- Whether the sequence is zero from position `index` on. -/
def zero_from (seq : SafeArray Int 16) (index : Nat) : Prop :=
  ∀ j : Fin 16, index ≤ j.val → seq j = 0

instance (seq : SafeArray Int 16) (index : Nat) : Decidable (zero_from seq index) :=
  inferInstanceAs (Decidable (∀ j : Fin 16, index ≤ j.val → seq j = 0))

/-- Modelled from the spec: the decisions that code the positions from `index`
on, `remaining` bounding their number. When the previous position was not a
zero, the end-of-block decision comes first: `false`, and nothing more, when
every coefficient from here on is zero. Then the is-zero decision, and for a
nonzero coefficient the magnitude cascade and the sign. -/
def encode_from (tc : TokenConstants) (probability_tables : ProbabilityTables)
    (type_ : BlockType) (seq : SafeArray Int 16) :
    Nat → Nat → Bool → Nat → List (Query × Bool)
  | 0, _, _, _ => []
  | remaining + 1, index, last_was_zero, token_context =>
    if h : index < 16 then
      let prob := prob_for tc probability_tables type_ index token_context
      if !last_was_zero ∧ zero_from seq index then
        [(.prob (prob 0), false)]
      else
        (if last_was_zero then [] else [(.prob (prob 0), true)]) ++
          if seq ⟨index, h⟩ = 0 then
            (.prob (prob 1), false) ::
              encode_from tc probability_tables type_ seq remaining (index + 1) true 0
          else
            ((.prob (prob 1), true) :: encode_magnitude tc prob (seq ⟨index, h⟩).natAbs)
              ++ (.uniform, decide (seq ⟨index, h⟩ < 0)) ::
              encode_from tc probability_tables type_ seq remaining (index + 1) false
                (context_after (seq ⟨index, h⟩))
    else []

/-- Modelled from the spec: the token encoding of a block's 16 coefficients
(in position order), starting at position 1 for a block whose DC is carried by
the second-order block and at position 0 otherwise, with the initial context
of the block's neighbours. -/
def encode_tokens (tc : TokenConstants) (probability_tables : ProbabilityTables) (b : Block)
    (seq : SafeArray Int 16) : List (Query × Bool) :=
  encode_from tc probability_tables b.type_ seq (16 - start_index b.type_)
    (start_index b.type_) false (initial_context b)

/-- The sequence 5, -1, 0, ..., 0. -/
def five_minus_one : SafeArray Int 16 := ![5, -1, 0, 0, 0, 0, 0, 0, 0, 0, 0, 0, 0, 0, 0, 0]

/-- The sequence 5, 0, ..., 0. -/
def dc_only : SafeArray Int 16 := ![5, 0, 0, 0, 0, 0, 0, 0, 0, 0, 0, 0, 0, 0, 0, 0]

/-- A block of type `Y2` whose sixteen coefficients all hold 7 before the pass. -/
def stale_block : Block :=
  { type_ := .Y2, coefficients_ := fun _ => 7, has_nonzero_ := true,
    above := none, left := none }

/-- The sequence of sixteen zeros. -/
def all_zero : SafeArray Int 16 := fun _ => 0

/-! ## Vocabulary for the properties of the pass -/

/-- The coefficient a token stands for: the value of a nonzero token, 0 otherwise. -/
def Token.coefficient : Token → Int
  | .EOB => 0
  | .ZERO => 0
  | .value v => v

/-- The five category decoders, in the order of the cascade. -/
def TokenConstants.decoders (tc : TokenConstants) : List TokenDecoder :=
  [tc.token_decoder_1, tc.token_decoder_2, tc.token_decoder_3, tc.token_decoder_4,
    tc.token_decoder_5]

/-- Every category decoder has a bit length its 8-bit loop counter can reach,
and the fuel covers its loop tests. -/
def decoders_fit (tc : TokenConstants) (fuel : Nat) : Prop :=
  ∀ td ∈ tc.decoders, td.length ≤ 255 ∧ td.length < fuel

/-- The iteration at `index` ended on the end-of-block token: only the decoder
and the record of iterations moved. -/
def stop_step {σ : Type} (index : Nat) (s s' : ParseState σ) : Prop :=
  s.last_was_zero = false ∧
  s'.visits = s.visits ++ [⟨index, s.token_context, true, .EOB⟩] ∧
  s'.coefficients_ = s.coefficients_ ∧ s'.has_nonzero_ = s.has_nonzero_

/-- The iteration at `index` decoded a zero: nothing is stored, the next
iteration starts with token context 0 and skips the end-of-block query. -/
def zero_step {σ : Type} (index : Nat) (s s' : ParseState σ) : Prop :=
  s'.visits = s.visits ++ [⟨index, s.token_context, !s.last_was_zero, .ZERO⟩] ∧
  s'.last_was_zero = true ∧ s'.token_context = 0 ∧
  s'.coefficients_ = s.coefficients_ ∧ s'.has_nonzero_ = s.has_nonzero_

/-- The iteration at `index` decoded the nonzero token `v`: it is stored at the
zigzag slot of the position, `has_nonzero_` is set, and the next iteration
starts with token context 1 or 2. -/
def value_step {σ : Type} (tc : TokenConstants) (index : Fin 16) (s s' : ParseState σ)
    (v : Int) : Prop :=
  s'.visits = s.visits ++ [⟨index.val, s.token_context, !s.last_was_zero, .value v⟩] ∧
  s'.last_was_zero = false ∧ s'.has_nonzero_ = true ∧
  s'.coefficients_ = Function.update s.coefficients_ (tc.zigzag index) v ∧
  (s'.token_context = 1 ∨ s'.token_context = 2)

/-- What links two consecutive iterations `v`, `w` of a pass: `v` did not end
the block, `w` is at the next position, and the token context `w` selected its
probabilities with is the one the coefficient decoded by `v` prescribes. -/
def context_link (v w : Visit) : Prop :=
  v.token ≠ .EOB ∧ w.index = v.index + 1 ∧
  w.token_context = context_after v.token.coefficient

/-! ## Motion vectors (encode_inter.cc, lines 10-34) -/

/-- The value an `int` holds after an integer is narrowed to it (32 bits). -/
def toInt32 (z : Int) : Int := (z + 2147483648) % 4294967296 - 2147483648

/-- `x & y` on two `int`s, through their 32-bit two's-complement patterns. -/
def int_and (x y : Int) : Int :=
  toInt32 (((x % 4294967296).toNat &&& (y % 4294967296).toNat : Nat) : Int)

/-- `x | y` on two `int`s, through their 32-bit two's-complement patterns. -/
def int_or (x y : Int) : Int :=
  toInt32 (((x % 4294967296).toNat ||| (y % 4294967296).toNat : Nat) : Int)

/-- The value a `size_t` (64 bits) holds after an `int` is converted to it. -/
def to_size_t (z : Int) : Nat := (z % 18446744073709551616).toNat

/-- Modelled from the spec: the class `MotionVector` is declared outside the
sources. Section 3: a pair of signed 16-bit displacement components (x, y),
with a defined empty (zero) value. -/
structure MotionVector where
  x : Int
  y : Int
  deriving DecidableEq, Repr

/-- `MotionVector()`: the empty vector. -/
def MotionVector.zero : MotionVector := ⟨0, 0⟩

/-- `MotionVector( x, y )`: both arguments are narrowed to `int16_t`. -/
def MotionVector.make (x y : Int) : MotionVector := ⟨toInt16 x, toInt16 y⟩

/-- `a + b` and `a += b`: componentwise, in `int16_t`. -/
def MotionVector.add (a b : MotionVector) : MotionVector :=
  ⟨toInt16 (a.x + b.x), toInt16 (a.y + b.y)⟩

/-- `mv.empty()`: both components are zero. -/
def MotionVector.empty (mv : MotionVector) : Bool := mv.x == 0 && mv.y == 0

/-- `out_of_bounds( mv )`, lines 10-21. -/
def out_of_bounds (mv : MotionVector) : Bool :=
  if mv.x > 1023 then true
  else if mv.x < -1023 then true
  else if mv.y > 1023 then true
  else if mv.y < -1023 then true
  else false

/-- `sad_per_bit16lut`, lines 26-34. -/
def sad_per_bit16lut : List Nat :=
  [2,  2,  2,  2,  2,  2,  2,  2,  2,  2,  2,  2,  2,  2,  2,  2,  3,  3,  3,
   3,  3,  3,  3,  3,  3,  3,  3,  3,  3,  3,  4,  4,  4,  4,  4,  4,  4,  4,
   4,  4,  4,  4,  5,  5,  5,  5,  5,  5,  5,  5,  5,  5,  5,  5,  6,  6,  6,
   6,  6,  6,  6,  6,  6,  6,  6,  6,  7,  7,  7,  7,  7,  7,  7,  7,  7,  7,
   7,  7,  8,  8,  8,  8,  8,  8,  8,  8,  8,  8,  8,  8,  9,  9,  9,  9,  9,
   9,  9,  9,  9,  9,  9,  9,  10, 10, 10, 10, 10, 10, 10, 10, 11, 11, 11, 11,
   11, 11, 12, 12, 12, 12, 12, 12, 13, 13, 13, 13, 14, 14]

/-! ## Prediction records -/

/-- The macroblock prediction modes. The enum is declared outside the
sources. The code names `B_PRED` and the four inter modes of `inter_modes`
and tells intra from inter by `prediction_mode <= B_PRED` (lines 179-189), so
the intra modes come first; the constructors are listed in the codec's
order. -/
inductive mbmode where
  | DC_PRED
  | V_PRED
  | H_PRED
  | TM_PRED
  | B_PRED
  | NEARESTMV
  | NEARMV
  | ZEROMV
  | NEWMV
  | SPLITMV
  deriving DecidableEq, Repr

/-- The integer value of a mode. -/
def mbmode.rank : mbmode → Nat
  | .DC_PRED => 0
  | .V_PRED => 1
  | .H_PRED => 2
  | .TM_PRED => 3
  | .B_PRED => 4
  | .NEARESTMV => 5
  | .NEARMV => 6
  | .ZEROMV => 7
  | .NEWMV => 8
  | .SPLITMV => 9

/-- `MBPredictionData`: a candidate with its mode, vector, rate, distortion and
cost (the last three are `uint32_t`). -/
structure MBPredictionData where
  prediction_mode : mbmode
  mv : MotionVector
  rate : Nat
  distortion : Nat
  cost : Nat
  deriving DecidableEq, Repr

/-! ## `Encoder::diamond_search` (encode_inter.cc, lines 36-83) -/

/-- What `diamond_search` reads from the encoder and from its arguments other
than the vectors and the step size. `P` stands for the contents of a 16x16
prediction buffer. The functions are external collaborators:
`clamp` is `Scorer::clamp( ·, frame_mb.context() )`, `search_predict` is the
buffer `reconstructed_mb.Y.inter_predict( mv, reference.Y(), prediction )`
fills, `sad` is `sad( original_mb.Y, prediction )`, and
`sad_motion_vector_cost` and `rdcost` are the functions of those names.
The members of a default-constructed `MBPredictionData` other than `mv`,
which is `MotionVector()`, are initialised in a header outside the sources
and are the parameters `default_mode`, `default_rate`, `default_distortion`
and `default_cost`. -/
structure SearchContext (P : Type) where
  qindex_ : Fin 128
  clamp : MotionVector → MotionVector
  search_predict : MotionVector → P
  sad : P → Nat
  sad_motion_vector_cost : MotionVector → MotionVector → Nat → Nat
  rdcost : Nat → Nat → Nat → Nat → Nat
  default_mode : mbmode
  default_rate : Nat
  default_distortion : Nat
  default_cost : Nat

/-- `MBPredictionData()`: a default-constructed record. -/
def SearchContext.default_pred {P : Type} (env : SearchContext P) : MBPredictionData :=
  { prediction_mode := env.default_mode, mv := MotionVector.zero, rate := env.default_rate,
    distortion := env.default_distortion, cost := env.default_cost }

/-- Lines 58-59: `MotionVector direction( ( step_size << 1 ) * ( x + y ),
( step_size << 1 ) * ( x - y ) )`. The products are computed in `size_t` and
narrowed to `int16_t` by the constructor. -/
def direction (step_size : Nat) (x y : Int) : MotionVector :=
  MotionVector.make
    ((((step_size <<< 1) % 18446744073709551616 * to_size_t (x + y))
      % 18446744073709551616 : Nat) : Int)
    ((((step_size <<< 1) % 18446744073709551616 * to_size_t (x - y))
      % 18446744073709551616 : Nat) : Int)

/-- Lines 57-61: the candidate vector `pred.mv` of the offset `(x, y)`. -/
def candidate_vector (origin : MotionVector) (step_size : Nat) (x y : Int) : MotionVector :=
  MotionVector.zero.add (origin.add (direction step_size x y))

/-- Lines 65-70: the rate-distortion cost the search computes for the
candidate vector `mv`; `base_mv` is the clamped base vector of line 47. -/
def search_cost {P : Type} (env : SearchContext P) (base_mv mv : MotionVector) : Nat :=
  env.rdcost
    (env.sad_motion_vector_cost mv MotionVector.zero (sad_per_bit16lut.getD env.qindex_.val 0))
    (env.sad (env.search_predict (env.clamp (mv.add base_mv)))) 1 1

/-- Lines 55-74: the body of the two nested loops for the offset `(x, y)`,
as a function of `best_pred`. Every member of `pred` that `best_pred = pred`
copies has been assigned in the same iteration, except `prediction_mode`,
which `pred` keeps from its construction. -/
def diamond_visit {P : Type} (env : SearchContext P) (base_mv origin : MotionVector)
    (step_size : Nat) (x y : Int) (best_pred : MBPredictionData) : MBPredictionData :=
  if int_and x y = 0 ∧ int_or x y ≠ 0 then best_pred
  else if out_of_bounds (candidate_vector origin step_size x y) then best_pred
  else if search_cost env base_mv (candidate_vector origin step_size x y) < best_pred.cost then
    { env.default_pred with
      mv := candidate_vector origin step_size x y,
      distortion := env.sad (env.search_predict
        (env.clamp ((candidate_vector origin step_size x y).add base_mv))),
      rate := env.sad_motion_vector_cost (candidate_vector origin step_size x y)
        MotionVector.zero (sad_per_bit16lut.getD env.qindex_.val 0),
      cost := search_cost env base_mv (candidate_vector origin step_size x y) }
  else best_pred

/-- Lines 50-76: one pass of the loops `for x = -1..1`, `for y = -1..1`,
from a default-constructed `best_pred`. -/
def diamond_pass {P : Type} (env : SearchContext P) (base_mv origin : MotionVector)
    (step_size : Nat) : MBPredictionData :=
  ([-1, 0, 1] : List Int).foldl
    (fun best_x x =>
      ([-1, 0, 1] : List Int).foldl
        (fun best_pred y => diamond_visit env base_mv origin step_size x y best_pred) best_x)
    env.default_pred

/-- Lines 49-82: the loop `while ( step_size > 0 )`, returning `origin`. -/
def diamond_loop {P : Type} (env : SearchContext P) (base_mv : MotionVector)
    (step_size : Nat) (origin : MotionVector) : MotionVector :=
  if h : step_size > 0 then
    diamond_loop env base_mv (step_size / 2) (diamond_pass env base_mv origin step_size).mv
  else origin
termination_by step_size
decreasing_by exact Nat.div_lt_self h (by norm_num)

/-- `Encoder::diamond_search( ..., base_mv, origin, step_size )`. -/
def diamond_search {P : Type} (env : SearchContext P) (base_mv origin : MotionVector)
    (step_size : Nat) : MotionVector :=
  diamond_loop env (env.clamp base_mv) step_size origin

/-- The successive values of `origin` in a run of the loop of `diamond_search`:
the starting origin, then the origin chosen at the end of each iteration. -/
def diamond_origins {P : Type} (env : SearchContext P) (base_mv : MotionVector)
    (step_size : Nat) (origin : MotionVector) : List MotionVector :=
  if h : step_size > 0 then
    origin :: diamond_origins env base_mv (step_size / 2)
      (diamond_pass env base_mv origin step_size).mv
  else [origin]
termination_by step_size
decreasing_by exact Nat.div_lt_self h (by norm_num)

/-! ## `Encoder::luma_mb_inter_predict` (encode_inter.cc, lines 85-224) -/

/-- The reference frames a macroblock header can name (the labels of the
`switch` of lines 300-315). -/
inductive reference_frame where
  | CURRENT_FRAME
  | LAST_FRAME
  | GOLDEN_FRAME
  | ALTREF_FRAME
  deriving DecidableEq, Repr

/-- The part of a luma sub-block (`YBlock`) the function writes. -/
structure YBlock where
  motion_vector : MotionVector
  coefficients : SafeArray Int 16
  type_ : BlockType
  has_nonzero : Bool

/-- The part of the second-order block (`Y2Block`) the function writes. -/
structure Y2Block where
  prediction_mode : mbmode
  coded : Bool
  coefficients : SafeArray Int 16
  has_nonzero : Bool

/-- The part of the macroblock header the function writes. -/
structure MacroblockHeader where
  is_inter_mb : Bool
  reference : reference_frame
  deriving DecidableEq, Repr

/-- The part of an `InterFrameMacroblock` the function writes: header, `Y2()`,
the 4x4 luma sub-blocks `Y().at( column, row )`, and the vector behind
`set_base_motion_vector` / `base_motion_vector` (accessors declared outside the
sources, taken as the setter and getter of one stored vector). -/
structure InterFrameMacroblock where
  header : MacroblockHeader
  Y2 : Y2Block
  Y : Fin 4 → Fin 4 → YBlock
  base_motion_vector : MotionVector

/-- What `luma_mb_inter_predict` reads from the encoder and its arguments, on
top of what `diamond_search` reads. External collaborators: `intra_best` is
the record `luma_mb_best_prediction_mode( ... )` returns; `census_best`,
`census_near`, `census_nearest` are `census.best()`, `census.near()`,
`census.nearest()`; `inter_predict` is the buffer
`reference_mb.Y.inter_predict( mv, reference.Y(), prediction )` fills;
`variance` is `variance( original_mb.Y, prediction )`; `mbmode_cost` is
`costs_.mbmode_costs.at( 1 ).at( prediction_mode )`; `subtract_dct` gives the
coefficients `subtract_dct` leaves in the sub-block at `(column, row)` for a
given content of `reconstructed_mb.Y`; `quantize`, `quantize_y2`, `wht` and
the two `calculate_has_nonzero` are the functions of those names. -/
structure InterContext (P : Type) extends SearchContext P where
  intra_best : MBPredictionData
  census_best : MotionVector
  census_near : MotionVector
  census_nearest : MotionVector
  inter_predict : MotionVector → P
  variance : P → Nat
  mbmode_cost : mbmode → Nat
  motion_vector_cost : MotionVector → Nat
  RATE_MULTIPLIER : Nat
  DISTORTION_MULTIPLIER : Nat
  subtract_dct : P → Fin 4 → Fin 4 → SafeArray Int 16
  quantize : SafeArray Int 16 → SafeArray Int 16
  quantize_y2 : SafeArray Int 16 → SafeArray Int 16
  wht : SafeArray (Option Int) 16 → SafeArray Int 16
  calculate_has_nonzero : BlockType → SafeArray Int 16 → Bool
  calculate_has_nonzero_y2 : SafeArray Int 16 → Bool

/-- Lines 128-131: the loop `for ( size_t step = 7; step < 8; step-- )` from
the state `(step, mv)`. `step--` is taken modulo 2^64: after `step = 0` the
counter wraps and the test `step < 8` fails. -/
def newmv_loop {P : Type} (env : InterContext P) (step : Nat) (mv : MotionVector) :
    MotionVector :=
  if step < 8 then
    newmv_loop env ((step + 18446744073709551615) % 18446744073709551616)
      (diamond_search env.toSearchContext env.census_best mv (1 <<< step))
  else mv
termination_by (if step < 8 then step + 1 else 0)
decreasing_by
  simp_wf
  split_ifs <;> omega

/-- Lines 126-159: the `switch` on the prediction mode: the vector `mv` of the
candidate, `none` where the iteration is abandoned by `continue`, and the
`runtime_error` of the `default` label. -/
def candidate_mv {P : Type} (env : InterContext P) (prediction_mode : mbmode) :
    Except Fault (Option MotionVector) :=
  match prediction_mode with
  | .NEWMV =>
    if (env.clamp (newmv_loop env 7 MotionVector.zero)).empty then .ok none
    else .ok (some (env.clamp (newmv_loop env 7 MotionVector.zero)))
  | .NEARESTMV =>
    if (env.clamp env.census_nearest).empty then .ok none
    else .ok (some (env.clamp env.census_nearest))
  | .NEARMV =>
    if (env.clamp env.census_near).empty then .ok none
    else .ok (some (env.clamp env.census_near))
  | .ZEROMV => .ok (some MotionVector.zero)
  | _ => .error .not_supported

/-- Lines 161-170: the record `pred` of a candidate of mode `prediction_mode`
and vector `mv`. `pred.mv` is not assigned and keeps the default; the sum of
the two rates is a `uint32_t`. -/
def scored_pred {P : Type} (env : InterContext P) (prediction_mode : mbmode)
    (mv : MotionVector) : MBPredictionData :=
  { env.default_pred with
    prediction_mode := prediction_mode,
    distortion := env.variance (env.inter_predict mv),
    rate :=
      if prediction_mode = .NEWMV then
        (env.mbmode_cost prediction_mode + env.motion_vector_cost mv) % 4294967296
      else env.mbmode_cost prediction_mode,
    cost := env.rdcost
      (if prediction_mode = .NEWMV then
        (env.mbmode_cost prediction_mode + env.motion_vector_cost mv) % 4294967296
      else env.mbmode_cost prediction_mode)
      (env.variance (env.inter_predict mv)) env.RATE_MULTIPLIER env.DISTORTION_MULTIPLIER }

/-- The variables the loop over the inter modes carries: `best_pred`,
`best_mv` and the content of `reconstructed_mb.Y`. -/
structure Selection (P : Type) where
  best_pred : MBPredictionData
  best_mv : MotionVector
  reconstructed_Y : P

/-- Lines 121-177: one iteration of the loop over the inter modes. -/
def try_mode {P : Type} (env : InterContext P) (sel : Selection P) (prediction_mode : mbmode) :
    Except Fault (Selection P) :=
  match candidate_mv env prediction_mode with
  | .error e => .error e
  | .ok none => .ok sel
  | .ok (some mv) =>
    if (scored_pred env prediction_mode mv).cost < sel.best_pred.cost then
      .ok { best_pred := scored_pred env prediction_mode mv, best_mv := mv,
            reconstructed_Y := env.inter_predict mv }
    else .ok sel

/-- Line 119: `inter_modes`. -/
def inter_modes : List mbmode := [.ZEROMV, .NEARESTMV, .NEARMV, .NEWMV]

/-- Lines 93-177: the selection, from the intra candidate, the default
`best_mv` and the content `reconstructed_Y` the intra search left. -/
def select_mode {P : Type} (env : InterContext P) (reconstructed_Y : P) :
    Except Fault (Selection P) :=
  inter_modes.foldlM (try_mode env)
    { best_pred := env.intra_best, best_mv := MotionVector.zero,
      reconstructed_Y := reconstructed_Y }

/-- The order in which `forall_ij` visits the 4x4 sub-blocks: `(column, row)`,
row by row. -/
def forall_ij_order : List (Fin 4 × Fin 4) :=
  [(0, 0), (1, 0), (2, 0), (3, 0), (0, 1), (1, 1), (2, 1), (3, 1),
   (0, 2), (1, 2), (2, 2), (3, 2), (0, 3), (1, 3), (2, 3), (3, 3)]

/-- What the second `forall_ij` of the inter branch carries: the sub-blocks,
`walsh_input` (an entry is `none` until it is assigned) and the number of
assignments each entry of `walsh_input` has received. -/
structure ResidualState where
  Y : Fin 4 → Fin 4 → YBlock
  walsh_input : SafeArray (Option Int) 16
  writes : SafeArray Nat 16

/-- Lines 203-216: the lambda applied to the sub-block at `(sb_column, sb_row)`:
`subtract_dct`, the assignment `walsh_input.at( sb_column + 4 * sb_row ) =
frame_sb.coefficients().at( 0 )`, `set_dc_coefficient( 0 )`,
`set_Y_after_Y2()`, the quantization and `calculate_has_nonzero()`. -/
def residual_visit {P : Type} (env : InterContext P) (reconstructed_Y : P)
    (st : ResidualState) (ij : Fin 4 × Fin 4) : Except Fault ResidualState :=
  let transformed := env.subtract_dct reconstructed_Y ij.1 ij.2
  if h : ij.1.val + 4 * ij.2.val < 16 then
    let without_dc := Function.update transformed 0 0
    let quantized := env.quantize without_dc
    .ok {
      Y := Function.update st.Y ij.1 (Function.update (st.Y ij.1) ij.2
        { motion_vector := (st.Y ij.1 ij.2).motion_vector,
          coefficients := quantized,
          type_ := .Y_after_Y2,
          has_nonzero := env.calculate_has_nonzero .Y_after_Y2 quantized }),
      walsh_input := Function.update st.walsh_input ⟨ij.1.val + 4 * ij.2.val, h⟩
        (some (transformed 0)),
      writes := Function.update st.writes ⟨ij.1.val + 4 * ij.2.val, h⟩
        (st.writes ⟨ij.1.val + 4 * ij.2.val, h⟩ + 1) }
  else .error .out_of_range

/-- What `luma_mb_inter_predict` leaves: the macroblock as its own statements
wrote it, the content of `reconstructed_mb.Y` after the selection, the
selection itself, the mode `luma_mb_apply_intra_prediction` was called with
(`none` when it was not called; the effects of that external call are not
part of the model), and `walsh_input` with its assignment counts in the
inter branch. -/
structure LumaResult (P : Type) where
  frame_mb : InterFrameMacroblock
  selection : Selection P
  intra_applied : Option mbmode
  walsh_input : SafeArray (Option Int) 16
  writes : SafeArray Nat 16

/-- Lines 179-223: the commit of the selection `sel`. In the inter branch:
the header, the mode of `Y2()`, `set_base_motion_vector( best_mv )`, the
first `forall` (every sub-block gets `base_motion_vector()`), the second
`forall_ij` (`residual_visit`), and the second-order block. -/
def commit_selection {P : Type} (env : InterContext P) (frame_mb : InterFrameMacroblock)
    (sel : Selection P) : Except Fault (LumaResult P) :=
  if sel.best_pred.prediction_mode.rank ≤ mbmode.B_PRED.rank then
    .ok {
      frame_mb := { frame_mb with header := { frame_mb.header with is_inter_mb := false } },
      selection := sel,
      intra_applied := some sel.best_pred.prediction_mode,
      walsh_input := fun _ => none,
      writes := fun _ => 0 }
  else
    let header : MacroblockHeader := { is_inter_mb := true, reference := .LAST_FRAME }
    let base_motion_vector := sel.best_mv
    let Y : Fin 4 → Fin 4 → YBlock :=
      fun column row => { frame_mb.Y column row with motion_vector := base_motion_vector }
    match forall_ij_order.foldlM (residual_visit env sel.reconstructed_Y)
      { Y := Y, walsh_input := fun _ => none, writes := fun _ => 0 } with
    | .error e => .error e
    | .ok st =>
      let y2_coefficients := env.quantize_y2 (env.wht st.walsh_input)
      .ok {
        frame_mb :=
          { header := header,
            Y2 := { prediction_mode := sel.best_pred.prediction_mode, coded := true,
                    coefficients := y2_coefficients,
                    has_nonzero := env.calculate_has_nonzero_y2 y2_coefficients },
            Y := st.Y,
            base_motion_vector := base_motion_vector },
        selection := sel,
        intra_applied := none,
        walsh_input := st.walsh_input,
        writes := st.writes }

/-- `Encoder::luma_mb_inter_predict( ... )`. -/
def luma_mb_inter_predict {P : Type} (env : InterContext P) (reconstructed_Y : P)
    (frame_mb : InterFrameMacroblock) : Except Fault (LumaResult P) :=
  match select_mode env reconstructed_Y with
  | .error e => .error e
  | .ok sel => commit_selection env frame_mb sel

/-- A search context for concrete runs: no clamping, zero distortion, a rate of
0 for the vector (2000, 0) and of 10 for every other vector, cost = rate *
multiplier + distortion * multiplier, and default members at the largest
32-bit value. -/
def sample_search : SearchContext Unit where
  qindex_ := 0
  clamp := id
  search_predict := fun _ => ()
  sad := fun _ => 0
  sad_motion_vector_cost := fun mv _ _ => if mv = ⟨2000, 0⟩ then 0 else 10
  rdcost := fun rate distortion rate_multiplier distortion_multiplier =>
    rate * rate_multiplier + distortion * distortion_multiplier
  default_mode := .DC_PRED
  default_rate := 4294967295
  default_distortion := 4294967295
  default_cost := 4294967295

/-- Either the record still has the default vector and cost, or its cost is the
cost the search computes for its vector. -/
def cost_recorded {P : Type} (env : SearchContext P) (base_mv : MotionVector)
    (best : MBPredictionData) : Prop :=
  (best.mv = MotionVector.zero ∧ best.cost = env.default_cost) ∨
    best.cost = search_cost env base_mv best.mv

/-- The record of the candidate of mode `prediction_mode` when the loop scores
it, `none` when the candidate is skipped (or the mode is not supported). -/
def scored {P : Type} (env : InterContext P) (prediction_mode : mbmode) :
    Option MBPredictionData :=
  match candidate_mv env prediction_mode with
  | .ok (some mv) => some (scored_pred env prediction_mode mv)
  | _ => none

/-- The candidates in the order the selection meets them: the pre-computed
intra candidate, then the scored candidates of ZEROMV, NEARESTMV, NEARMV and
NEWMV. -/
def candidates_in_order {P : Type} (env : InterContext P) : List MBPredictionData :=
  env.intra_best :: inter_modes.filterMap (scored env)

/-- The test of line 172 on records: the candidate replaces the best one only
when it is strictly cheaper. -/
def keep_cheaper (best_pred pred : MBPredictionData) : MBPredictionData :=
  if pred.cost < best_pred.cost then pred else best_pred

/-- The selection is either untouched, or holds the record, vector and
prediction of a scored candidate. -/
def selection_linked {P : Type} (env : InterContext P) (init sel : Selection P) : Prop :=
  sel = init ∨
  ∃ mode ∈ inter_modes, candidate_mv env mode = .ok (some sel.best_mv) ∧
    sel.best_pred = scored_pred env mode sel.best_mv ∧
    sel.reconstructed_Y = env.inter_predict sel.best_mv

/-- An intra candidate of cost 100, as `luma_mb_best_prediction_mode` could
return it. -/
def sample_intra : MBPredictionData :=
  { prediction_mode := .DC_PRED, mv := MotionVector.zero, rate := 40, distortion := 60,
    cost := 100 }

/-- A context for concrete runs of `luma_mb_inter_predict`: the census
vectors are empty, every mode costs 3, the vector cost is 1, and the
variance of a prediction is 0. -/
def sample_inter : InterContext Unit :=
  { sample_search with
    intra_best := sample_intra
    census_best := MotionVector.zero
    census_near := MotionVector.zero
    census_nearest := MotionVector.zero
    inter_predict := fun _ => ()
    variance := fun _ => 0
    mbmode_cost := fun _ => 3
    motion_vector_cost := fun _ => 1
    RATE_MULTIPLIER := 1
    DISTORTION_MULTIPLIER := 1
    subtract_dct := fun _ column row => fun i => (column.val + 4 * row.val + i.val : Int)
    quantize := fun c => c
    quantize_y2 := fun c => c
    wht := fun w => fun i => (w i).getD 0
    calculate_has_nonzero := fun _ c => decide (∃ i, c i ≠ 0)
    calculate_has_nonzero_y2 := fun c => decide (∃ i, c i ≠ 0) }

/-- A macroblock before the call: intra header, zero vectors and coefficients. -/
def sample_macroblock : InterFrameMacroblock :=
  { header := { is_inter_mb := false, reference := .CURRENT_FRAME },
    Y2 := { prediction_mode := .DC_PRED, coded := false, coefficients := fun _ => 0,
            has_nonzero := false },
    Y := fun _ _ => { motion_vector := ⟨9, 9⟩, coefficients := fun _ => 0,
                      type_ := .Y_without_Y2, has_nonzero := false },
    base_motion_vector := ⟨9, 9⟩ }

/-! ## Vocabulary for the pattern and the schedule of the search -/

/-- The offsets `(x, y)` of the two nested loops of `diamond_search` that the
test of line 55 lets through, in the order the loops meet them. -/
def evaluated_offsets : List (Int × Int) := [(-1, -1), (-1, 1), (0, 0), (1, -1), (1, 1)]

/-- The offsets `(x, y)` of the two nested loops that the test of line 55 skips. -/
def skipped_offsets : List (Int × Int) := [(-1, 0), (0, -1), (0, 1), (1, 0)]

/-- A search context in which the vector (8, 4) has rate 0 and every other
vector rate 10; the rest is as in `sample_search`. -/
def peaked_search : SearchContext Unit :=
  { sample_search with
    sad_motion_vector_cost := fun mv _ _ => if mv = ⟨8, 4⟩ then 0 else 10 }

/-- The calls of `diamond_search` the loop of lines 128-131 makes from the
state `(step, mv)`, in order: the step size `1 << step` and the starting
origin of each call. -/
def newmv_calls {P : Type} (env : InterContext P) (step : Nat) (mv : MotionVector) :
    List (Nat × MotionVector) :=
  if step < 8 then
    (1 <<< step, mv) ::
      newmv_calls env ((step + 18446744073709551615) % 18446744073709551616)
        (diamond_search env.toSearchContext env.census_best mv (1 <<< step))
  else []
termination_by (if step < 8 then step + 1 else 0)
decreasing_by
  simp_wf
  split_ifs <;> omega

/-- What the end-of-block rule links two consecutive iterations `v`, `w` of a
pass by: `v` did not end the block, and `w` queried the end-of-block
probability exactly when `v` decoded a value (and not a zero). -/
def eob_link (v w : Visit) : Prop :=
  v.token ≠ .EOB ∧ (w.eob_queried = true ↔ ∃ x, v.token = .value x)

/-! ## `Encoder::optimize_interframe_probs` (encode_inter.cc, lines 288-322) -/

/-- The four `size_t` counters of lines 290-293. -/
structure ReferenceCounts where
  inter_count : Nat
  last_count : Nat
  golden_count : Nat
  total_count : Nat
  deriving DecidableEq, Repr

/-- `count++` on a `size_t` (64 bits). -/
def size_t_succ (count : Nat) : Nat := (count + 1) % 18446744073709551616

/-- Lines 296-316: the lambda applied to a macroblock: `total_count++`, then
the `switch` on `frame_mb.header().reference()`. -/
def count_reference (counts : ReferenceCounts) (frame_mb : InterFrameMacroblock) :
    ReferenceCounts :=
  match frame_mb.header.reference with
  | .CURRENT_FRAME =>
    { counts with total_count := size_t_succ counts.total_count,
                  inter_count := size_t_succ counts.inter_count }
  | .LAST_FRAME =>
    { counts with total_count := size_t_succ counts.total_count,
                  last_count := size_t_succ counts.last_count }
  | .GOLDEN_FRAME =>
    { counts with total_count := size_t_succ counts.total_count,
                  golden_count := size_t_succ counts.golden_count }
  | .ALTREF_FRAME =>
    { counts with total_count := size_t_succ counts.total_count }

/-- The three members of the frame header the function assigns. -/
structure InterFrameHeader where
  prob_inter : Probability
  prob_references_last : Probability
  prob_references_golden : Probability
  deriving DecidableEq, Repr

/-- An `InterFrame`: its header and its macroblocks, in the order `forall`
visits them. -/
structure InterFrame where
  header : InterFrameHeader
  macroblocks : List InterFrameMacroblock

/-- `Encoder::optimize_interframe_probs( frame )`. `Encoder::calc_prob` is
declared outside the sources and is a parameter. -/
def optimize_interframe_probs (calc_prob : Nat → Nat → Probability) (frame : InterFrame) :
    InterFrame :=
  let counts := frame.macroblocks.foldl count_reference ⟨0, 0, 0, 0⟩
  { frame with header :=
      { prob_inter := calc_prob counts.inter_count counts.total_count,
        prob_references_last := calc_prob counts.last_count counts.total_count,
        prob_references_golden := calc_prob counts.golden_count counts.total_count } }

/-- The number of macroblocks of a list whose header reference is `r`. -/
def reference_count (r : reference_frame) (macroblocks : List InterFrameMacroblock) : Nat :=
  macroblocks.countP (fun frame_mb => decide (frame_mb.header.reference = r))

/-- A macroblock whose header names the reference `r`. -/
def macroblock_with (r : reference_frame) : InterFrameMacroblock :=
  { sample_macroblock with header := { is_inter_mb := true, reference := r } }

/-- A frame of five macroblocks: two on the current frame, one on the last,
one on the golden and one on the altref frame. -/
def sample_frame : InterFrame :=
  { header := ⟨0, 0, 0⟩,
    macroblocks := [macroblock_with .CURRENT_FRAME, macroblock_with .LAST_FRAME,
      macroblock_with .ALTREF_FRAME, macroblock_with .CURRENT_FRAME,
      macroblock_with .GOLDEN_FRAME] }

/-! ## `Encoder::chroma_mb_inter_predict` (encode_inter.cc, lines 226-286) -/

/-- Modelled from the spec: `frame_mb.inter_coded()` is declared outside the
sources. Section 4.5: "the macroblock must already be marked inter-coded", the
mark being the flag `is_inter_mb` that `luma_mb_inter_predict` writes. -/
def InterFrameMacroblock.inter_coded (frame_mb : InterFrameMacroblock) : Bool :=
  frame_mb.header.is_inter_mb

/-- The part of a chroma sub-block (`UVBlock`) the function writes. -/
structure UVBlock where
  motion_vector : MotionVector
  coefficients : SafeArray Int 16
  has_nonzero : Bool

/-- The chroma planes of a macroblock: the 2x2 sub-blocks `U().at( column, row )`
and `V().at( column, row )`. -/
structure ChromaBlocks where
  U : Fin 2 → Fin 2 → UVBlock
  V : Fin 2 → Fin 2 → UVBlock

/-- What `chroma_mb_inter_predict` reads from the encoder and its arguments.
External collaborators: `luma_to_chroma` is `MotionVector::luma_to_chroma`;
`u_inter_predict` and `v_inter_predict` are the buffers
`reference_mb.U.inter_predict( mv, reference.U(), u_prediction )` and
`reference_mb.V.inter_predict( mv, reference.V(), v_prediction )` fill;
`subtract_dct_u` and `subtract_dct_v` give the coefficients `subtract_dct`
leaves in the sub-block at `(sb_column, sb_row)` from the original sub-block
and the given content of `reconstructed_mb.U` or `reconstructed_mb.V`;
`quantize` is `UVBlock::quantize( quantizer, . )` and
`calculate_has_nonzero` the flag `calculate_has_nonzero()` computes. -/
structure ChromaContext (P : Type) where
  luma_to_chroma : MotionVector → MotionVector → MotionVector → MotionVector → MotionVector
  u_inter_predict : MotionVector → P
  v_inter_predict : MotionVector → P
  subtract_dct_u : P → Fin 2 → Fin 2 → SafeArray Int 16
  subtract_dct_v : P → Fin 2 → Fin 2 → SafeArray Int 16
  quantize : SafeArray Int 16 → SafeArray Int 16
  calculate_has_nonzero : SafeArray Int 16 → Bool

/-- `frame_mb.Y().at( column, row )`: bounds-checked on both coordinates. -/
def Y_at (Y : Fin 4 → Fin 4 → YBlock) (column row : Nat) : Except Fault YBlock :=
  if h : column < 4 ∧ row < 4 then .ok (Y ⟨column, h.1⟩ ⟨row, h.2⟩) else .error .out_of_range

/-- `frame_mb.U().at( column, row )`: bounds-checked on both coordinates. -/
def UV_at (U : Fin 2 → Fin 2 → UVBlock) (column row : Nat) : Except Fault UVBlock :=
  if h : column < 2 ∧ row < 2 then .ok (U ⟨column, h.1⟩ ⟨row, h.2⟩) else .error .out_of_range

/-- The order in which `forall_ij` visits the 2x2 chroma sub-blocks:
`(column, row)`, row by row. -/
def forall_ij_order_uv : List (Fin 2 × Fin 2) := [(0, 0), (1, 0), (0, 1), (1, 1)]

/-- Lines 243-250: the lambda of the first `frame_mb.U().forall_ij`: the
sub-block gets `luma_to_chroma` of the vectors of the four luma sub-blocks at
`(column * 2, row * 2)`, `(column * 2 + 1, row * 2)`, `(column * 2, row * 2 + 1)`
and `(column * 2 + 1, row * 2 + 1)` (`unsigned int` products and sums of
numbers below 2, which do not wrap). -/
def chroma_vector_visit {P : Type} (env : ChromaContext P) (Y : Fin 4 → Fin 4 → YBlock)
    (U : Fin 2 → Fin 2 → UVBlock) (ij : Fin 2 × Fin 2) :
    Except Fault (Fin 2 → Fin 2 → UVBlock) := do
  let a ← Y_at Y (ij.1.val * 2) (ij.2.val * 2)
  let b ← Y_at Y (ij.1.val * 2 + 1) (ij.2.val * 2)
  let c ← Y_at Y (ij.1.val * 2) (ij.2.val * 2 + 1)
  let d ← Y_at Y (ij.1.val * 2 + 1) (ij.2.val * 2 + 1)
  pure (Function.update U ij.1 (Function.update (U ij.1) ij.2
    { U ij.1 ij.2 with
      motion_vector := env.luma_to_chroma a.motion_vector b.motion_vector
        c.motion_vector d.motion_vector }))

/-- Lines 261-271 and 274-284: the lambda of the residual loops over a chroma
plane: `subtract_dct`, quantization, `calculate_has_nonzero()`. The motion
vector of the sub-block is not written. -/
def chroma_residual_visit {P : Type} (env : ChromaContext P)
    (subtract_dct : Fin 2 → Fin 2 → SafeArray Int 16)
    (plane : Fin 2 → Fin 2 → UVBlock) (ij : Fin 2 × Fin 2) : Fin 2 → Fin 2 → UVBlock :=
  Function.update plane ij.1 (Function.update (plane ij.1) ij.2
    { motion_vector := (plane ij.1 ij.2).motion_vector,
      coefficients := env.quantize (subtract_dct ij.1 ij.2),
      has_nonzero := env.calculate_has_nonzero (env.quantize (subtract_dct ij.1 ij.2)) })

/-- What `chroma_mb_inter_predict` leaves: the chroma sub-blocks and the
contents of `reconstructed_mb.U` and `reconstructed_mb.V`. -/
structure ChromaResult (P : Type) where
  blocks : ChromaBlocks
  reconstructed_U : P
  reconstructed_V : P

/-- `Encoder::chroma_mb_inter_predict( ... )`: the assertion of line 233, the
first `forall_ij` over `U()` only, the two predictions, both made with the
vector of `U().at( 0, 0 )`, and the two residual loops. -/
def chroma_mb_inter_predict {P : Type} (env : ChromaContext P)
    (frame_mb : InterFrameMacroblock) (chroma : ChromaBlocks) :
    Except Fault (ChromaResult P) :=
  if !frame_mb.inter_coded then .error .assertion_failed
  else
    match forall_ij_order_uv.foldlM (chroma_vector_visit env frame_mb.Y) chroma.U with
    | .error e => .error e
    | .ok U =>
      match UV_at U 0 0 with
      | .error e => .error e
      | .ok first =>
        let u_prediction := env.u_inter_predict first.motion_vector
        let v_prediction := env.v_inter_predict first.motion_vector
        .ok {
          blocks :=
            { U := forall_ij_order_uv.foldl
                (chroma_residual_visit env (env.subtract_dct_u u_prediction)) U,
              V := forall_ij_order_uv.foldl
                (chroma_residual_visit env (env.subtract_dct_v v_prediction)) chroma.V },
          reconstructed_U := u_prediction,
          reconstructed_V := v_prediction }

/-- The luma coordinate `2 * i + d` of the chroma coordinate `i`, for `d` in 0, 1. -/
def luma_index (i d : Fin 2) : Fin 4 := ⟨i.val * 2 + d.val, by omega⟩

/-- The claimed chroma vector at `(column, row)`: `luma_to_chroma` of the
vectors of the four co-located luma sub-blocks `(2 * column, 2 * row)`,
`(2 * column + 1, 2 * row)`, `(2 * column, 2 * row + 1)`,
`(2 * column + 1, 2 * row + 1)`. -/
def co_located_vector {P : Type} (env : ChromaContext P) (Y : Fin 4 → Fin 4 → YBlock)
    (column row : Fin 2) : MotionVector :=
  env.luma_to_chroma (Y (luma_index column 0) (luma_index row 0)).motion_vector
    (Y (luma_index column 1) (luma_index row 0)).motion_vector
    (Y (luma_index column 0) (luma_index row 1)).motion_vector
    (Y (luma_index column 1) (luma_index row 1)).motion_vector

/-- A chroma context for concrete runs: `luma_to_chroma` is the componentwise
mean of the four vectors, the transform gives zero coefficients. -/
def sample_chroma : ChromaContext Unit where
  luma_to_chroma := fun a b c d =>
    ⟨toInt16 ((a.x + b.x + c.x + d.x) / 4), toInt16 ((a.y + b.y + c.y + d.y) / 4)⟩
  u_inter_predict := fun _ => ()
  v_inter_predict := fun _ => ()
  subtract_dct_u := fun _ _ _ => fun _ => 0
  subtract_dct_v := fun _ _ _ => fun _ => 0
  quantize := fun c => c
  calculate_has_nonzero := fun c => decide (∃ i, c i ≠ 0)

/-- An inter-coded macroblock whose 16 luma sub-blocks carry the vector (4, 4),
as the luma commit leaves them. -/
def inter_macroblock : InterFrameMacroblock :=
  { header := { is_inter_mb := true, reference := .LAST_FRAME },
    Y2 := { prediction_mode := .NEWMV, coded := true, coefficients := fun _ => 0,
            has_nonzero := false },
    Y := fun _ _ => { motion_vector := ⟨4, 4⟩, coefficients := fun _ => 0,
                      type_ := .Y_after_Y2, has_nonzero := false },
    base_motion_vector := ⟨4, 4⟩ }

/-- Chroma sub-blocks before the call: empty vectors, zero coefficients. -/
def fresh_chroma : ChromaBlocks :=
  { U := fun _ _ => { motion_vector := MotionVector.zero, coefficients := fun _ => 0,
                      has_nonzero := false },
    V := fun _ _ => { motion_vector := MotionVector.zero, coefficients := fun _ => 0,
                      has_nonzero := false } }

/-! ## `Encoder::encode_with_quantizer<InterFrame>` (encode_inter.cc, lines 342-360) -/

/-- Which of the two chroma functions lines 353-360 called. -/
inductive ChromaCall where
  | chroma_mb_inter_predict
  | chroma_mb_intra_predict
  deriving DecidableEq, Repr

/-- What the lambda of line 343 reads for one macroblock. External
collaborators: `apply_intra` is what `luma_mb_apply_intra_prediction` (called
inside `luma_mb_inter_predict` with the mode it is given) does to the
macroblock, and `chroma_intra` what `chroma_mb_intra_predict` does to the
chroma sub-blocks; both are declared outside the sources. -/
structure MacroblockContext (P Q : Type) where
  luma : InterContext P
  chroma : ChromaContext Q
  apply_intra : mbmode → InterFrameMacroblock → InterFrameMacroblock
  chroma_intra : InterFrameMacroblock → ChromaBlocks → ChromaBlocks
  reconstructed_Y : P
  frame_mb : InterFrameMacroblock
  chroma_blocks : ChromaBlocks

/-- What lines 349-360 leave for one macroblock: the macroblock after
`luma_mb_inter_predict`, the chroma function that was called, and the chroma
sub-blocks after it. -/
structure MacroblockStep where
  frame_mb : InterFrameMacroblock
  chroma_call : ChromaCall
  chroma_blocks : ChromaBlocks

/-- The macroblock as `luma_mb_inter_predict` leaves it to its caller: in the
intra branch the external `luma_mb_apply_intra_prediction` has worked on it. -/
def after_luma {P : Type} (apply_intra : mbmode → InterFrameMacroblock → InterFrameMacroblock)
    (r : LumaResult P) : InterFrameMacroblock :=
  match r.intra_applied with
  | some prediction_mode => apply_intra prediction_mode r.frame_mb
  | none => r.frame_mb

/-- Lines 349-360: `luma_mb_inter_predict`, then the test of
`frame_mb.inter_coded()` and the call of one of the two chroma functions. -/
def encode_macroblock {P Q : Type} (env : MacroblockContext P Q) :
    Except Fault MacroblockStep :=
  match luma_mb_inter_predict env.luma env.reconstructed_Y env.frame_mb with
  | .error e => .error e
  | .ok r =>
    if (after_luma env.apply_intra r).inter_coded then
      match chroma_mb_inter_predict env.chroma (after_luma env.apply_intra r)
        env.chroma_blocks with
      | .error e => .error e
      | .ok c =>
        .ok { frame_mb := after_luma env.apply_intra r,
              chroma_call := .chroma_mb_inter_predict,
              chroma_blocks := c.blocks }
    else
      .ok { frame_mb := after_luma env.apply_intra r,
            chroma_call := .chroma_mb_intra_predict,
            chroma_blocks := env.chroma_intra (after_luma env.apply_intra r)
              env.chroma_blocks }

/-- Line 343: `raster.macroblocks().forall_ij( ... )`, the macroblocks one after
the other; the first fault ends the loop. -/
def encode_macroblocks {P Q : Type} :
    List (MacroblockContext P Q) → Except Fault (List MacroblockStep)
  | [] => .ok []
  | env :: rest =>
    match encode_macroblock env with
    | .error e => .error e
    | .ok step =>
      match encode_macroblocks rest with
      | .error e => .error e
      | .ok steps => .ok (step :: steps)

/-! ## The second-order input of `luma_mb_inter_predict` (lines 199-222) -/

/-- The entry `sb_column + 4 * sb_row` of `walsh_input` that the sub-block at
`(sb_column, sb_row)` assigns (an `unsigned int` sum below 16). -/
def walsh_index (ij : Fin 4 × Fin 4) : Fin 16 :=
  ⟨ij.1.val + 4 * ij.2.val, by have h1 := ij.1.isLt; have h2 := ij.2.isLt; omega⟩

/-- Modelled from the spec: `set_dc_coefficient` is declared outside the
sources. Section 4.4: "zero each sub-block's own DC term", the DC term being
the coefficient of index 0. -/
def YBlock.set_dc_coefficient (frame_sb : YBlock) (val : Int) : YBlock :=
  { frame_sb with coefficients := Function.update frame_sb.coefficients 0 val }

/-- Modelled from the spec: `set_Y_after_Y2` is declared outside the sources;
it marks the sub-block as one whose DC is carried by the second-order block. -/
def YBlock.set_Y_after_Y2 (frame_sb : YBlock) : YBlock :=
  { frame_sb with type_ := .Y_after_Y2 }

/-- Lines 207-216: the sub-block `frame_sb` at `(sb_column, sb_row)` after each
of the five statements of the lambda that write it, in their order:
`subtract_dct` (line 207; line 210 then reads the coefficient of index 0),
`set_dc_coefficient( 0 )`, `set_Y_after_Y2()`, the quantization and
`calculate_has_nonzero()`. -/
def residual_states {P : Type} (env : InterContext P) (reconstructed_Y : P)
    (frame_sb : YBlock) (ij : Fin 4 × Fin 4) : List YBlock :=
  let transformed : YBlock :=
    { frame_sb with coefficients := env.subtract_dct reconstructed_Y ij.1 ij.2 }
  let without_dc := transformed.set_dc_coefficient 0
  let marked := without_dc.set_Y_after_Y2
  let quantized : YBlock := { marked with coefficients := env.quantize marked.coefficients }
  let flagged : YBlock :=
    { quantized with
      has_nonzero := env.calculate_has_nonzero quantized.type_ quantized.coefficients }
  [transformed, without_dc, marked, quantized, flagged]

/-! # Properties -/

/-! ## `TokenDecoder::decode` -/

theorem foldl_bits_mod (bits : List Bool) (a b : Nat) (h : a % 65536 = b % 65536) :
    bits.foldl (fun acc c => 2 * acc + c.toNat) a % 65536
      = bits.foldl (fun acc c => 2 * acc + c.toNat) b % 65536 := by
  induction bits generalizing a b with
  | nil => simpa using h
  | cons c cs ih =>
    simp only [List.foldl_cons]
    apply ih
    omega

theorem at_of_lt {α : Type} {n : Nat} (a : SafeArray α n) (i : Nat) (h : i < n) :
    a.at_ i = .ok (a ⟨i, h⟩) := by
  simp [SafeArray.at_, h]

theorem bit_queries_drop (td : TokenDecoder) (i : Nat) (h : i < td.length) :
    td.bit_queries.drop i
      = Query.prob (td.bit_probabilities_ ⟨i, h⟩) :: td.bit_queries.drop (i + 1) := by
  unfold TokenDecoder.bit_queries
  rw [List.drop_eq_getElem_cons (by simpa using h)]
  simp

theorem decode_loop_spec {σ : Type} (answer : σ → Query → Bool × σ) (td : TokenDecoder)
    (hL : td.length ≤ 255) :
    ∀ (k fuel i increment : Nat) (data : BoolDecoder σ),
      i + k = td.length → k < fuel → increment < 65536 →
      td.decode_loop answer fuel i increment data
        = .ok ((run_queries answer data.state (td.bit_queries.drop i)).1.foldl
                  (fun acc c => 2 * acc + c.toNat) increment % 65536,
               ⟨(run_queries answer data.state (td.bit_queries.drop i)).2,
                data.queries ++ td.bit_queries.drop i⟩) := by
  intro k
  induction k with
  | zero =>
    intro fuel i increment data hi hf hinc
    obtain ⟨f, rfl⟩ : ∃ f, fuel = f + 1 := ⟨fuel - 1, by omega⟩
    have hdrop : td.bit_queries.drop i = [] := by
      apply List.drop_eq_nil_of_le
      simp [TokenDecoder.bit_queries]; omega
    have : ¬ i < td.length := by omega
    simp [TokenDecoder.decode_loop, this, hdrop, run_queries, Nat.mod_eq_of_lt hinc]
  | succ k ih =>
    intro fuel i increment data hi hf hinc
    obtain ⟨f, rfl⟩ : ∃ f, fuel = f + 1 := ⟨fuel - 1, by omega⟩
    have hlt : i < td.length := by omega
    have hi1 : (i + 1) % 256 = i + 1 := Nat.mod_eq_of_lt (by omega)
    rw [TokenDecoder.decode_loop, if_pos hlt, at_of_lt _ _ hlt]
    simp only [hi1]
    rw [ih f (i + 1) _ _ (by omega) (by omega) (Nat.mod_lt _ (by norm_num))]
    rw [bit_queries_drop td i hlt]
    simp only [run_queries, List.foldl_cons, BoolDecoder.get, List.append_assoc,
      List.singleton_append]
    congr 2
    apply foldl_bits_mod
    simp [Nat.shiftLeft_eq, Nat.mul_comm]

theorem run_queries_length {σ : Type} (answer : σ → Query → Bool × σ) (s : σ) (qs : List Query) :
    (run_queries answer s qs).1.length = qs.length := by
  induction qs generalizing s with
  | nil => rfl
  | cons q qs ih => simp [run_queries, ih]

theorem decode_eq {σ : Type} (answer : σ → Query → Bool × σ) (td : TokenDecoder)
    (fuel : Nat) (data : BoolDecoder σ) (hL : td.length ≤ 255) (hfuel : td.length < fuel) :
    td.decode answer fuel data
      = .ok ((td.base_value_ + big_endian (run_queries answer data.state td.bit_queries).1)
                % 65536,
             ⟨(run_queries answer data.state td.bit_queries).2,
              data.queries ++ td.bit_queries⟩) := by
  have h := decode_loop_spec answer td hL td.length fuel 0 0 data (by simp) hfuel (by norm_num)
  simp only [List.drop_zero] at h
  simp only [TokenDecoder.decode, h, big_endian]
  congr 2
  omega

/-- C2 (amended): for every `TokenDecoder` of bit length `L ≤ 255`, with base
value `B`, and every boolean source, `decode` returns (given fuel for its
`L + 1` loop tests), makes exactly the `L` queries of the bit positions
`0..L-1` in order, each with the fixed probability of its position, and
returns `B` plus the `L` answers read as a big-endian unsigned integer,
modulo 2^16. -/
theorem decode_reads_length_bits {σ : Type} (answer : σ → Query → Bool × σ) (td : TokenDecoder)
    (fuel : Nat) (data : BoolDecoder σ) (hL : td.length ≤ 255) (hfuel : td.length < fuel) :
    td.decode answer fuel data
        = .ok ((td.base_value_ + big_endian (run_queries answer data.state td.bit_queries).1)
                  % 65536,
               ⟨(run_queries answer data.state td.bit_queries).2,
                data.queries ++ td.bit_queries⟩) ∧
      td.bit_queries.length = td.length ∧
      (run_queries answer data.state td.bit_queries).1.length = td.length ∧
      ∀ i : Fin td.length, td.bit_queries[i.val]? = some (.prob (td.bit_probabilities_ i)) := by
  refine ⟨decode_eq answer td fuel data hL hfuel, ?_, ?_, ?_⟩
  · simp [TokenDecoder.bit_queries]
  · simp [run_queries_length, TokenDecoder.bit_queries]
  · intro i
    simp [TokenDecoder.bit_queries, List.getElem?_ofFn]

/-- Witness for C2: the 2-bit decoder of base 7 on the answers 1, 0 returns 9
after two queries. -/
theorem decode_reads_length_bits_witness :
    small_decoder.length ≤ 255 ∧ small_decoder.length < 3 ∧
    small_decoder.decode script_answer 3 ⟨[true, false, true], []⟩
      = .ok (9, ⟨[true], [.prob 128, .prob 128]⟩) := by
  refine ⟨by decide, by decide, ?_⟩
  have h := (decode_reads_length_bits script_answer small_decoder 3 ⟨[true, false, true], []⟩
    (by decide) (by decide)).1
  rw [h]
  rfl

theorem wide_loop_never_returns {σ : Type} (answer : σ → Query → Bool × σ) :
    ∀ (fuel i increment : Nat) (data : BoolDecoder σ), i < 256 →
      wide_decoder.decode_loop answer fuel i increment data = .error .out_of_fuel := by
  intro fuel
  induction fuel with
  | zero => intro i increment data _; rfl
  | succ f ih =>
    intro i increment data hi
    have hlt : i < wide_decoder.length := hi
    rw [TokenDecoder.decode_loop, if_pos hlt, at_of_lt _ _ hlt]
    exact ih _ _ _ (Nat.mod_lt _ (by norm_num))

/-- Counterexample to C2 as stated: a decoder of bit length 256 never returns
(its 8-bit loop counter wraps from 255 to 0 and stays below the length), so
it does not stop after 256 queries. -/
theorem decode_wide_never_returns :
    ¬ ∃ (fuel : Nat) (r : Nat × BoolDecoder (List Bool)),
      wide_decoder.decode script_answer fuel ⟨[], []⟩ = .ok r := by
  rintro ⟨fuel, r, h⟩
  simp [TokenDecoder.decode, wide_loop_never_returns script_answer fuel 0 0 _ (by norm_num)] at h

/-! ## `Block::parse_tokens`: basic facts -/

theorem BlockType.index_lt (t : BlockType) : t.index < 4 := by
  cases t <;> decide

theorem initial_context_le (b : Block) : initial_context b ≤ 2 := by
  unfold initial_context
  rcases b.above with _ | a <;> rcases b.left with _ | l
  · simp
  · cases l <;> simp
  · cases a <;> simp
  · cases a <;> cases l <;> simp

theorem start_index_lt (t : BlockType) : start_index t < 16 := by
  unfold start_index; split <;> decide

theorem select_prob_ok (tc : TokenConstants) (pt : ProbabilityTables) (t : BlockType)
    (index ctx : Nat) (hi : index < 16) (hc : ctx ≤ 2) :
    ∃ prob, select_prob tc pt t index ctx = .ok prob := by
  have hc3 : ctx < 3 := by omega
  refine ⟨pt.coeff_probs ⟨t.index, t.index_lt⟩ (tc.coefficient_to_band ⟨index, hi⟩)
    ⟨ctx, hc3⟩, ?_⟩
  simp only [select_prob, bind, Except.bind, at_of_lt _ _ t.index_lt, at_of_lt _ _ hi,
    at_of_lt _ _ (Fin.is_lt _), at_of_lt _ _ hc3]

theorem get_at_ok {σ : Type} (answer : σ → Query → Bool × σ) (prob : ProbabilityArray) (k : Nat)
    (hk : k < 11) (data : BoolDecoder σ) :
    get_at answer prob k data = .ok (data.get answer (.prob (prob ⟨k, hk⟩))) := by
  simp [get_at, at_of_lt _ _ hk]

theorem start_remaining (t : BlockType) : ∃ n, 16 - start_index t = n + 1 := by
  unfold start_index; split
  · exact ⟨14, rfl⟩
  · exact ⟨15, rfl⟩

/-- C3: if the first query of `parse_tokens`, the end-of-block probability at
the first coded position, answers false, the pass returns after exactly that
one query, with the coefficients and `has_nonzero_` of the block unchanged;
a block that was all zero stays all zero. -/
theorem parse_tokens_eob_first {σ : Type} (answer : σ → Query → Bool × σ) (tc : TokenConstants)
    (pt : ProbabilityTables) (fuel : Nat) (b : Block) (data : BoolDecoder σ)
    (h : ∀ prob, select_prob tc pt b.type_ (start_index b.type_) (initial_context b) = .ok prob →
      (answer data.state (.prob (prob 0))).1 = false) :
    ∃ prob s, select_prob tc pt b.type_ (start_index b.type_) (initial_context b) = .ok prob ∧
      parse_tokens answer tc pt fuel b data = .ok s ∧
      s.data.queries = data.queries ++ [.prob (prob 0)] ∧
      s.visits = [⟨start_index b.type_, initial_context b, true, .EOB⟩] ∧
      s.coefficients_ = b.coefficients_ ∧
      s.has_nonzero_ = b.has_nonzero_ ∧
      ((∀ i, b.coefficients_ i = 0) → ∀ i, s.coefficients_ i = 0) := by
  obtain ⟨prob, hprob⟩ := select_prob_ok tc pt b.type_ _ _ (start_index_lt b.type_)
    (initial_context_le b)
  obtain ⟨n, hn⟩ := start_remaining b.type_
  have h0 := h prob hprob
  refine ⟨prob, { initial_state b data with
      data := (data.get answer (.prob (prob 0))).2,
      visits := [⟨start_index b.type_, initial_context b, true, .EOB⟩] }, hprob, ?_, ?_⟩
  · simp only [parse_tokens, hn, parse_loop, if_pos (start_index_lt b.type_), parse_body,
      initial_state, hprob, bind, Except.bind, get_at_ok answer prob 0 (by decide),
      BoolDecoder.get]
    simp [h0, pure, Except.pure]
  · simp [BoolDecoder.get, initial_state]

/-- Witness for C3: a block without neighbours read from a source whose first
answer is false. -/
theorem parse_tokens_eob_first_witness :
    (∀ prob, select_prob sample_constants flat_tables (zero_block .Y2).type_
        (start_index (zero_block .Y2).type_) (initial_context (zero_block .Y2)) = .ok prob →
      (script_answer [false] (.prob (prob 0))).1 = false) ∧
    ∃ prob s, select_prob sample_constants flat_tables (zero_block .Y2).type_
        (start_index (zero_block .Y2).type_) (initial_context (zero_block .Y2)) = .ok prob ∧
      parse_tokens script_answer sample_constants flat_tables 0 (zero_block .Y2) ⟨[false], []⟩
        = .ok s ∧
      s.data.queries = [] ++ [.prob (prob 0)] ∧
      s.visits = [⟨start_index (zero_block .Y2).type_, initial_context (zero_block .Y2), true,
        .EOB⟩] ∧
      s.coefficients_ = (zero_block .Y2).coefficients_ ∧
      s.has_nonzero_ = (zero_block .Y2).has_nonzero_ ∧
      ((∀ i, (zero_block .Y2).coefficients_ i = 0) → ∀ i, s.coefficients_ i = 0) :=
  ⟨fun _ _ => rfl,
    parse_tokens_eob_first script_answer sample_constants flat_tables 0 (zero_block .Y2)
      ⟨[false], []⟩ (fun _ _ => rfl)⟩

theorem parse_loop_next {σ : Type} (answer : σ → Query → Bool × σ) (tc : TokenConstants)
    (pt : ProbabilityTables) (fuel : Nat) (t : BlockType) (n index : Nat) (s s' : ParseState σ)
    (hi : index < 16) (hb : parse_body answer tc pt fuel t index s = .ok (.next s')) :
    parse_loop answer tc pt fuel t (n + 1) index s
      = parse_loop answer tc pt fuel t n (index + 1) s' := by
  rw [parse_loop, if_pos hi, hb]

theorem parse_loop_stop {σ : Type} (answer : σ → Query → Bool × σ) (tc : TokenConstants)
    (pt : ProbabilityTables) (fuel : Nat) (t : BlockType) (n index : Nat) (s s' : ParseState σ)
    (hi : index < 16) (hb : parse_body answer tc pt fuel t index s = .ok (.stop s')) :
    parse_loop answer tc pt fuel t (n + 1) index s = .ok s' := by
  rw [parse_loop, if_pos hi, hb]

theorem start_index_of_ne (t : BlockType) (h : t ≠ .Y_after_Y2) : start_index t = 0 := by
  simp [start_index, h]

/-- C5: on a block that starts all zero and is coded from position 0, when the
source answers the token stream of the sequence 5, -1, 0, ..., 0 (position 0:
not end of block, nonzero, not one, above 4, category 5-6, extra bit 0,
sign 0; position 1: not end of block, nonzero, literal one, sign 1;
position 2: end of block), `parse_tokens` stores 5 at the slot of position 0
and -1 at the slot of position 1, leaves every other coefficient zero, sets
`has_nonzero_`, and stops at position 2 by end of block after exactly 13
queries. -/
theorem parse_five_minus_one (tc : TokenConstants) (pt : ProbabilityTables) (fuel : Nat)
    (b : Block) (rest : List Bool) (log : List Query)
    (htype : b.type_ ≠ .Y_after_Y2) (hzero : ∀ i, b.coefficients_ i = 0)
    (hslots : tc.zigzag 0 ≠ tc.zigzag 1) :
    ∃ s, parse_tokens script_answer tc pt fuel b
        ⟨[true, true, true, true, false, false, false, false,
          true, true, false, true,
          false] ++ rest, log⟩ = .ok s ∧
      s.coefficients_ (tc.zigzag 0) = 5 ∧
      s.coefficients_ (tc.zigzag 1) = -1 ∧
      (∀ slot, slot ≠ tc.zigzag 0 → slot ≠ tc.zigzag 1 → s.coefficients_ slot = 0) ∧
      s.has_nonzero_ = true ∧
      s.visits = [⟨0, initial_context b, true, .value 5⟩, ⟨1, 2, true, .value (-1)⟩,
        ⟨2, 1, true, .EOB⟩] ∧
      s.data.queries.length = log.length + 13 ∧
      s.data.state = rest := by
  obtain ⟨p0, hp0⟩ := select_prob_ok tc pt b.type_ 0 (initial_context b) (by norm_num)
    (initial_context_le b)
  obtain ⟨p1, hp1⟩ := select_prob_ok tc pt b.type_ 1 2 (by norm_num) (by norm_num)
  obtain ⟨p2, hp2⟩ := select_prob_ok tc pt b.type_ 2 1 (by norm_num) (by norm_num)
  have hstart := start_index_of_ne b.type_ htype
  have h0 := parse_loop_next script_answer tc pt fuel b.type_ 15 0
    (initial_state b ⟨[true, true, true, true, false, false, false, false,
          true, true, false, true, false] ++ rest, log⟩)
    { data := ⟨[true, true, false, true, false] ++ rest,
        log ++ [.prob (p0 0), .prob (p0 1), .prob (p0 2), .prob (p0 3),
            .prob (p0 6), .prob (p0 7), .prob 159, .uniform]⟩,
      coefficients_ := Function.update b.coefficients_ (tc.zigzag 0) 5,
      has_nonzero_ := true, last_was_zero := false, token_context := 2,
      visits := [⟨0, initial_context b, true, .value 5⟩] } (by norm_num)
    (by
      simp [initial_state, parse_body, hp0,
        parse_after_eob, parse_magnitude, parse_large, bind, Except.bind, pure, Except.pure,
        get_at_ok script_answer _ 0 (by decide), get_at_ok script_answer _ 1 (by decide),
        get_at_ok script_answer _ 2 (by decide), get_at_ok script_answer _ 3 (by decide),
        get_at_ok script_answer _ 6 (by decide), get_at_ok script_answer _ 7 (by decide),
        BoolDecoder.get, script_answer, at_of_lt _ _ (Fin.is_lt _),
        at_of_lt tc.zigzag 0 (by decide)])
  have h1 := parse_loop_next script_answer tc pt fuel b.type_ 14 1
    { data := ⟨[true, true, false, true, false] ++ rest,
        log ++ [.prob (p0 0), .prob (p0 1), .prob (p0 2), .prob (p0 3),
            .prob (p0 6), .prob (p0 7), .prob 159, .uniform]⟩,
      coefficients_ := Function.update b.coefficients_ (tc.zigzag 0) 5,
      has_nonzero_ := true, last_was_zero := false, token_context := 2,
      visits := [⟨0, initial_context b, true, .value 5⟩] }
    { data := ⟨[false] ++ rest,
        log ++ [.prob (p0 0), .prob (p0 1), .prob (p0 2), .prob (p0 3),
            .prob (p0 6), .prob (p0 7), .prob 159, .uniform,
            .prob (p1 0), .prob (p1 1), .prob (p1 2), .uniform]⟩,
      coefficients_ := Function.update (Function.update b.coefficients_ (tc.zigzag 0) 5)
        (tc.zigzag 1) (-1),
      has_nonzero_ := true, last_was_zero := false, token_context := 1,
      visits := [⟨0, initial_context b, true, .value 5⟩, ⟨1, 2, true, .value (-1)⟩] }
    (by norm_num)
    (by
      simp [parse_body, hp1,
        parse_after_eob, parse_magnitude, bind, Except.bind, pure, Except.pure,
        get_at_ok script_answer _ 0 (by decide), get_at_ok script_answer _ 1 (by decide),
        get_at_ok script_answer _ 2 (by decide),
        BoolDecoder.get, script_answer, at_of_lt _ _ (Fin.is_lt _),
        at_of_lt tc.zigzag 1 (by decide), toInt16])
  have h2 := parse_loop_stop script_answer tc pt fuel b.type_ 13 2
    { data := ⟨[false] ++ rest,
        log ++ [.prob (p0 0), .prob (p0 1), .prob (p0 2), .prob (p0 3),
            .prob (p0 6), .prob (p0 7), .prob 159, .uniform,
            .prob (p1 0), .prob (p1 1), .prob (p1 2), .uniform]⟩,
      coefficients_ := Function.update (Function.update b.coefficients_ (tc.zigzag 0) 5)
        (tc.zigzag 1) (-1),
      has_nonzero_ := true, last_was_zero := false, token_context := 1,
      visits := [⟨0, initial_context b, true, .value 5⟩, ⟨1, 2, true, .value (-1)⟩] }
    { data := ⟨rest,
        log ++ [.prob (p0 0), .prob (p0 1), .prob (p0 2), .prob (p0 3),
            .prob (p0 6), .prob (p0 7), .prob 159, .uniform,
            .prob (p1 0), .prob (p1 1), .prob (p1 2), .uniform, .prob (p2 0)]⟩,
      coefficients_ := Function.update (Function.update b.coefficients_ (tc.zigzag 0) 5)
        (tc.zigzag 1) (-1),
      has_nonzero_ := true, last_was_zero := false, token_context := 1,
      visits := [⟨0, initial_context b, true, .value 5⟩, ⟨1, 2, true, .value (-1)⟩,
        ⟨2, 1, true, .EOB⟩] }
    (by norm_num)
    (by
      simp [parse_body, hp2, bind, Except.bind, pure, Except.pure,
        get_at_ok script_answer _ 0 (by decide), BoolDecoder.get, script_answer])
  have hrun := (h0.trans h1).trans h2
  refine ⟨_, by rw [parse_tokens, hstart]; exact hrun, ?_, ?_, ?_, rfl, rfl, ?_, rfl⟩
  · simp [Function.update_apply, hslots]
  · simp
  · intro slot hs0 hs1
    simp [Function.update_apply, hs0, hs1, hzero]
  · simp

/-- Witness for C5: the sample constants, flat tables and a fresh block of type `Y2`. -/
theorem parse_five_minus_one_witness :
    (zero_block .Y2).type_ ≠ .Y_after_Y2 ∧ (∀ i, (zero_block .Y2).coefficients_ i = 0) ∧
    sample_constants.zigzag 0 ≠ sample_constants.zigzag 1 ∧
    ∃ s, parse_tokens script_answer sample_constants flat_tables 0 (zero_block .Y2)
        ⟨[true, true, true, true, false, false, false, false,
          true, true, false, true,
          false] ++ [], []⟩ = .ok s ∧
      s.coefficients_ (sample_constants.zigzag 0) = 5 ∧
      s.coefficients_ (sample_constants.zigzag 1) = -1 ∧
      (∀ slot, slot ≠ sample_constants.zigzag 0 → slot ≠ sample_constants.zigzag 1 →
        s.coefficients_ slot = 0) ∧
      s.has_nonzero_ = true ∧
      s.visits = [⟨0, initial_context (zero_block .Y2), true, .value 5⟩,
        ⟨1, 2, true, .value (-1)⟩, ⟨2, 1, true, .EOB⟩] ∧
      s.data.queries.length = ([] : List Query).length + 13 ∧
      s.data.state = [] :=
  ⟨by decide, fun _ => rfl, by decide,
    parse_five_minus_one sample_constants flat_tables 0 (zero_block .Y2) [] []
      (by decide) (fun _ => rfl) (by decide)⟩

theorem big_endian_snoc (bits : List Bool) (b : Bool) :
    big_endian (bits ++ [b]) = 2 * big_endian bits + b.toNat := by
  simp [big_endian, List.foldl_append]

theorem big_endian_lt (bits : List Bool) : big_endian bits < 2 ^ bits.length := by
  induction bits using List.reverseRecOn with
  | nil => simp [big_endian]
  | append_singleton bs b ih =>
    rw [big_endian_snoc, List.length_append, List.length_singleton, pow_succ]
    cases b <;> simp <;> omega

theorem toInt16_of_lt (n : Nat) (h : n < 32768) : toInt16 (n : Int) = n := by
  unfold toInt16
  omega

theorem decode_category_eq {σ : Type} (answer : σ → Query → Bool × σ) (td : TokenDecoder)
    (fuel : Nat) (data : BoolDecoder σ) (hL : td.length ≤ 255) (hfuel : td.length < fuel) :
    decode_category answer td fuel data
      = .ok (toInt16 (((td.base_value_
                + big_endian (run_queries answer data.state td.bit_queries).1) % 65536 : Nat)),
             ⟨(run_queries answer data.state td.bit_queries).2,
              data.queries ++ td.bit_queries⟩) := by
  simp [decode_category, decode_eq answer td fuel data hL hfuel]

theorem decode_value_range {σ : Type} (answer : σ → Query → Bool × σ) (td : TokenDecoder)
    (s : σ) (base len : Nat) (hb : td.base_value_ = base) (hl : td.length = len)
    (hbig : base + 2 ^ len ≤ 32768) :
    (base : Int) ≤ toInt16 (((td.base_value_
        + big_endian (run_queries answer s td.bit_queries).1) % 65536 : Nat)) ∧
    toInt16 (((td.base_value_
        + big_endian (run_queries answer s td.bit_queries).1) % 65536 : Nat))
      < (base : Int) + 2 ^ len := by
  have h1 := big_endian_lt (run_queries answer s td.bit_queries).1
  rw [run_queries_length] at h1
  have h2 : td.bit_queries.length = len := by simp [TokenDecoder.bit_queries, hl]
  rw [h2] at h1
  have h3 : (td.base_value_ + big_endian (run_queries answer s td.bit_queries).1) % 65536
      = base + big_endian (run_queries answer s td.bit_queries).1 := by
    rw [hb]; apply Nat.mod_eq_of_lt; omega
  rw [h3, toInt16_of_lt _ (by omega)]
  constructor
  · omega
  · have : ((base + big_endian (run_queries answer s td.bit_queries).1 : Nat) : Int)
        < ((base + 2 ^ len : Nat) : Int) := by
      exact_mod_cast (by omega : base + big_endian (run_queries answer s td.bit_queries).1
        < base + 2 ^ len)
    simpa using this

theorem decode_value_bounds {σ : Type} (answer : σ → Query → Bool × σ) (td : TokenDecoder)
    (s : σ) (base len : Nat) (hb : td.base_value_ = base) (hl : td.length = len)
    (h2 : 2 ≤ base) (hbig : base + 2 ^ len ≤ 2115) :
    2 ≤ toInt16 (((td.base_value_
        + big_endian (run_queries answer s td.bit_queries).1) % 65536 : Nat)) ∧
    toInt16 (((td.base_value_
        + big_endian (run_queries answer s td.bit_queries).1) % 65536 : Nat)) ≤ 2114 := by
  have h := decode_value_range answer td s base len hb hl (by omega)
  have h3 : (base : Int) + 2 ^ len ≤ 2115 := by exact_mod_cast hbig
  constructor <;> omega

theorem decoders_fit_of_spec (tc : TokenConstants) (fuel : Nat) (h : spec_categories tc)
    (hfuel : 11 < fuel) : decoders_fit tc fuel := by
  obtain ⟨⟨_, h1⟩, ⟨_, h2⟩, ⟨_, h3⟩, ⟨_, h4⟩, ⟨_, h5⟩⟩ := h
  intro td htd
  simp only [TokenConstants.decoders, List.mem_cons, List.mem_singleton, List.not_mem_nil,
    or_false] at htd
  rcases htd with rfl | rfl | rfl | rfl | rfl <;> omega

theorem parse_large_spec {σ : Type} (answer : σ → Query → Bool × σ) (tc : TokenConstants)
    (fuel : Nat) (prob : ProbabilityArray) (data : BoolDecoder σ) (hfit : decoders_fit tc fuel) :
    ∃ r, parse_large answer tc fuel prob data = .ok r ∧
      (spec_categories tc → 2 ≤ r.1 ∧ r.1 ≤ 2114) := by
  have f1 := hfit tc.token_decoder_1 (by simp [TokenConstants.decoders])
  have f2 := hfit tc.token_decoder_2 (by simp [TokenConstants.decoders])
  have f3 := hfit tc.token_decoder_3 (by simp [TokenConstants.decoders])
  have f4 := hfit tc.token_decoder_4 (by simp [TokenConstants.decoders])
  have f5 := hfit tc.token_decoder_5 (by simp [TokenConstants.decoders])
  simp only [parse_large, bind, Except.bind, pure, Except.pure,
    get_at_ok answer _ 3 (by decide), get_at_ok answer _ 4 (by decide),
    get_at_ok answer _ 5 (by decide), get_at_ok answer _ 6 (by decide),
    get_at_ok answer _ 7 (by decide), get_at_ok answer _ 8 (by decide),
    get_at_ok answer _ 9 (by decide), get_at_ok answer _ 10 (by decide),
    decode_category_eq answer _ fuel _ f1.1 f1.2, decode_category_eq answer _ fuel _ f2.1 f2.2,
    decode_category_eq answer _ fuel _ f3.1 f3.2, decode_category_eq answer _ fuel _ f4.1 f4.2,
    decode_category_eq answer _ fuel _ f5.1 f5.2]
  split_ifs
  · exact ⟨_, rfl, fun _ => by norm_num⟩
  · exact ⟨_, rfl, fun _ => by norm_num⟩
  · exact ⟨_, rfl, fun _ => by norm_num⟩
  · refine ⟨_, rfl, fun _ => ?_⟩
    dsimp only
    cases (BoolDecoder.get answer _ (Query.prob 159)).1 <;> simp
  · exact ⟨_, rfl, fun hc =>
      decode_value_bounds answer tc.token_decoder_1 _ 7 2 hc.1.1 hc.1.2 (by norm_num) (by norm_num)⟩
  · exact ⟨_, rfl, fun hc =>
      decode_value_bounds answer tc.token_decoder_2 _ 11 3 hc.2.1.1 hc.2.1.2 (by norm_num) (by norm_num)⟩
  · exact ⟨_, rfl, fun hc =>
      decode_value_bounds answer tc.token_decoder_3 _ 19 4 hc.2.2.1.1 hc.2.2.1.2 (by norm_num) (by norm_num)⟩
  · exact ⟨_, rfl, fun hc =>
      decode_value_bounds answer tc.token_decoder_4 _ 35 5 hc.2.2.2.1.1 hc.2.2.2.1.2 (by norm_num) (by norm_num)⟩
  · exact ⟨_, rfl, fun hc =>
      decode_value_bounds answer tc.token_decoder_5 _ 67 11 hc.2.2.2.2.1 hc.2.2.2.2.2 (by norm_num) (by norm_num)⟩

theorem toInt16_neg_bounds (v : Int) (h : 1 ≤ v ∧ v ≤ 2114) :
    toInt16 (-v) = -v := by
  unfold toInt16; omega

theorem context_after_one : context_after 1 = 1 := by decide

theorem context_after_neg (v : Int) : context_after (-v) = context_after v := by
  simp [context_after]

theorem context_after_large (v : Int) (h : 2 ≤ v) : context_after v = 2 := by
  unfold context_after
  rw [if_neg (by omega), if_neg (by omega)]

theorem parse_magnitude_spec {σ : Type} (answer : σ → Query → Bool × σ) (tc : TokenConstants)
    (fuel : Nat) (prob : ProbabilityArray) (data : BoolDecoder σ) (hfit : decoders_fit tc fuel) :
    ∃ r, parse_magnitude answer tc fuel prob data = .ok r ∧
      (r.2.1 = 1 ∨ r.2.1 = 2) ∧
      (spec_categories tc → 1 ≤ r.1 ∧ r.1 ≤ 2114 ∧ r.2.1 = context_after r.1) := by
  simp only [parse_magnitude, bind, Except.bind, pure, Except.pure,
    get_at_ok answer _ 2 (by decide)]
  split_ifs
  · exact ⟨_, rfl, Or.inl rfl, fun _ => ⟨le_refl _, by norm_num, context_after_one.symm⟩⟩
  · obtain ⟨r, hr, hv⟩ := parse_large_spec answer tc fuel prob
      (BoolDecoder.get answer data (Query.prob (prob ⟨2, by decide⟩))).2 hfit
    rw [hr]
    refine ⟨_, rfl, Or.inr rfl, fun hc => ?_⟩
    have := hv hc
    refine ⟨by dsimp only; omega, this.2, ?_⟩
    exact (context_after_large _ this.1).symm

theorem parse_after_eob_spec {σ : Type} (answer : σ → Query → Bool × σ) (tc : TokenConstants)
    (fuel : Nat) (prob : ProbabilityArray) (index : Fin 16) (s : ParseState σ)
    (data : BoolDecoder σ) (hfit : decoders_fit tc fuel) :
    ∃ s', parse_after_eob answer tc fuel prob index.val (!s.last_was_zero) s data
        = .ok (.next s') ∧
      (zero_step index.val s s' ∨
        ∃ v, value_step tc index s s' v ∧
          (spec_categories tc →
            v ≠ 0 ∧ -2114 ≤ v ∧ v ≤ 2114 ∧ s'.token_context = context_after v)) := by
  simp only [parse_after_eob, bind, Except.bind, pure, Except.pure,
    get_at_ok answer _ 1 (by decide)]
  split_ifs with h1
  · exact ⟨_, rfl, Or.inl ⟨rfl, rfl, rfl, rfl, rfl⟩⟩
  · obtain ⟨r, hr, hctx, hv⟩ := parse_magnitude_spec answer tc fuel prob
      (BoolDecoder.get answer data (Query.prob (prob ⟨1, by decide⟩))).2 hfit
    rw [hr]
    simp only [at_of_lt tc.zigzag index.val index.isLt, at_of_lt s.coefficients_ _ (Fin.is_lt _)]
    refine ⟨_, rfl, Or.inr ⟨_, ⟨rfl, rfl, rfl, rfl, hctx⟩, fun hc => ?_⟩⟩
    obtain ⟨h1, h2, h3⟩ := hv hc
    dsimp only
    split_ifs
    · rw [toInt16_neg_bounds _ ⟨h1, h2⟩, context_after_neg]
      exact ⟨by omega, by omega, by omega, h3⟩
    · exact ⟨by omega, by omega, by omega, h3⟩

theorem parse_body_cases {σ : Type} (answer : σ → Query → Bool × σ) (tc : TokenConstants)
    (pt : ProbabilityTables) (fuel : Nat) (t : BlockType) (index : Fin 16) (s : ParseState σ)
    (hctx : s.token_context ≤ 2) (hfit : decoders_fit tc fuel) :
    (∃ s', parse_body answer tc pt fuel t index.val s = .ok (.stop s') ∧ stop_step index.val s s')
    ∨ ∃ s', parse_body answer tc pt fuel t index.val s = .ok (.next s') ∧
      (zero_step index.val s s' ∨
        ∃ v, value_step tc index s s' v ∧
          (spec_categories tc →
            v ≠ 0 ∧ -2114 ≤ v ∧ v ≤ 2114 ∧ s'.token_context = context_after v)) := by
  obtain ⟨prob, hprob⟩ := select_prob_ok tc pt t index.val s.token_context index.isLt hctx
  simp only [parse_body, hprob, bind, Except.bind, pure, Except.pure,
    get_at_ok answer _ 0 (by decide)]
  cases hz : s.last_was_zero
  · simp only [Bool.not_false, if_true]
    split_ifs
    · exact Or.inl ⟨_, rfl, hz, rfl, rfl, rfl⟩
    · have := parse_after_eob_spec answer tc fuel prob index s
        (BoolDecoder.get answer s.data (Query.prob (prob ⟨0, by decide⟩))).2 hfit
      rw [hz] at this
      exact Or.inr this
  · simp only [Bool.not_true, Bool.false_eq_true, if_false]
    have := parse_after_eob_spec answer tc fuel prob index s s.data hfit
    rw [hz] at this
    exact Or.inr this

theorem parse_loop_induction {σ : Type} (answer : σ → Query → Bool × σ) (tc : TokenConstants)
    (pt : ProbabilityTables) (fuel : Nat) (t : BlockType) (hfit : decoders_fit tc fuel)
    (I : Nat → ParseState σ → Prop) (Q : ParseState σ → Prop)
    (hctx : ∀ i s, I i s → s.token_context ≤ 2)
    (hstop : ∀ (index : Fin 16) s s', I index.val s → stop_step index.val s s' → Q s')
    (hzero : ∀ (index : Fin 16) s s', I index.val s → zero_step index.val s s' →
      I (index.val + 1) s')
    (hvalue : ∀ (index : Fin 16) s s' v, I index.val s → value_step tc index s s' v →
      (spec_categories tc →
        v ≠ 0 ∧ -2114 ≤ v ∧ v ≤ 2114 ∧ s'.token_context = context_after v) →
      I (index.val + 1) s')
    (hend : ∀ i s, I i s → Q s) :
    ∀ (n index : Nat) (s : ParseState σ), I index s →
      ∃ s', parse_loop answer tc pt fuel t n index s = .ok s' ∧ Q s' := by
  intro n
  induction n with
  | zero => intro index s hI; exact ⟨s, rfl, hend _ _ hI⟩
  | succ n ih =>
    intro index s hI
    by_cases hi : index < 16
    · rcases parse_body_cases answer tc pt fuel t ⟨index, hi⟩ s (hctx _ _ hI) hfit with
        ⟨s', hb, hs⟩ | ⟨s', hb, hs⟩
      · rw [parse_loop_stop answer tc pt fuel t n index s s' hi hb]
        exact ⟨s', rfl, hstop ⟨index, hi⟩ s s' hI hs⟩
      · rw [parse_loop_next answer tc pt fuel t n index s s' hi hb]
        apply ih
        rcases hs with hs | ⟨v, hs, hv⟩
        · exact hzero ⟨index, hi⟩ s s' hI hs
        · exact hvalue ⟨index, hi⟩ s s' v hI hs hv
    · rw [parse_loop, if_neg hi]
      exact ⟨s, rfl, hend _ _ hI⟩

theorem chain_snoc (vs : List Visit) (w : Visit) (h : List.Chain' context_link vs)
    (hl : ∀ v ∈ vs.getLast?, context_link v w) : List.Chain' context_link (vs ++ [w]) := by
  rw [List.chain'_append]
  refine ⟨h, List.chain'_singleton _, ?_⟩
  intro x hx y hy
  simp only [List.head?_cons, Option.mem_def, Option.some.injEq] at hy
  subst hy
  exact hl x hx

theorem mem_getLast_snoc (vs : List Visit) (w v : Visit) (h : v ∈ (vs ++ [w]).getLast?) :
    v = w := by
  rw [List.getLast?_concat] at h
  simpa [eq_comm] using h

/-- C4: in every pass of `parse_tokens` (with the category decoders of the
spec), each position that is decoded and followed by another one hands it the
token context of its coefficient: 0 after a zero, 1 after magnitude 1, 2 after
a magnitude of 2 or more, whatever the sign. -/
theorem context_propagation {σ : Type} (answer : σ → Query → Bool × σ) (tc : TokenConstants)
    (pt : ProbabilityTables) (fuel : Nat) (b : Block) (data : BoolDecoder σ)
    (hcat : spec_categories tc) (hfuel : 11 < fuel) :
    ∃ s, parse_tokens answer tc pt fuel b data = .ok s ∧
      ∀ pre v w post, s.visits = pre ++ v :: w :: post →
        v.token ≠ .EOB ∧ w.index = v.index + 1 ∧
        w.token_context = context_after v.token.coefficient := by
  have hfit := decoders_fit_of_spec tc fuel hcat hfuel
  have key := parse_loop_induction answer tc pt fuel b.type_ hfit
    (fun index s => s.token_context ≤ 2 ∧ List.Chain' context_link s.visits ∧
      ∀ v ∈ s.visits.getLast?, v.token ≠ .EOB ∧ index = v.index + 1 ∧
        s.token_context = context_after v.token.coefficient)
    (fun s => List.Chain' context_link s.visits)
    (fun _ _ h => h.1)
    (by
      rintro index s s' ⟨_, hch, hlast⟩ ⟨_, hv, _, _⟩
      rw [hv]
      exact chain_snoc _ _ hch (fun v hv => ⟨(hlast v hv).1, (hlast v hv).2.1, (hlast v hv).2.2⟩))
    (by
      rintro index s s' ⟨_, hch, hlast⟩ ⟨hv, _, hc0, _, _⟩
      refine ⟨by omega, ?_, ?_⟩
      · rw [hv]
        exact chain_snoc _ _ hch
          (fun v hv => ⟨(hlast v hv).1, (hlast v hv).2.1, (hlast v hv).2.2⟩)
      · intro v hvl
        rw [hv] at hvl
        have hvl := mem_getLast_snoc _ _ _ hvl
        subst hvl
        exact ⟨by simp, rfl, by simpa [Token.coefficient, context_after] using hc0⟩)
    (by
      rintro index s s' x ⟨_, hch, hlast⟩ ⟨hv, _, _, _, hc12⟩ hx
      refine ⟨by omega, ?_, ?_⟩
      · rw [hv]
        exact chain_snoc _ _ hch
          (fun v hv => ⟨(hlast v hv).1, (hlast v hv).2.1, (hlast v hv).2.2⟩)
      · intro v hvl
        rw [hv] at hvl
        have hvl := mem_getLast_snoc _ _ _ hvl
        subst hvl
        exact ⟨by simp, rfl, (hx hcat).2.2.2⟩)
    (fun _ _ h => h.2.1)
    (16 - start_index b.type_) (start_index b.type_) (initial_state b data)
    ⟨initial_context_le b, List.chain'_nil, by simp [initial_state]⟩
  obtain ⟨s, hs, hch⟩ := key
  refine ⟨s, hs, ?_⟩
  intro pre v w post hvis
  rw [hvis] at hch
  have h2 := (List.chain'_split.mp hch).2
  exact (List.chain'_cons.mp h2).1

theorem sample_constants_spec : spec_categories sample_constants :=
  ⟨⟨rfl, rfl⟩, ⟨rfl, rfl⟩, ⟨rfl, rfl⟩, ⟨rfl, rfl⟩, ⟨rfl, rfl⟩⟩

/-- Witness for C4: the sample constants, on the token stream of 5, -1. -/
theorem context_propagation_witness :
    spec_categories sample_constants ∧ 11 < 12 ∧
    ∃ s, parse_tokens script_answer sample_constants flat_tables 12 (zero_block .Y2)
        ⟨[true, true, true, true, false, false, false, false, true, true, false, true, false],
          []⟩ = .ok s ∧
      ∀ pre v w post, s.visits = pre ++ v :: w :: post →
        v.token ≠ .EOB ∧ w.index = v.index + 1 ∧
        w.token_context = context_after v.token.coefficient :=
  ⟨sample_constants_spec, by decide,
    context_propagation script_answer sample_constants flat_tables 12 (zero_block .Y2) _
      sample_constants_spec (by decide)⟩

theorem run_script (bits rest : List Bool) :
    ∀ qs : List Query, qs.length = bits.length →
      run_queries script_answer (bits ++ rest) qs = (bits, rest) := by
  induction bits with
  | nil =>
    intro qs h
    have : qs = [] := List.length_eq_zero.mp h
    subst this; rfl
  | cons b bs ih =>
    intro qs h
    cases qs with
    | nil => simp at h
    | cons q qs =>
      simp only [List.length_cons, add_left_inj] at h
      simp [run_queries, script_answer, ih qs h]

theorem offset_bits_length (offset len : Nat) : (offset_bits offset len).length = len := by
  induction len generalizing offset with
  | zero => rfl
  | succ n ih => simp [offset_bits, ih]

theorem big_endian_offset_bits (len offset : Nat) :
    big_endian (offset_bits offset len) = offset % 2 ^ len := by
  induction len generalizing offset with
  | zero => simp [offset_bits, big_endian, Nat.mod_one]
  | succ n ih =>
    rw [offset_bits, big_endian_snoc, ih, pow_succ]
    have h2 : (decide (offset % 2 = 1)).toNat = offset % 2 := by
      rcases Nat.mod_two_eq_zero_or_one offset with h | h <;> simp [h]
    rw [h2, Nat.mul_comm (2 ^ n) 2, Nat.mod_mul]
    omega

theorem get_script_cons (b : Bool) (bs : List Bool) (log : List Query) (q : Query) :
    BoolDecoder.get script_answer ⟨b :: bs, log⟩ q = (b, ⟨bs, log ++ [q]⟩) := rfl

theorem encode_offset_snd (td : TokenDecoder) (offset : Nat) :
    (encode_offset td offset).map Prod.snd = offset_bits offset td.length := by
  unfold encode_offset
  rw [List.map_snd_zip]
  simp [offset_bits_length, TokenDecoder.bit_queries]

theorem encode_offset_fst (td : TokenDecoder) (offset : Nat) :
    (encode_offset td offset).map Prod.fst = td.bit_queries := by
  unfold encode_offset
  rw [List.map_fst_zip]
  simp [offset_bits_length, TokenDecoder.bit_queries]

theorem decode_category_script (td : TokenDecoder) (fuel m base len : Nat)
    (rest : List Bool) (log : List Query)
    (hb : td.base_value_ = base) (hl : td.length = len) (hfuel : 11 < fuel) (hlen : len ≤ 11)
    (hlo : base ≤ m) (hhi : m < base + 2 ^ len) (hm : m ≤ 2114) :
    decode_category script_answer td fuel
        ⟨(encode_offset td (m - base)).map Prod.snd ++ rest, log⟩
      = .ok ((m : Int), ⟨rest, log ++ (encode_offset td (m - base)).map Prod.fst⟩) := by
  rw [decode_category_eq script_answer td fuel _ (by omega) (by omega)]
  rw [encode_offset_snd, encode_offset_fst]
  have hq : td.bit_queries.length = (offset_bits (m - base) td.length).length := by
    simp [offset_bits_length, TokenDecoder.bit_queries]
  simp only [run_script _ rest _ hq]
  rw [big_endian_offset_bits, hl, hb, Nat.mod_eq_of_lt (by omega : m - base < 2 ^ len)]
  have : (base + (m - base)) % 65536 = m := by omega
  rw [this, toInt16_of_lt _ (by omega)]

theorem context_after_nat (m : Nat) (h1 : 1 ≤ m) :
    context_after (m : Int) = if m ≤ 1 then 1 else 2 := by
  unfold context_after
  rw [if_neg (by omega)]
  simp only [Int.natAbs_ofNat]
  split_ifs <;> omega

theorem parse_magnitude_script (tc : TokenConstants) (fuel : Nat) (prob : ProbabilityArray)
    (m : Nat) (rest : List Bool) (log : List Query) (hcat : spec_categories tc)
    (hfuel : 11 < fuel) (h1 : 1 ≤ m) (h2 : m ≤ 2114) :
    parse_magnitude script_answer tc fuel prob
        ⟨(encode_magnitude tc prob m).map Prod.snd ++ rest, log⟩
      = .ok ((m : Int), context_after (m : Int),
          ⟨rest, log ++ (encode_magnitude tc prob m).map Prod.fst⟩) := by
  obtain ⟨⟨b1, l1⟩, ⟨b2, l2⟩, ⟨b3, l3⟩, ⟨b4, l4⟩, ⟨b5, l5⟩⟩ := hcat
  rw [context_after_nat m h1]
  have hcases : m = 1 ∨ m = 2 ∨ m = 3 ∨ m = 4 ∨ m = 5 ∨ m = 6 ∨ (7 ≤ m ∧ m ≤ 10) ∨
      (11 ≤ m ∧ m ≤ 18) ∨ (19 ≤ m ∧ m ≤ 34) ∨ (35 ≤ m ∧ m ≤ 66) ∨ 67 ≤ m := by omega
  rcases hcases with rfl | rfl | rfl | rfl | rfl | rfl | h | h | h | h | h
  · simp [encode_magnitude, parse_magnitude, bind, Except.bind, pure, Except.pure,
      get_at_ok script_answer _ 2 (by decide), get_script_cons]
  · simp [encode_magnitude, parse_magnitude, parse_large, bind, Except.bind, pure, Except.pure,
      get_at_ok script_answer _ 2 (by decide), get_at_ok script_answer _ 3 (by decide),
      get_at_ok script_answer _ 4 (by decide), get_script_cons]
  · simp [encode_magnitude, parse_magnitude, parse_large, bind, Except.bind, pure, Except.pure,
      get_at_ok script_answer _ 2 (by decide), get_at_ok script_answer _ 3 (by decide),
      get_at_ok script_answer _ 4 (by decide), get_at_ok script_answer _ 5 (by decide),
      get_script_cons]
  · simp [encode_magnitude, parse_magnitude, parse_large, bind, Except.bind, pure, Except.pure,
      get_at_ok script_answer _ 2 (by decide), get_at_ok script_answer _ 3 (by decide),
      get_at_ok script_answer _ 4 (by decide), get_at_ok script_answer _ 5 (by decide),
      get_script_cons]
  · simp [encode_magnitude, parse_magnitude, parse_large, bind, Except.bind, pure, Except.pure,
      get_at_ok script_answer _ 2 (by decide), get_at_ok script_answer _ 3 (by decide),
      get_at_ok script_answer _ 6 (by decide), get_at_ok script_answer _ 7 (by decide),
      get_script_cons]
  · simp [encode_magnitude, parse_magnitude, parse_large, bind, Except.bind, pure, Except.pure,
      get_at_ok script_answer _ 2 (by decide), get_at_ok script_answer _ 3 (by decide),
      get_at_ok script_answer _ 6 (by decide), get_at_ok script_answer _ 7 (by decide),
      get_script_cons]
  · have e : encode_magnitude tc prob m = (.prob (prob 2), true) :: (.prob (prob 3), true) ::
        (.prob (prob 6), false) :: (.prob (prob 7), true) ::
          encode_offset tc.token_decoder_1 (m - 7) := by
      unfold encode_magnitude
      rw [if_neg (by omega), if_neg (by omega), if_pos (by omega), if_neg (by omega)]
    rw [e]
    simp only [parse_magnitude, parse_large, bind, Except.bind, pure, Except.pure,
      get_at_ok script_answer _ 2 (by decide), get_at_ok script_answer _ 3 (by decide),
      get_at_ok script_answer _ 6 (by decide), get_at_ok script_answer _ 7 (by decide),
      List.map_cons, List.cons_append, get_script_cons, Bool.not_true,
      Bool.not_false, Bool.false_eq_true, if_false, if_true]
    rw [decode_category_script tc.token_decoder_1 fuel m 7 2 rest _ b1 l1 hfuel (by norm_num)
      (by omega) (by omega) h2]
    simp [show ¬ m ≤ 1 by omega]
  · have e : encode_magnitude tc prob m = (.prob (prob 2), true) :: (.prob (prob 3), true) ::
        (.prob (prob 6), true) :: (.prob (prob 8), false) :: (.prob (prob 9), false) ::
          encode_offset tc.token_decoder_2 (m - 11) := by
      unfold encode_magnitude
      rw [if_neg (by omega), if_neg (by omega), if_neg (by omega), if_pos (by omega),
        if_pos (by omega)]
    rw [e]
    simp only [parse_magnitude, parse_large, bind, Except.bind, pure, Except.pure,
      get_at_ok script_answer _ 2 (by decide), get_at_ok script_answer _ 3 (by decide),
      get_at_ok script_answer _ 6 (by decide), get_at_ok script_answer _ 8 (by decide),
      get_at_ok script_answer _ 9 (by decide),
      List.map_cons, List.cons_append, get_script_cons, Bool.not_true,
      Bool.not_false, Bool.false_eq_true, if_false, if_true]
    rw [decode_category_script tc.token_decoder_2 fuel m 11 3 rest _ b2 l2 hfuel (by norm_num)
      (by omega) (by omega) h2]
    simp [show ¬ m ≤ 1 by omega]
  · have e : encode_magnitude tc prob m = (.prob (prob 2), true) :: (.prob (prob 3), true) ::
        (.prob (prob 6), true) :: (.prob (prob 8), false) :: (.prob (prob 9), true) ::
          encode_offset tc.token_decoder_3 (m - 19) := by
      unfold encode_magnitude
      rw [if_neg (by omega), if_neg (by omega), if_neg (by omega), if_pos (by omega),
        if_neg (by omega)]
    rw [e]
    simp only [parse_magnitude, parse_large, bind, Except.bind, pure, Except.pure,
      get_at_ok script_answer _ 2 (by decide), get_at_ok script_answer _ 3 (by decide),
      get_at_ok script_answer _ 6 (by decide), get_at_ok script_answer _ 8 (by decide),
      get_at_ok script_answer _ 9 (by decide),
      List.map_cons, List.cons_append, get_script_cons, Bool.not_true,
      Bool.not_false, Bool.false_eq_true, if_false, if_true]
    rw [decode_category_script tc.token_decoder_3 fuel m 19 4 rest _ b3 l3 hfuel (by norm_num)
      (by omega) (by omega) h2]
    simp [show ¬ m ≤ 1 by omega]
  · have e : encode_magnitude tc prob m = (.prob (prob 2), true) :: (.prob (prob 3), true) ::
        (.prob (prob 6), true) :: (.prob (prob 8), true) :: (.prob (prob 10), false) ::
          encode_offset tc.token_decoder_4 (m - 35) := by
      unfold encode_magnitude
      rw [if_neg (by omega), if_neg (by omega), if_neg (by omega), if_neg (by omega),
        if_pos (by omega)]
    rw [e]
    simp only [parse_magnitude, parse_large, bind, Except.bind, pure, Except.pure,
      get_at_ok script_answer _ 2 (by decide), get_at_ok script_answer _ 3 (by decide),
      get_at_ok script_answer _ 6 (by decide), get_at_ok script_answer _ 8 (by decide),
      get_at_ok script_answer _ 10 (by decide),
      List.map_cons, List.cons_append, get_script_cons, Bool.not_true,
      Bool.not_false, Bool.false_eq_true, if_false, if_true]
    rw [decode_category_script tc.token_decoder_4 fuel m 35 5 rest _ b4 l4 hfuel (by norm_num)
      (by omega) (by omega) h2]
    simp [show ¬ m ≤ 1 by omega]
  · have e : encode_magnitude tc prob m = (.prob (prob 2), true) :: (.prob (prob 3), true) ::
        (.prob (prob 6), true) :: (.prob (prob 8), true) :: (.prob (prob 10), true) ::
          encode_offset tc.token_decoder_5 (m - 67) := by
      unfold encode_magnitude
      rw [if_neg (by omega), if_neg (by omega), if_neg (by omega), if_neg (by omega),
        if_neg (by omega)]
    rw [e]
    simp only [parse_magnitude, parse_large, bind, Except.bind, pure, Except.pure,
      get_at_ok script_answer _ 2 (by decide), get_at_ok script_answer _ 3 (by decide),
      get_at_ok script_answer _ 6 (by decide), get_at_ok script_answer _ 8 (by decide),
      get_at_ok script_answer _ 10 (by decide),
      List.map_cons, List.cons_append, get_script_cons, Bool.not_true,
      Bool.not_false, Bool.false_eq_true, if_false, if_true]
    rw [decode_category_script tc.token_decoder_5 fuel m 67 11 rest _ b5 l5 hfuel (by norm_num)
      (by omega) (by omega) h2]
    simp [show ¬ m ≤ 1 by omega]

theorem prob_for_eq (tc : TokenConstants) (pt : ProbabilityTables) (t : BlockType)
    (index ctx : Nat) (prob : ProbabilityArray)
    (h : select_prob tc pt t index ctx = .ok prob) : prob_for tc pt t index ctx = prob := by
  simp [prob_for, h]

theorem body_stop_script (tc : TokenConstants) (pt : ProbabilityTables) (fuel : Nat)
    (t : BlockType) (index ctx : Nat) (prob : ProbabilityArray)
    (hp : select_prob tc pt t index ctx = .ok prob)
    (rest : List Bool) (log : List Query) (co : SafeArray Int 16) (hn : Bool)
    (vis : List Visit) :
    parse_body script_answer tc pt fuel t index ⟨⟨false :: rest, log⟩, co, hn, false, ctx, vis⟩
      = .ok (.stop ⟨⟨rest, log ++ [.prob (prob 0)]⟩, co, hn, false, ctx,
          vis ++ [⟨index, ctx, true, .EOB⟩]⟩) := by
  simp [parse_body, hp, bind, Except.bind, pure, Except.pure,
    get_at_ok script_answer _ 0 (by decide), get_script_cons]

theorem body_zero_script (tc : TokenConstants) (pt : ProbabilityTables) (fuel : Nat)
    (t : BlockType) (index ctx : Nat) (prob : ProbabilityArray)
    (hp : select_prob tc pt t index ctx = .ok prob)
    (rest : List Bool) (log : List Query) (co : SafeArray Int 16) (hn lwz : Bool)
    (vis : List Visit) :
    parse_body script_answer tc pt fuel t index
        ⟨⟨(if lwz then [] else [true]) ++ false :: rest, log⟩, co, hn, lwz, ctx, vis⟩
      = .ok (.next ⟨⟨rest, log ++ ((if lwz then [] else [.prob (prob 0)])
            ++ [.prob (prob 1)])⟩, co, hn, true, 0,
          vis ++ [⟨index, ctx, !lwz, .ZERO⟩]⟩) := by
  cases lwz <;>
  simp [parse_body, parse_after_eob, hp, bind, Except.bind, pure, Except.pure,
    get_at_ok script_answer _ 0 (by decide), get_at_ok script_answer _ 1 (by decide),
    get_script_cons]

theorem signed_value (v : Int) (h : v.natAbs ≤ 2114) :
    (if v < 0 then toInt16 (-|v|) else |v|) = v := by
  unfold toInt16
  split_ifs with h0
  · rw [abs_of_neg h0]; omega
  · rw [abs_of_nonneg (by omega)]

theorem context_after_abs (v : Int) : context_after |v| = context_after v := by
  unfold context_after
  simp [Int.natAbs_abs]

theorem body_value_script (tc : TokenConstants) (pt : ProbabilityTables) (fuel : Nat)
    (t : BlockType) (index : Fin 16) (ctx : Nat) (prob : ProbabilityArray)
    (hp : select_prob tc pt t index.val ctx = .ok prob)
    (hcat : spec_categories tc) (hfuel : 11 < fuel)
    (v : Int) (hv : v ≠ 0) (hr : v.natAbs ≤ 2114)
    (rest : List Bool) (log : List Query) (co : SafeArray Int 16) (hn lwz : Bool)
    (vis : List Visit) :
    parse_body script_answer tc pt fuel t index.val
        ⟨⟨(if lwz then [] else [true]) ++ (true ::
            ((encode_magnitude tc prob v.natAbs).map Prod.snd ++ decide (v < 0) :: rest)),
          log⟩, co, hn, lwz, ctx, vis⟩
      = .ok (.next ⟨⟨rest, log ++ ((if lwz then [] else [.prob (prob 0)])
            ++ (.prob (prob 1) :: ((encode_magnitude tc prob v.natAbs).map Prod.fst
              ++ [.uniform])))⟩,
          Function.update co (tc.zigzag index) v, true, false, context_after v,
          vis ++ [⟨index.val, ctx, !lwz, .value v⟩]⟩) := by
  have hm := fun log' => parse_magnitude_script tc fuel prob v.natAbs
    (decide (v < 0) :: rest) log' hcat hfuel (by omega) hr
  cases lwz <;>
  simp [parse_body, parse_after_eob, hp, bind, Except.bind, pure, Except.pure,
    get_at_ok script_answer _ 0 (by decide), get_at_ok script_answer _ 1 (by decide),
    get_script_cons, hm, at_of_lt tc.zigzag index.val index.isLt,
    at_of_lt co _ (Fin.is_lt _), signed_value v hr, context_after_abs v]

theorem context_after_le (v : Int) : context_after v ≤ 2 := by
  unfold context_after; split_ifs <;> omega

theorem round_trip_loop (tc : TokenConstants) (pt : ProbabilityTables) (fuel : Nat)
    (t : BlockType) (seq : SafeArray Int 16) (rest : List Bool)
    (hcat : spec_categories tc) (hfuel : 11 < fuel) (hinj : Function.Injective tc.zigzag)
    (hrange : ∀ i, (seq i).natAbs ≤ 2114) :
    ∀ (n index : Nat) (s : ParseState (List Bool)), s.token_context ≤ 2 → index + n = 16 →
      s.data.state = (encode_from tc pt t seq n index s.last_was_zero s.token_context).map
        Prod.snd ++ rest →
      ∃ s', parse_loop script_answer tc pt fuel t n index s = .ok s' ∧
        s'.data.state = rest ∧
        s'.data.queries = s.data.queries
          ++ (encode_from tc pt t seq n index s.last_was_zero s.token_context).map Prod.fst ∧
        (∀ j : Fin 16, index ≤ j.val → seq j ≠ 0 → s'.coefficients_ (tc.zigzag j) = seq j) ∧
        (∀ slot, (∀ j : Fin 16, index ≤ j.val → seq j ≠ 0 → tc.zigzag j ≠ slot) →
          s'.coefficients_ slot = s.coefficients_ slot) := by
  intro n
  induction n with
  | zero =>
    intro index s _ hidx hst
    refine ⟨s, rfl, by simpa [encode_from] using hst, by simp [encode_from], ?_, fun _ _ => rfl⟩
    intro j hj
    have := j.isLt
    omega
  | succ n ih =>
    intro index s hctx hidx hst
    have hi : index < 16 := by omega
    obtain ⟨prob, hp⟩ := select_prob_ok tc pt t index s.token_context hi hctx
    have hpf := prob_for_eq tc pt t index s.token_context prob hp
    obtain ⟨⟨st, log⟩, co, hn, lwz, ctx, vis⟩ := s
    simp only at hctx hst hp hpf ⊢
    by_cases heob : (!lwz) = true ∧ zero_from seq index
    · -- end of block
      have hl : lwz = false := by simpa using heob.1
      subst hl
      have e : encode_from tc pt t seq (n + 1) index false ctx = [(.prob (prob 0), false)] := by
        rw [encode_from, dif_pos hi]
        simp only [hpf]
        rw [if_pos heob]
      rw [e] at hst ⊢
      simp only [List.map_cons, List.map_nil, List.cons_append, List.nil_append] at hst
      subst hst
      rw [parse_loop_stop script_answer tc pt fuel t n index _ _ hi
        (body_stop_script tc pt fuel t index ctx prob hp rest log co hn vis)]
      refine ⟨_, rfl, rfl, rfl, ?_, fun _ _ => rfl⟩
      intro j hj hne
      exact absurd (heob.2 j hj) hne
    · by_cases hz : seq ⟨index, hi⟩ = 0
      · -- a zero
        have e : encode_from tc pt t seq (n + 1) index lwz ctx
            = (if lwz then [] else [(.prob (prob 0), true)]) ++
              ((.prob (prob 1), false) :: encode_from tc pt t seq n (index + 1) true 0) := by
          rw [encode_from, dif_pos hi]
          simp only [hpf]
          rw [if_neg heob, if_pos hz]
        rw [e] at hst ⊢
        have hst' : st = (if lwz then [] else [true]) ++ false ::
            ((encode_from tc pt t seq n (index + 1) true 0).map Prod.snd ++ rest) := by
          rw [hst]; cases lwz <;> simp
        subst hst'
        rw [parse_loop_next script_answer tc pt fuel t n index _ _ hi
          (body_zero_script tc pt fuel t index ctx prob hp _ log co hn lwz vis)]
        obtain ⟨s', h1, h2, h3, h4, h5⟩ := ih (index + 1)
          ⟨⟨(encode_from tc pt t seq n (index + 1) true 0).map Prod.snd ++ rest,
            log ++ ((if lwz then [] else [.prob (prob 0)]) ++ [.prob (prob 1)])⟩, co, hn, true, 0,
            vis ++ [⟨index, ctx, !lwz, .ZERO⟩]⟩ (by norm_num) (by omega) rfl
        refine ⟨s', h1, h2, ?_, ?_, ?_⟩
        · rw [h3]; cases lwz <;> simp
        · intro j hj hne
          rcases Nat.eq_or_lt_of_le hj with hje | hjl
          · exact absurd (by rw [← hz]; congr 1; exact Fin.ext hje.symm) hne
          · exact h4 j hjl hne
        · intro slot hslot
          rw [h5 slot (fun j hj hne => hslot j (by omega) hne)]
      · -- a nonzero coefficient
        have e : encode_from tc pt t seq (n + 1) index lwz ctx
            = (if lwz then [] else [(.prob (prob 0), true)]) ++
              (((.prob (prob 1), true) :: encode_magnitude tc prob (seq ⟨index, hi⟩).natAbs)
                ++ (.uniform, decide (seq ⟨index, hi⟩ < 0)) ::
                  encode_from tc pt t seq n (index + 1) false
                    (context_after (seq ⟨index, hi⟩))) := by
          rw [encode_from, dif_pos hi]
          simp only [hpf]
          rw [if_neg heob, if_neg hz]
        rw [e] at hst ⊢
        have hst' : st = (if lwz then [] else [true]) ++ (true ::
            ((encode_magnitude tc prob (seq ⟨index, hi⟩).natAbs).map Prod.snd
              ++ decide (seq ⟨index, hi⟩ < 0) ::
                ((encode_from tc pt t seq n (index + 1) false
                    (context_after (seq ⟨index, hi⟩))).map Prod.snd ++ rest))) := by
          rw [hst]; cases lwz <;> simp
        subst hst'
        rw [parse_loop_next script_answer tc pt fuel t n index _ _ hi
          (body_value_script tc pt fuel t ⟨index, hi⟩ ctx prob hp hcat hfuel _ hz
            (hrange _) _ log co hn lwz vis)]
        obtain ⟨s', h1, h2, h3, h4, h5⟩ := ih (index + 1)
          ⟨⟨(encode_from tc pt t seq n (index + 1) false
                (context_after (seq ⟨index, hi⟩))).map Prod.snd ++ rest,
            log ++ ((if lwz then [] else [.prob (prob 0)])
              ++ (.prob (prob 1) :: ((encode_magnitude tc prob
                  (seq ⟨index, hi⟩).natAbs).map Prod.fst ++ [.uniform])))⟩,
            Function.update co (tc.zigzag ⟨index, hi⟩) (seq ⟨index, hi⟩), true, false,
            context_after (seq ⟨index, hi⟩),
            vis ++ [⟨index, ctx, !lwz, .value (seq ⟨index, hi⟩)⟩]⟩
          (context_after_le _) (by omega) rfl
        refine ⟨s', h1, h2, ?_, ?_, ?_⟩
        · rw [h3]; cases lwz <;> simp
        · intro j hj hne
          rcases Nat.eq_or_lt_of_le hj with hje | hjl
          · have hj' : j = ⟨index, hi⟩ := Fin.ext hje.symm
            subst hj'
            rw [h5 _ (fun j' hj' _ => fun heq => by
              have := hinj heq
              rw [Fin.ext_iff] at this
              simp only at this
              omega)]
            simp
          · exact h4 j hjl hne
        · intro slot hslot
          rw [h5 slot (fun j hj hne => hslot j (by omega) hne)]
          have : slot ≠ tc.zigzag ⟨index, hi⟩ := fun h => hslot ⟨index, hi⟩ (le_refl _) hz h.symm
          simp [Function.update_apply, this]

/-- C1 (amended): for every block type, band table, probability tables and
neighbour context, on a block whose coefficients start at zero, and every
sequence of 16 integers of magnitude at most 2114 (with entry 0 equal to 0
when the block is of type `Y_after_Y2`, whose position 0 is not coded),
`parse_tokens` applied to the token encoding of the sequence returns, stores
exactly that sequence (entry `i` at the zigzag slot of position `i`), consumes
exactly the encoding and queries exactly the probabilities the encoding was
made with. -/
theorem decode_encode_round_trip (tc : TokenConstants) (pt : ProbabilityTables) (fuel : Nat)
    (b : Block) (seq : SafeArray Int 16) (rest : List Bool) (log : List Query)
    (hcat : spec_categories tc) (hfuel : 11 < fuel) (hinj : Function.Injective tc.zigzag)
    (hrange : ∀ i, (seq i).natAbs ≤ max_magnitude)
    (hfresh : ∀ i, b.coefficients_ i = 0)
    (hdc : b.type_ = .Y_after_Y2 → seq 0 = 0) :
    ∃ s, parse_tokens script_answer tc pt fuel b
        ⟨(encode_tokens tc pt b seq).map Prod.snd ++ rest, log⟩ = .ok s ∧
      (∀ i, s.coefficients_ (tc.zigzag i) = seq i) ∧
      s.data.state = rest ∧
      s.data.queries = log ++ (encode_tokens tc pt b seq).map Prod.fst := by
  obtain ⟨s, h1, h2, h3, h4, h5⟩ := round_trip_loop tc pt fuel b.type_ seq rest hcat hfuel hinj
    hrange (16 - start_index b.type_) (start_index b.type_)
    (initial_state b ⟨(encode_tokens tc pt b seq).map Prod.snd ++ rest, log⟩)
    (initial_context_le b) (by have := start_index_lt b.type_; omega) rfl
  refine ⟨s, h1, ?_, h2, h3⟩
  intro i
  by_cases hz : seq i = 0
  · rw [hz, h5 (tc.zigzag i) (fun j _ hne heq => hne (by rw [hinj heq]; exact hz))]
    exact hfresh _
  · apply h4 i _ hz
    unfold start_index
    split_ifs with ht
    · have h0 := hdc ht
      rcases Nat.eq_zero_or_pos i.val with hi | hi
      · exact absurd (by rw [← h0]; congr 1; exact Fin.ext hi) hz
      · exact hi
    · exact Nat.zero_le _

theorem sample_zigzag_injective : Function.Injective sample_constants.zigzag := by
  decide

/-- Witness for C1: the sequence 5, -1, 0, ..., 0 on a fresh block of type `UV`. -/
theorem decode_encode_round_trip_witness :
    spec_categories sample_constants ∧ 11 < 12 ∧
    Function.Injective sample_constants.zigzag ∧
    (∀ i, (five_minus_one i).natAbs ≤ max_magnitude) ∧
    (∀ i, (zero_block .UV).coefficients_ i = 0) ∧
    ((zero_block .UV).type_ = .Y_after_Y2 → five_minus_one 0 = 0) ∧
    ∃ s, parse_tokens script_answer sample_constants flat_tables 12 (zero_block .UV)
        ⟨(encode_tokens sample_constants flat_tables (zero_block .UV) five_minus_one).map
          Prod.snd ++ [true], []⟩ = .ok s ∧
      (∀ i, s.coefficients_ (sample_constants.zigzag i) = five_minus_one i) ∧
      s.data.state = [true] ∧
      s.data.queries = [] ++ (encode_tokens sample_constants flat_tables (zero_block .UV)
        five_minus_one).map Prod.fst :=
  ⟨sample_constants_spec, by decide, sample_zigzag_injective, by decide, fun _ => rfl,
    by decide,
    decode_encode_round_trip sample_constants flat_tables 12 (zero_block .UV) five_minus_one
      [true] [] sample_constants_spec (by decide) sample_zigzag_injective (by decide)
      (fun _ => rfl) (by decide)⟩

/-- Counterexample to C1 as stated. For a block of type `Y_after_Y2` the
sequence 5, 0, ..., 0 is within the bounds, yet decoding its encoding leaves 0
at the slot of position 0, which is not coded. And on a block whose
coefficients all hold 7 beforehand, decoding the encoding of the all-zero
sequence leaves the 7s: zeros are never written. -/
theorem round_trip_fails_as_stated :
    (∃ s, parse_tokens script_answer sample_constants flat_tables 12 (zero_block .Y_after_Y2)
        ⟨(encode_tokens sample_constants flat_tables (zero_block .Y_after_Y2) dc_only).map
          Prod.snd, []⟩ = .ok s ∧
      s.coefficients_ (sample_constants.zigzag 0) = 0 ∧ dc_only 0 = 5) ∧
    (∃ s, parse_tokens script_answer sample_constants flat_tables 12 stale_block
        ⟨(encode_tokens sample_constants flat_tables stale_block all_zero).map Prod.snd, []⟩
          = .ok s ∧
      s.coefficients_ (sample_constants.zigzag 0) = 7 ∧ all_zero 0 = 0) := by
  constructor
  · exact ⟨⟨⟨[], [.prob 128]⟩, fun _ => 0, false, false, 0, [⟨1, 0, true, .EOB⟩]⟩,
      rfl, rfl, rfl⟩
  · exact ⟨⟨⟨[], [.prob 128]⟩, fun _ => 7, true, false, 0, [⟨0, 0, true, .EOB⟩]⟩,
      rfl, rfl, rfl⟩

/-! ## `Encoder::diamond_search` -/

theorem out_of_bounds_false_iff (mv : MotionVector) :
    out_of_bounds mv = false ↔ (|mv.x| ≤ 1023 ∧ |mv.y| ≤ 1023) := by
  unfold out_of_bounds
  rw [abs_le, abs_le]
  split_ifs <;> simp <;> omega

theorem diamond_visit_in_bounds {P : Type} (env : SearchContext P)
    (base_mv origin : MotionVector) (step_size : Nat) (x y : Int) (best : MBPredictionData)
    (h : out_of_bounds best.mv = false) :
    out_of_bounds (diamond_visit env base_mv origin step_size x y best).mv = false := by
  unfold diamond_visit
  split_ifs with h1 h2 h3
  · exact h
  · exact h
  · simpa using h2
  · exact h

theorem diamond_pass_in_bounds {P : Type} (env : SearchContext P)
    (base_mv origin : MotionVector) (step_size : Nat) :
    out_of_bounds (diamond_pass env base_mv origin step_size).mv = false := by
  simp only [diamond_pass, List.foldl]
  iterate 9 apply diamond_visit_in_bounds
  rfl

theorem diamond_loop_in_bounds {P : Type} (env : SearchContext P) (base_mv : MotionVector) :
    ∀ (step_size : Nat) (origin : MotionVector),
      (0 < step_size ∨ out_of_bounds origin = false) →
      out_of_bounds (diamond_loop env base_mv step_size origin) = false := by
  intro step_size
  induction step_size using Nat.strong_induction_on with
  | _ step_size ih =>
    intro origin h
    rw [diamond_loop]
    split_ifs with hs
    · exact ih (step_size / 2) (Nat.div_lt_self hs (by norm_num)) _
        (Or.inr (diamond_pass_in_bounds env base_mv origin step_size))
    · rcases h with h | h
      · exact absurd h hs
      · exact h

/-- C6 (amended): for every original block, reference, base vector, starting
origin and step size, when the step size is at least 1 or the starting origin
is itself within bounds, the vector returned by `diamond_search` has
`|x| ≤ 1023` and `|y| ≤ 1023`. -/
theorem diamond_search_in_bounds {P : Type} (env : SearchContext P)
    (base_mv origin : MotionVector) (step_size : Nat)
    (h : 0 < step_size ∨ (|origin.x| ≤ 1023 ∧ |origin.y| ≤ 1023)) :
    |(diamond_search env base_mv origin step_size).x| ≤ 1023 ∧
    |(diamond_search env base_mv origin step_size).y| ≤ 1023 := by
  rw [← out_of_bounds_false_iff, diamond_search]
  apply diamond_loop_in_bounds
  rcases h with h | h
  · exact Or.inl h
  · exact Or.inr ((out_of_bounds_false_iff origin).mpr h)

/-- Witness for C6: one step from the origin (2000, 0). -/
theorem diamond_search_in_bounds_witness :
    (0 < 1 ∨ (|(⟨2000, 0⟩ : MotionVector).x| ≤ 1023 ∧ |(⟨2000, 0⟩ : MotionVector).y| ≤ 1023)) ∧
    |(diamond_search sample_search ⟨0, 0⟩ ⟨2000, 0⟩ 1).x| ≤ 1023 ∧
    |(diamond_search sample_search ⟨0, 0⟩ ⟨2000, 0⟩ 1).y| ≤ 1023 :=
  ⟨Or.inl (by decide),
    diamond_search_in_bounds sample_search ⟨0, 0⟩ ⟨2000, 0⟩ 1 (Or.inl (by decide))⟩

/-- Counterexample to C6 as stated: with step size 0 the loop is not entered
and the starting origin (2000, 0) is returned as it is. -/
theorem diamond_search_zero_steps :
    diamond_search sample_search ⟨0, 0⟩ ⟨2000, 0⟩ 0 = ⟨2000, 0⟩ ∧
    ¬ |(diamond_search sample_search ⟨0, 0⟩ ⟨2000, 0⟩ 0).x| ≤ 1023 := by
  have h : diamond_search sample_search ⟨0, 0⟩ ⟨2000, 0⟩ 0 = ⟨2000, 0⟩ := by
    rw [diamond_search, diamond_loop]
    simp
  rw [h]
  exact ⟨rfl, by decide⟩

theorem diamond_visit_cost_le {P : Type} (env : SearchContext P)
    (base_mv origin : MotionVector) (step_size : Nat) (x y : Int) (best : MBPredictionData) :
    (diamond_visit env base_mv origin step_size x y best).cost ≤ best.cost := by
  unfold diamond_visit
  split_ifs with h1 h2 h3
  · exact le_refl _
  · exact le_refl _
  · exact le_of_lt h3
  · exact le_refl _

theorem diamond_visit_recorded {P : Type} (env : SearchContext P)
    (base_mv origin : MotionVector) (step_size : Nat) (x y : Int) (best : MBPredictionData)
    (h : cost_recorded env base_mv best) :
    cost_recorded env base_mv (diamond_visit env base_mv origin step_size x y best) := by
  unfold diamond_visit
  split_ifs with h1 h2 h3
  · exact h
  · exact h
  · exact Or.inr rfl
  · exact h

theorem toInt16_id (z : Int) (h : |z| ≤ 1023) : toInt16 z = z := by
  rw [abs_le] at h
  unfold toInt16; omega

theorem candidate_vector_center (origin : MotionVector) (step_size : Nat)
    (h : out_of_bounds origin = false) : candidate_vector origin step_size 0 0 = origin := by
  rw [out_of_bounds_false_iff] at h
  have hd : direction step_size 0 0 = ⟨0, 0⟩ := by
    simp [direction, to_size_t, MotionVector.make, toInt16]
  simp only [candidate_vector, hd, MotionVector.add, MotionVector.zero, add_zero, zero_add]
  rw [toInt16_id _ h.1, toInt16_id _ h.2, toInt16_id _ h.1, toInt16_id _ h.2]

theorem diamond_visit_center {P : Type} (env : SearchContext P)
    (base_mv origin : MotionVector) (step_size : Nat) (best : MBPredictionData)
    (h : out_of_bounds origin = false) :
    (diamond_visit env base_mv origin step_size 0 0 best).cost
      ≤ search_cost env base_mv origin := by
  unfold diamond_visit
  rw [candidate_vector_center origin step_size h]
  have hskip : ¬ (int_and 0 0 = 0 ∧ int_or 0 0 ≠ 0) := by decide
  rw [if_neg hskip, h]
  simp only [Bool.false_eq_true, if_false]
  split_ifs with h3
  · exact le_refl _
  · exact not_lt.mp h3

theorem diamond_pass_cost_le {P : Type} (env : SearchContext P)
    (base_mv origin : MotionVector) (step_size : Nat)
    (hin : out_of_bounds origin = false)
    (hmax : ∀ mv, search_cost env base_mv mv ≤ env.default_cost) :
    search_cost env base_mv (diamond_pass env base_mv origin step_size).mv
      ≤ search_cost env base_mv origin := by
  have hrec : cost_recorded env base_mv (diamond_pass env base_mv origin step_size) := by
    simp only [diamond_pass, List.foldl]
    iterate 9 apply diamond_visit_recorded
    exact Or.inl ⟨rfl, rfl⟩
  have hle : (diamond_pass env base_mv origin step_size).cost
      ≤ search_cost env base_mv origin := by
    simp only [diamond_pass, List.foldl]
    iterate 4 refine le_trans (diamond_visit_cost_le _ _ _ _ _ _ _) ?_
    exact diamond_visit_center env base_mv origin step_size _ hin
  rcases hrec with ⟨hz, hc⟩ | hc
  · rw [hz]
    exact le_trans (hmax _) (hc ▸ hle)
  · exact hc ▸ hle

theorem diamond_origins_chain {P : Type} (env : SearchContext P) (base_mv : MotionVector)
    (hmax : ∀ mv, search_cost env base_mv mv ≤ env.default_cost) :
    ∀ (step_size : Nat) (origin : MotionVector), out_of_bounds origin = false →
      List.Chain' (fun a b => search_cost env base_mv b ≤ search_cost env base_mv a)
        (diamond_origins env base_mv step_size origin) ∧
      (diamond_origins env base_mv step_size origin).head? = some origin ∧
      (diamond_origins env base_mv step_size origin).getLast?
        = some (diamond_loop env base_mv step_size origin) ∧
      search_cost env base_mv (diamond_loop env base_mv step_size origin)
        ≤ search_cost env base_mv origin := by
  intro step_size
  induction step_size using Nat.strong_induction_on with
  | _ step_size ih =>
    intro origin hin
    rw [diamond_origins, diamond_loop]
    split_ifs with hs
    · obtain ⟨h1, h2, h3, h4⟩ := ih (step_size / 2) (Nat.div_lt_self hs (by norm_num))
        (diamond_pass env base_mv origin step_size).mv
        (diamond_pass_in_bounds env base_mv origin step_size)
      have hstep := diamond_pass_cost_le env base_mv origin step_size hin hmax
      refine ⟨?_, rfl, ?_, le_trans h4 hstep⟩
      · rw [List.chain'_cons']
        refine ⟨?_, h1⟩
        intro y hy
        rw [h2] at hy
        simp only [Option.mem_def, Option.some.injEq] at hy
        subst hy
        exact hstep
      · cases hl : diamond_origins env base_mv (step_size / 2)
            (diamond_pass env base_mv origin step_size).mv with
        | nil => rw [hl] at h2; simp at h2
        | cons a l =>
          rw [hl] at h3
          rw [List.getLast?_cons_cons]
          exact h3
    · exact ⟨List.chain'_singleton _, rfl, rfl, le_refl _⟩

/-- C7 (amended): for every call of `diamond_search` whose starting origin is
within bounds (the default cost of a prediction record being an upper bound
of the costs), along the successive origins of the search the cost of each
origin is at most the cost of the origin it replaces, and the cost of the
returned vector is at most the cost of the starting origin. -/
theorem diamond_search_monotone {P : Type} (env : SearchContext P)
    (base_mv origin : MotionVector) (step_size : Nat)
    (hin : |origin.x| ≤ 1023 ∧ |origin.y| ≤ 1023)
    (hmax : ∀ mv, search_cost env (env.clamp base_mv) mv ≤ env.default_cost) :
    List.Chain'
        (fun a b => search_cost env (env.clamp base_mv) b ≤ search_cost env (env.clamp base_mv) a)
        (diamond_origins env (env.clamp base_mv) step_size origin) ∧
      (diamond_origins env (env.clamp base_mv) step_size origin).head? = some origin ∧
      (diamond_origins env (env.clamp base_mv) step_size origin).getLast?
        = some (diamond_search env base_mv origin step_size) ∧
      search_cost env (env.clamp base_mv) (diamond_search env base_mv origin step_size)
        ≤ search_cost env (env.clamp base_mv) origin :=
  diamond_origins_chain env (env.clamp base_mv) hmax step_size origin
    ((out_of_bounds_false_iff origin).mpr hin)

theorem sample_search_cost_le (base_mv mv : MotionVector) :
    search_cost sample_search base_mv mv ≤ sample_search.default_cost := by
  simp only [search_cost, sample_search]
  split_ifs <;> norm_num

/-- Witness for C7: two steps from the origin (8, 4). -/
theorem diamond_search_monotone_witness :
    (|(⟨8, 4⟩ : MotionVector).x| ≤ 1023 ∧ |(⟨8, 4⟩ : MotionVector).y| ≤ 1023) ∧
    (∀ mv, search_cost sample_search (sample_search.clamp ⟨0, 0⟩) mv
      ≤ sample_search.default_cost) ∧
    search_cost sample_search (sample_search.clamp ⟨0, 0⟩)
        (diamond_search sample_search ⟨0, 0⟩ ⟨8, 4⟩ 2)
      ≤ search_cost sample_search (sample_search.clamp ⟨0, 0⟩) ⟨8, 4⟩ :=
  ⟨by decide, sample_search_cost_le _,
    (diamond_search_monotone sample_search ⟨0, 0⟩ ⟨8, 4⟩ 2 (by decide)
      (sample_search_cost_le _)).2.2.2⟩

theorem diamond_search_one_step :
    diamond_search sample_search ⟨0, 0⟩ ⟨2000, 0⟩ 1 = ⟨0, 0⟩ := by
  have hp : diamond_pass sample_search (sample_search.clamp ⟨0, 0⟩) ⟨2000, 0⟩ 1
      = sample_search.default_pred := by decide
  rw [diamond_search, diamond_loop, dif_pos (by norm_num), hp, diamond_loop]
  simp [SearchContext.default_pred, MotionVector.zero]

/-- Counterexample to C7 as stated: from the origin (2000, 0), of cost 0, one
step of size 1 finds every candidate out of bounds and returns the default
vector (0, 0), of cost 10. -/
theorem diamond_search_worsens_cost :
    diamond_search sample_search ⟨0, 0⟩ ⟨2000, 0⟩ 1 = ⟨0, 0⟩ ∧
    search_cost sample_search (sample_search.clamp ⟨0, 0⟩) ⟨2000, 0⟩ = 0 ∧
    search_cost sample_search (sample_search.clamp ⟨0, 0⟩)
      (diamond_search sample_search ⟨0, 0⟩ ⟨2000, 0⟩ 1) = 10 := by
  have h : diamond_search sample_search ⟨0, 0⟩ ⟨2000, 0⟩ 1 = ⟨0, 0⟩ := by
    apply diamond_search_one_step
  rw [h]
  exact ⟨rfl, by decide, by decide⟩

/-! ## `Encoder::luma_mb_inter_predict` -/

theorem keep_cheaper_eq (b c : MBPredictionData) :
    keep_cheaper b c = if c.cost < b.cost then c else b := rfl

theorem first_minimum (l : List MBPredictionData) (b : MBPredictionData) :
    ∃ pre post, b :: l = pre ++ l.foldl keep_cheaper b :: post ∧
      (∀ c ∈ pre, (l.foldl keep_cheaper b).cost < c.cost) ∧
      (∀ c ∈ post, (l.foldl keep_cheaper b).cost ≤ c.cost) := by
  induction l using List.reverseRecOn with
  | nil => exact ⟨[], [], rfl, by simp, by simp⟩
  | append_singleton l c ih =>
    obtain ⟨pre, post, hdec, hpre, hpost⟩ := ih
    rw [List.foldl_append, List.foldl_cons, List.foldl_nil]
    rw [keep_cheaper_eq]
    split_ifs with hc
    · refine ⟨pre ++ l.foldl keep_cheaper b :: post, [], ?_, ?_, by simp⟩
      · rw [← List.cons_append, hdec]
      · intro d hd
        rw [List.mem_append, List.mem_cons] at hd
        rcases hd with hd | rfl | hd
        · exact lt_trans hc (hpre d hd)
        · exact hc
        · exact lt_of_lt_of_le hc (hpost d hd)
    · refine ⟨pre, post ++ [c], ?_, hpre, ?_⟩
      · rw [← List.cons_append, hdec]; simp
      · intro d hd
        rw [List.mem_append, List.mem_singleton] at hd
        rcases hd with hd | rfl
        · exact hpost d hd
        · exact not_lt.mp hc

theorem candidate_mv_ok {P : Type} (env : InterContext P) (mode : mbmode)
    (h : mode ∈ inter_modes) : ∃ o, candidate_mv env mode = .ok o := by
  simp only [inter_modes, List.mem_cons, List.mem_singleton, List.not_mem_nil, or_false] at h
  rcases h with rfl | rfl | rfl | rfl
  · exact ⟨_, rfl⟩
  · simp only [candidate_mv]; split_ifs <;> exact ⟨_, rfl⟩
  · simp only [candidate_mv]; split_ifs <;> exact ⟨_, rfl⟩
  · simp only [candidate_mv]; split_ifs <;> exact ⟨_, rfl⟩

theorem try_mode_spec {P : Type} (env : InterContext P) (init sel : Selection P) (mode : mbmode)
    (h : mode ∈ inter_modes) (hl : selection_linked env init sel) :
    ∃ sel', try_mode env sel mode = .ok sel' ∧
      sel'.best_pred = ((scored env mode).toList).foldl keep_cheaper sel.best_pred ∧
      selection_linked env init sel' := by
  obtain ⟨o, ho⟩ := candidate_mv_ok env mode h
  cases o with
  | none =>
    refine ⟨sel, ?_, ?_, hl⟩
    · simp [try_mode, ho]
    · simp [scored, ho]
  | some mv =>
    by_cases hc : (scored_pred env mode mv).cost < sel.best_pred.cost
    · refine ⟨⟨scored_pred env mode mv, mv, env.inter_predict mv⟩, ?_, ?_, ?_⟩
      · simp [try_mode, ho, hc]
      · simp [scored, ho, keep_cheaper, hc]
      · exact Or.inr ⟨mode, h, ho, rfl, rfl⟩
    · refine ⟨sel, ?_, ?_, hl⟩
      · simp [try_mode, ho, hc]
      · simp [scored, ho, keep_cheaper, hc]

theorem fold_try_mode {P : Type} (env : InterContext P) (init : Selection P) :
    ∀ (modes : List mbmode) (sel : Selection P), (∀ m ∈ modes, m ∈ inter_modes) →
      selection_linked env init sel →
      ∃ sel', modes.foldlM (try_mode env) sel = .ok sel' ∧
        sel'.best_pred = (modes.filterMap (scored env)).foldl keep_cheaper sel.best_pred ∧
        selection_linked env init sel' := by
  intro modes
  induction modes with
  | nil => intro sel _ hl; exact ⟨sel, rfl, rfl, hl⟩
  | cons m ms ih =>
    intro sel hm hl
    obtain ⟨s1, h1, h2, h3⟩ := try_mode_spec env init sel m (hm m (List.mem_cons_self _ _)) hl
    obtain ⟨s2, h4, h5, h6⟩ := ih s1 (fun m' hm' => hm m' (List.mem_cons_of_mem _ hm')) h3
    refine ⟨s2, ?_, ?_, h6⟩
    · rw [List.foldlM_cons, h1]; exact h4
    · rw [h5, h2]
      simp only [List.filterMap_cons]
      cases scored env m <;> simp

theorem select_mode_spec {P : Type} (env : InterContext P) (reconstructed_Y : P) :
    ∃ sel, select_mode env reconstructed_Y = .ok sel ∧
      sel.best_pred = (inter_modes.filterMap (scored env)).foldl keep_cheaper env.intra_best ∧
      selection_linked env ⟨env.intra_best, MotionVector.zero, reconstructed_Y⟩ sel :=
  fold_try_mode env _ inter_modes _ (fun _ h => h) (Or.inl rfl)

/-- C8: the selection of `luma_mb_inter_predict` returns, and the candidate it
retains (`best_pred`) is the first of minimal cost in the order intra,
ZEROMV, NEARESTMV, NEARMV, NEWMV (skipped candidates left out): every
candidate before it costs strictly more, every candidate after it at least
as much. In particular its cost is at most the cost of the intra candidate
and of every inter candidate that was not skipped. -/
theorem minimum_cost_selection {P : Type} (env : InterContext P) (reconstructed_Y : P) :
    ∃ sel, select_mode env reconstructed_Y = .ok sel ∧
      (∃ pre post, candidates_in_order env = pre ++ sel.best_pred :: post ∧
        (∀ c ∈ pre, sel.best_pred.cost < c.cost) ∧
        (∀ c ∈ post, sel.best_pred.cost ≤ c.cost)) ∧
      sel.best_pred.cost ≤ env.intra_best.cost ∧
      ∀ mode ∈ inter_modes, ∀ c, scored env mode = some c → sel.best_pred.cost ≤ c.cost := by
  obtain ⟨sel, h1, h2, _⟩ := select_mode_spec env reconstructed_Y
  obtain ⟨pre, post, hdec, hpre, hpost⟩ :=
    first_minimum (inter_modes.filterMap (scored env)) env.intra_best
  rw [← h2] at hdec hpre hpost
  have hall : ∀ c ∈ candidates_in_order env, sel.best_pred.cost ≤ c.cost := by
    intro c hc
    rw [candidates_in_order, hdec, List.mem_append, List.mem_cons] at hc
    rcases hc with hc | rfl | hc
    · exact le_of_lt (hpre c hc)
    · exact le_refl _
    · exact hpost c hc
  refine ⟨sel, h1, ⟨pre, post, hdec, hpre, hpost⟩, ?_, ?_⟩
  · exact hall _ (List.mem_cons_self _ _)
  · intro mode hm c hc
    apply hall
    rw [candidates_in_order]
    exact List.mem_cons_of_mem _ (List.mem_filterMap.mpr ⟨mode, hm, hc⟩)

theorem residual_visit_ok {P : Type} (env : InterContext P) (reconstructed_Y : P)
    (st : ResidualState) (ij : Fin 4 × Fin 4) :
    ∃ st', residual_visit env reconstructed_Y st ij = .ok st' ∧
      ∀ column row, (st'.Y column row).motion_vector = (st.Y column row).motion_vector := by
  have h : ij.1.val + 4 * ij.2.val < 16 := by
    have h1 := ij.1.isLt
    have h2 := ij.2.isLt
    omega
  simp only [residual_visit, dif_pos h]
  refine ⟨_, rfl, ?_⟩
  intro column row
  by_cases hc : column = ij.1
  · subst hc
    by_cases hr : row = ij.2
    · subst hr; simp
    · simp [Function.update_apply, hr]
  · simp [Function.update_apply, hc]

theorem residual_fold_ok {P : Type} (env : InterContext P) (reconstructed_Y : P) :
    ∀ (l : List (Fin 4 × Fin 4)) (st : ResidualState),
      ∃ st', l.foldlM (residual_visit env reconstructed_Y) st = .ok st' ∧
        ∀ column row, (st'.Y column row).motion_vector = (st.Y column row).motion_vector := by
  intro l
  induction l with
  | nil => intro st; exact ⟨st, rfl, fun _ _ => rfl⟩
  | cons ij l ih =>
    intro st
    obtain ⟨s1, h1, h2⟩ := residual_visit_ok env reconstructed_Y st ij
    obtain ⟨s2, h3, h4⟩ := ih s1
    refine ⟨s2, ?_, fun c r => (h4 c r).trans (h2 c r)⟩
    rw [List.foldlM_cons, h1]; exact h3

theorem commit_intra {P : Type} (env : InterContext P) (frame_mb : InterFrameMacroblock)
    (sel : Selection P) (h : sel.best_pred.prediction_mode.rank ≤ mbmode.B_PRED.rank) :
    ∃ r, commit_selection env frame_mb sel = .ok r ∧
      r.frame_mb.header.is_inter_mb = false ∧ r.selection = sel ∧
      r.intra_applied = some sel.best_pred.prediction_mode := by
  simp only [commit_selection, if_pos h]
  exact ⟨_, rfl, rfl, rfl, rfl⟩

theorem commit_inter {P : Type} (env : InterContext P) (frame_mb : InterFrameMacroblock)
    (sel : Selection P) (h : mbmode.B_PRED.rank < sel.best_pred.prediction_mode.rank) :
    ∃ r, commit_selection env frame_mb sel = .ok r ∧
      r.frame_mb.header.is_inter_mb = true ∧ r.frame_mb.header.reference = .LAST_FRAME ∧
      r.frame_mb.Y2.prediction_mode = sel.best_pred.prediction_mode ∧
      r.frame_mb.base_motion_vector = sel.best_mv ∧
      (∀ column row, (r.frame_mb.Y column row).motion_vector = sel.best_mv) ∧
      r.selection = sel ∧ r.intra_applied = none := by
  obtain ⟨st, h1, h2⟩ := residual_fold_ok env sel.reconstructed_Y forall_ij_order
    { Y := fun column row => { frame_mb.Y column row with motion_vector := sel.best_mv },
      walsh_input := fun _ => none, writes := fun _ => 0 }
  simp only [commit_selection, if_neg (not_le.mpr h), h1]
  refine ⟨_, rfl, rfl, rfl, rfl, rfl, ?_, rfl, rfl⟩
  intro column row
  exact h2 column row

theorem foldl_keep_none (l : List MBPredictionData) (b : MBPredictionData)
    (h : ∀ c ∈ l, ¬ c.cost < b.cost) : l.foldl keep_cheaper b = b := by
  induction l with
  | nil => rfl
  | cons c l ih =>
    rw [List.foldl_cons, keep_cheaper_eq, if_neg (h c (List.mem_cons_self _ _))]
    exact ih (fun d hd => h d (List.mem_cons_of_mem _ hd))

theorem inter_rank (mode : mbmode) (h : mode ∈ inter_modes) :
    mbmode.B_PRED.rank < mode.rank := by
  simp only [inter_modes, List.mem_cons, List.mem_singleton, List.not_mem_nil, or_false] at h
  rcases h with rfl | rfl | rfl | rfl <;> decide

theorem luma_run {P : Type} (env : InterContext P) (reconstructed_Y : P)
    (frame_mb : InterFrameMacroblock) :
    ∃ sel r, select_mode env reconstructed_Y = .ok sel ∧
      luma_mb_inter_predict env reconstructed_Y frame_mb = .ok r ∧ r.selection = sel ∧
      sel.best_pred = (inter_modes.filterMap (scored env)).foldl keep_cheaper env.intra_best ∧
      selection_linked env ⟨env.intra_best, MotionVector.zero, reconstructed_Y⟩ sel ∧
      (sel.best_pred.prediction_mode.rank ≤ mbmode.B_PRED.rank →
        r.frame_mb.header.is_inter_mb = false ∧
        r.intra_applied = some sel.best_pred.prediction_mode) ∧
      (mbmode.B_PRED.rank < sel.best_pred.prediction_mode.rank →
        r.frame_mb.header.is_inter_mb = true ∧
        r.frame_mb.header.reference = .LAST_FRAME ∧
        r.frame_mb.Y2.prediction_mode = sel.best_pred.prediction_mode ∧
        r.frame_mb.base_motion_vector = sel.best_mv ∧
        (∀ column row, (r.frame_mb.Y column row).motion_vector = sel.best_mv)) := by
  obtain ⟨sel, h1, h2, h3⟩ := select_mode_spec env reconstructed_Y
  by_cases hrank : mbmode.B_PRED.rank < sel.best_pred.prediction_mode.rank
  · obtain ⟨r, hr, ha, hb, hc, hd, he, hs, _⟩ := commit_inter env frame_mb sel hrank
    exact ⟨sel, r, h1, by simp only [luma_mb_inter_predict, h1, hr], hs, h2, h3,
      fun h => absurd hrank (not_lt.mpr h), fun _ => ⟨ha, hb, hc, hd, he⟩⟩
  · obtain ⟨r, hr, hi, hs, ha⟩ := commit_intra env frame_mb sel (not_lt.mp hrank)
    exact ⟨sel, r, h1, by simp only [luma_mb_inter_predict, h1, hr], hs, h2, h3,
      fun _ => ⟨hi, ha⟩, fun h => absurd h hrank⟩

theorem retained_inter_iff {P : Type} (env : InterContext P) (sel : Selection P)
    (init_Y : P)
    (hintra : env.intra_best.prediction_mode.rank ≤ mbmode.B_PRED.rank)
    (h2 : sel.best_pred
      = (inter_modes.filterMap (scored env)).foldl keep_cheaper env.intra_best)
    (h3 : selection_linked env ⟨env.intra_best, MotionVector.zero, init_Y⟩ sel) :
    (mbmode.B_PRED.rank < sel.best_pred.prediction_mode.rank ↔
      ∃ mode ∈ inter_modes, ∃ c, scored env mode = some c ∧ c.cost < env.intra_best.cost) ∧
    (¬ mbmode.B_PRED.rank < sel.best_pred.prediction_mode.rank →
      sel.best_pred = env.intra_best) := by
  by_cases hex : ∃ mode ∈ inter_modes, ∃ c, scored env mode = some c ∧ c.cost < env.intra_best.cost
  · -- some candidate is strictly cheaper: the selection was replaced
    have hne : sel.best_pred.cost < env.intra_best.cost := by
      obtain ⟨mode, hm, c, hc, hlt⟩ := hex
      obtain ⟨pre, post, hdec, hpre, hpost⟩ :=
        first_minimum (inter_modes.filterMap (scored env)) env.intra_best
      rw [← h2] at hdec hpre hpost
      have hmem : c ∈ pre ++ sel.best_pred :: post := by
        rw [← hdec]
        exact List.mem_cons_of_mem _ (List.mem_filterMap.mpr ⟨mode, hm, hc⟩)
      rw [List.mem_append, List.mem_cons] at hmem
      rcases hmem with hc' | rfl | hc'
      · exact lt_trans (hpre c hc') hlt
      · exact hlt
      · exact lt_of_le_of_lt (hpost c hc') hlt
    have hrank : mbmode.B_PRED.rank < sel.best_pred.prediction_mode.rank := by
      rcases h3 with h3 | ⟨mode, hm, _, hp, _⟩
      · rw [h3] at hne; exact absurd hne (lt_irrefl _)
      · rw [hp]; exact inter_rank mode hm
    exact ⟨⟨fun _ => hex, fun _ => hrank⟩, fun h => absurd hrank h⟩
  · -- no candidate is strictly cheaper: the intra candidate stays
    have hkeep : sel.best_pred = env.intra_best := by
      rw [h2]
      apply foldl_keep_none
      intro c hc hlt
      obtain ⟨mode, hm, hs⟩ := List.mem_filterMap.mp hc
      exact hex ⟨mode, hm, c, hs, hlt⟩
    refine ⟨⟨fun h => ?_, fun h => absurd h hex⟩, fun _ => hkeep⟩
    rw [hkeep] at h
    exact absurd h (not_lt.mpr hintra)

/-- C9: when the pre-computed intra candidate carries an intra mode,
`luma_mb_inter_predict` returns, and afterwards `is_inter_mb` is true if and
only if some inter candidate that was not skipped costs strictly less than
the intra candidate; otherwise the flag is false, the retained candidate is
the intra one and `luma_mb_apply_intra_prediction` is called with its mode. -/
theorem intra_inter_decision {P : Type} (env : InterContext P) (reconstructed_Y : P)
    (frame_mb : InterFrameMacroblock)
    (hintra : env.intra_best.prediction_mode.rank ≤ mbmode.B_PRED.rank) :
    ∃ r, luma_mb_inter_predict env reconstructed_Y frame_mb = .ok r ∧
      (r.frame_mb.header.is_inter_mb = true ↔
        ∃ mode ∈ inter_modes, ∃ c, scored env mode = some c ∧ c.cost < env.intra_best.cost) ∧
      (r.frame_mb.header.is_inter_mb = false →
        r.intra_applied = some env.intra_best.prediction_mode ∧
        r.selection.best_pred = env.intra_best) := by
  obtain ⟨sel, r, _, hr, hs, h2, h3, hlow, hhigh⟩ := luma_run env reconstructed_Y frame_mb
  obtain ⟨hiff, hkeep⟩ := retained_inter_iff env sel reconstructed_Y hintra h2 h3
  refine ⟨r, hr, ?_, ?_⟩
  · constructor
    · intro ht
      by_contra hex
      have hlow' := hlow (not_lt.mp (fun h => hex (hiff.mp h)))
      rw [hlow'.1] at ht
      exact absurd ht (by decide)
    · intro hex
      exact (hhigh (hiff.mpr hex)).1
  · intro hf
    have hnot : ¬ mbmode.B_PRED.rank < sel.best_pred.prediction_mode.rank := by
      intro h
      rw [(hhigh h).1] at hf
      exact absurd hf (by decide)
    have hk := hkeep hnot
    rw [hs, (hlow (not_lt.mp hnot)).2, hk]
    exact ⟨rfl, rfl⟩

/-- Witness for C9: the sample context, whose intra candidate has mode `DC_PRED`. -/
theorem intra_inter_decision_witness :
    sample_inter.intra_best.prediction_mode.rank ≤ mbmode.B_PRED.rank ∧
    ∃ r, luma_mb_inter_predict sample_inter () sample_macroblock = .ok r ∧
      (r.frame_mb.header.is_inter_mb = true ↔
        ∃ mode ∈ inter_modes, ∃ c, scored sample_inter mode = some c ∧
          c.cost < sample_inter.intra_best.cost) ∧
      (r.frame_mb.header.is_inter_mb = false →
        r.intra_applied = some sample_inter.intra_best.prediction_mode ∧
        r.selection.best_pred = sample_inter.intra_best) :=
  ⟨by decide, intra_inter_decision sample_inter () sample_macroblock (by decide)⟩

/-- C10: `luma_mb_inter_predict` returns, and whenever the candidate it retains
has an inter mode, the macroblock is marked inter-coded, its reference is
`LAST_FRAME`, the prediction mode of `Y2` is the retained mode, and each of
the 16 luma sub-blocks carries `best_mv`. When the pre-computed candidate has
an intra mode, `best_mv` is the vector of the winning candidate: the one the
mode switch computed for the retained mode, and the retained record is the
one scored for that mode and vector. -/
theorem inter_commit {P : Type} (env : InterContext P) (reconstructed_Y : P)
    (frame_mb : InterFrameMacroblock) :
    ∃ r, luma_mb_inter_predict env reconstructed_Y frame_mb = .ok r ∧
      (mbmode.B_PRED.rank < r.selection.best_pred.prediction_mode.rank →
        r.frame_mb.header.is_inter_mb = true ∧
        r.frame_mb.header.reference = .LAST_FRAME ∧
        r.frame_mb.Y2.prediction_mode = r.selection.best_pred.prediction_mode ∧
        r.frame_mb.base_motion_vector = r.selection.best_mv ∧
        (∀ column row, (r.frame_mb.Y column row).motion_vector = r.selection.best_mv)) ∧
      (env.intra_best.prediction_mode.rank ≤ mbmode.B_PRED.rank →
        mbmode.B_PRED.rank < r.selection.best_pred.prediction_mode.rank →
        r.selection.best_pred.prediction_mode ∈ inter_modes ∧
        candidate_mv env r.selection.best_pred.prediction_mode
          = .ok (some r.selection.best_mv) ∧
        r.selection.best_pred
          = scored_pred env r.selection.best_pred.prediction_mode r.selection.best_mv) := by
  obtain ⟨sel, r, _, hr, hs, _, h3, _, hhigh⟩ := luma_run env reconstructed_Y frame_mb
  refine ⟨r, hr, ?_, ?_⟩
  · rw [hs]; exact hhigh
  · rw [hs]
    intro hintra hrank
    rcases h3 with h3 | ⟨mode, hm, hcand, hp, _⟩
    · rw [h3] at hrank
      exact absurd hrank (not_lt.mpr hintra)
    · have hmode : sel.best_pred.prediction_mode = mode := by rw [hp]; rfl
      rw [hmode]
      exact ⟨hm, hcand, hp⟩

theorem sample_zeromv_cheaper :
    ∃ mode ∈ inter_modes, ∃ c, scored sample_inter mode = some c ∧
      c.cost < sample_inter.intra_best.cost :=
  ⟨.ZEROMV, by decide, scored_pred sample_inter .ZEROMV MotionVector.zero, rfl, by decide⟩

/-- Witness for C10: in the sample context ZEROMV costs 3 against 100 for the
intra candidate, so an inter candidate is retained and committed. -/
theorem inter_commit_witness :
    ∃ r, luma_mb_inter_predict sample_inter () sample_macroblock = .ok r ∧
      mbmode.B_PRED.rank < r.selection.best_pred.prediction_mode.rank ∧
      r.frame_mb.header.is_inter_mb = true ∧
      r.frame_mb.header.reference = .LAST_FRAME ∧
      r.frame_mb.Y2.prediction_mode = r.selection.best_pred.prediction_mode ∧
      (∀ column row, (r.frame_mb.Y column row).motion_vector = r.selection.best_mv) ∧
      candidate_mv sample_inter r.selection.best_pred.prediction_mode
        = .ok (some r.selection.best_mv) := by
  obtain ⟨r, hr, h1, h2⟩ := inter_commit sample_inter () sample_macroblock
  obtain ⟨sel, r', _, hr', hs, h4, h5, _, _⟩ := luma_run sample_inter () sample_macroblock
  have hrr : r = r' := by
    have := hr.symm.trans hr'
    exact Except.ok.inj this
  have hrank : mbmode.B_PRED.rank < r.selection.best_pred.prediction_mode.rank := by
    rw [hrr, hs]
    exact (retained_inter_iff sample_inter sel () (by decide) h4 h5).1.mpr
      sample_zeromv_cheaper
  obtain ⟨a, b, c, _, e⟩ := h1 hrank
  exact ⟨r, hr, hrank, a, b, c, e, (h2 (by decide) hrank).2.1⟩

/-! ## The pattern of `diamond_search` and the schedule of NEWMV -/

theorem diamond_visit_skipped {P : Type} (env : SearchContext P)
    (base_mv origin : MotionVector) (step_size : Nat) (x y : Int) (best : MBPredictionData)
    (h : int_and x y = 0 ∧ int_or x y ≠ 0) :
    diamond_visit env base_mv origin step_size x y best = best := by
  rw [diamond_visit, if_pos h]

theorem diamond_pass_five {P : Type} (env : SearchContext P)
    (base_mv origin : MotionVector) (step_size : Nat) :
    diamond_pass env base_mv origin step_size
      = evaluated_offsets.foldl
          (fun best_pred p => diamond_visit env base_mv origin step_size p.1 p.2 best_pred)
          env.default_pred := by
  simp only [diamond_pass, evaluated_offsets, List.foldl]
  rw [diamond_visit_skipped env base_mv origin step_size (-1) 0 _ (by decide),
    diamond_visit_skipped env base_mv origin step_size 0 (-1) _ (by decide),
    diamond_visit_skipped env base_mv origin step_size 0 1 _ (by decide),
    diamond_visit_skipped env base_mv origin step_size 1 0 _ (by decide)]

theorem direction_values (step_size : Nat) :
    direction step_size (-1) (-1) = MotionVector.make (-(4 * (step_size : Int))) 0 ∧
    direction step_size (-1) 1 = MotionVector.make 0 (-(4 * (step_size : Int))) ∧
    direction step_size 0 0 = MotionVector.make 0 0 ∧
    direction step_size 1 (-1) = MotionVector.make 0 (4 * (step_size : Int)) ∧
    direction step_size 1 1 = MotionVector.make (4 * (step_size : Int)) 0 := by
  simp only [direction, to_size_t, MotionVector.make, Nat.shiftLeft_eq, toInt16]
  refine ⟨?_, ?_, ?_, ?_, ?_⟩ <;> norm_num <;> omega

/-- C13 (amended): at each step size `diamond_search` evaluates exactly five
candidates: the current origin itself (the zero offset, which the test of
line 55 does not skip) and its four plus/cross neighbours, each displaced by
`4 * step_size` along a single axis; the four other offsets of the loops are
skipped. -/
theorem diamond_pattern {P : Type} (env : SearchContext P)
    (base_mv origin : MotionVector) (step_size : Nat) :
    diamond_pass env base_mv origin step_size
        = evaluated_offsets.foldl
            (fun best_pred p => diamond_visit env base_mv origin step_size p.1 p.2 best_pred)
            env.default_pred ∧
    (∀ x ∈ ([-1, 0, 1] : List Int), ∀ y ∈ ([-1, 0, 1] : List Int),
      ((int_and x y = 0 ∧ int_or x y ≠ 0) ↔ (x, y) ∉ evaluated_offsets)) ∧
    (∀ p ∈ skipped_offsets, ∀ best,
      diamond_visit env base_mv origin step_size p.1 p.2 best = best) ∧
    (direction step_size (-1) (-1) = MotionVector.make (-(4 * (step_size : Int))) 0 ∧
      direction step_size (-1) 1 = MotionVector.make 0 (-(4 * (step_size : Int))) ∧
      direction step_size 0 0 = MotionVector.make 0 0 ∧
      direction step_size 1 (-1) = MotionVector.make 0 (4 * (step_size : Int)) ∧
      direction step_size 1 1 = MotionVector.make (4 * (step_size : Int)) 0) ∧
    (out_of_bounds origin = false → candidate_vector origin step_size 0 0 = origin) := by
  refine ⟨diamond_pass_five env base_mv origin step_size, by decide, ?_,
    direction_values step_size, candidate_vector_center origin step_size⟩
  intro p hp best
  apply diamond_visit_skipped
  simp only [skipped_offsets, List.mem_cons, List.mem_singleton, List.not_mem_nil,
    or_false] at hp
  rcases hp with rfl | rfl | rfl | rfl <;> decide

theorem peaked_search_keeps_origin :
    diamond_search peaked_search ⟨0, 0⟩ ⟨8, 4⟩ 1 = ⟨8, 4⟩ := by
  have hp : (diamond_pass peaked_search (peaked_search.clamp ⟨0, 0⟩) ⟨8, 4⟩ 1).mv
      = ⟨8, 4⟩ := by decide
  rw [diamond_search, diamond_loop, dif_pos (by norm_num), hp, diamond_loop]
  simp

/-- Counterexample to C13 as stated: the offset (0, 0) passes the test of line
55 and gives the origin (8, 4) itself as a candidate; where the origin is the
cheapest vector, it is the candidate the pass retains and the search
returns, although its four neighbours are within bounds. -/
theorem zero_offset_is_candidate :
    ¬ (int_and 0 0 = 0 ∧ int_or 0 0 ≠ 0) ∧
    candidate_vector ⟨8, 4⟩ 1 0 0 = ⟨8, 4⟩ ∧
    (diamond_pass peaked_search (peaked_search.clamp ⟨0, 0⟩) ⟨8, 4⟩ 1).mv = ⟨8, 4⟩ ∧
    (diamond_pass peaked_search (peaked_search.clamp ⟨0, 0⟩) ⟨8, 4⟩ 1).cost = 0 ∧
    diamond_search peaked_search ⟨0, 0⟩ ⟨8, 4⟩ 1 = ⟨8, 4⟩ :=
  ⟨by decide, by decide, by decide, by decide, peaked_search_keeps_origin⟩

theorem newmv_loop_step {P : Type} (env : InterContext P) (step : Nat) (mv : MotionVector)
    (h : step < 8) :
    newmv_loop env step mv
      = newmv_loop env ((step + 18446744073709551615) % 18446744073709551616)
          (diamond_search env.toSearchContext env.census_best mv (1 <<< step)) := by
  rw [newmv_loop, if_pos h]

theorem newmv_loop_exit {P : Type} (env : InterContext P) (step : Nat) (mv : MotionVector)
    (h : ¬ step < 8) : newmv_loop env step mv = mv := by
  rw [newmv_loop, if_neg h]

theorem newmv_calls_step {P : Type} (env : InterContext P) (step : Nat) (mv : MotionVector)
    (h : step < 8) :
    newmv_calls env step mv
      = (1 <<< step, mv) ::
        newmv_calls env ((step + 18446744073709551615) % 18446744073709551616)
          (diamond_search env.toSearchContext env.census_best mv (1 <<< step)) := by
  rw [newmv_calls, if_pos h]

theorem newmv_calls_exit {P : Type} (env : InterContext P) (step : Nat) (mv : MotionVector)
    (h : ¬ step < 8) : newmv_calls env step mv = [] := by
  rw [newmv_calls, if_neg h]

/-- C14: when NEWMV is evaluated, the loop of `luma_mb_inter_predict` over the
unsigned counter makes exactly 8 calls of `diamond_search`, with step sizes
128, 64, 32, 16, 8, 4, 2, 1 in that order, the first from the zero vector and
each later one from the vector the previous call returned; it returns what
the eighth call returns, the counter value the decrement wraps to ends the
loop, and the candidate vector of NEWMV is the clamped result. -/
theorem newmv_schedule {P : Type} (env : InterContext P) :
    ∃ v1 v2 v3 v4 v5 v6 v7 : MotionVector,
      v1 = diamond_search env.toSearchContext env.census_best MotionVector.zero 128 ∧
      v2 = diamond_search env.toSearchContext env.census_best v1 64 ∧
      v3 = diamond_search env.toSearchContext env.census_best v2 32 ∧
      v4 = diamond_search env.toSearchContext env.census_best v3 16 ∧
      v5 = diamond_search env.toSearchContext env.census_best v4 8 ∧
      v6 = diamond_search env.toSearchContext env.census_best v5 4 ∧
      v7 = diamond_search env.toSearchContext env.census_best v6 2 ∧
      newmv_calls env 7 MotionVector.zero
        = [(128, MotionVector.zero), (64, v1), (32, v2), (16, v3), (8, v4), (4, v5), (2, v6),
            (1, v7)] ∧
      newmv_loop env 7 MotionVector.zero
        = diamond_search env.toSearchContext env.census_best v7 1 ∧
      (∀ mv, newmv_calls env ((0 + 18446744073709551615) % 18446744073709551616) mv = []) ∧
      candidate_mv env .NEWMV
        = if (env.clamp (newmv_loop env 7 MotionVector.zero)).empty then .ok none
          else .ok (some (env.clamp (newmv_loop env 7 MotionVector.zero))) := by
  refine ⟨_, _, _, _, _, _, _, rfl, rfl, rfl, rfl, rfl, rfl, rfl, ?_, ?_,
    fun mv => newmv_calls_exit env _ mv (by norm_num), rfl⟩
  · rw [newmv_calls_step env 7 _ (by norm_num), newmv_calls_step env _ _ (by norm_num),
      newmv_calls_step env _ _ (by norm_num), newmv_calls_step env _ _ (by norm_num),
      newmv_calls_step env _ _ (by norm_num), newmv_calls_step env _ _ (by norm_num),
      newmv_calls_step env _ _ (by norm_num), newmv_calls_step env _ _ (by norm_num),
      newmv_calls_exit env _ _ (by norm_num)]
    rfl
  · rw [newmv_loop_step env 7 _ (by norm_num), newmv_loop_step env _ _ (by norm_num),
      newmv_loop_step env _ _ (by norm_num), newmv_loop_step env _ _ (by norm_num),
      newmv_loop_step env _ _ (by norm_num), newmv_loop_step env _ _ (by norm_num),
      newmv_loop_step env _ _ (by norm_num), newmv_loop_step env _ _ (by norm_num),
      newmv_loop_exit env _ _ (by norm_num)]
    rfl

/-! ## `Block::parse_tokens`: the record of a whole pass -/

theorem head_snoc (l : List Visit) (w v : Visit) (h : (l ++ [w]).head? = some v) :
    (l = [] ∧ v = w) ∨ l.head? = some v := by
  cases l with
  | nil => simp at h; exact Or.inl ⟨rfl, h.symm⟩
  | cons a l => simp at h; exact Or.inr (by simp [h])

theorem mem_snoc (l : List Visit) (w v : Visit) (h : v ∈ l ++ [w]) : v ∈ l ∨ v = w := by
  simpa using h

theorem select_prob_out_of_range (tc : TokenConstants) (pt : ProbabilityTables)
    (t : BlockType) (index ctx : Nat) (hi : index < 16) (hc : 3 ≤ ctx) :
    select_prob tc pt t index ctx = .error .out_of_range := by
  have hc3 : ¬ ctx < 3 := by omega
  simp only [select_prob, bind, Except.bind, at_of_lt _ _ t.index_lt, at_of_lt _ _ hi,
    at_of_lt _ _ (Fin.is_lt _)]
  simp [SafeArray.at_, hc3]

theorem initial_context_count (b : Block) :
    initial_context b = [b.above, b.left].count (some true) := by
  unfold initial_context
  rcases b.above with _ | a <;> rcases b.left with _ | l
  · rfl
  · cases l <;> rfl
  · cases a <;> rfl
  · cases a <;> cases l <;> rfl

/-- C17: the initial token context of `parse_tokens` is the number of present
neighbours (above, left) whose `has_nonzero` flag is set; the pass returns,
and at every probability-table lookup it made the token context is 0, 1 or 2
and the lookup by (block type, band of the position, token context)
succeeded, whereas a lookup with a context of 3 or more would be out of
range. -/
theorem token_context_range {σ : Type} (answer : σ → Query → Bool × σ) (tc : TokenConstants)
    (pt : ProbabilityTables) (fuel : Nat) (b : Block) (data : BoolDecoder σ)
    (hfit : decoders_fit tc fuel) :
    initial_context b = [b.above, b.left].count (some true) ∧
    (∃ s, parse_tokens answer tc pt fuel b data = .ok s ∧
      (∀ v, s.visits.head? = some v → v.token_context = initial_context b) ∧
      ∀ v ∈ s.visits, (v.token_context = 0 ∨ v.token_context = 1 ∨ v.token_context = 2) ∧
        v.index < 16 ∧
        ∃ prob, select_prob tc pt b.type_ v.index v.token_context = .ok prob) ∧
    ∀ index ctx, index < 16 → 3 ≤ ctx →
      select_prob tc pt b.type_ index ctx = .error .out_of_range := by
  refine ⟨initial_context_count b, ?_,
    fun index ctx hi hc => select_prob_out_of_range tc pt b.type_ index ctx hi hc⟩
  have key := parse_loop_induction answer tc pt fuel b.type_ hfit
    (fun _ s => s.token_context ≤ 2 ∧ (s.visits = [] → s.token_context = initial_context b) ∧
      (∀ v, s.visits.head? = some v → v.token_context = initial_context b) ∧
      ∀ v ∈ s.visits, v.token_context ≤ 2 ∧ v.index < 16)
    (fun s => (∀ v, s.visits.head? = some v → v.token_context = initial_context b) ∧
      ∀ v ∈ s.visits, v.token_context ≤ 2 ∧ v.index < 16)
    (fun _ _ h => h.1)
    (by
      rintro index s s' ⟨h1, h2, h3, h4⟩ ⟨_, hv, _, _⟩
      rw [hv]
      refine ⟨fun v hv' => ?_, fun v hv' => ?_⟩
      · rcases head_snoc _ _ _ hv' with ⟨he, rfl⟩ | h
        · exact h2 he
        · exact h3 v h
      · rcases mem_snoc _ _ _ hv' with h | rfl
        · exact h4 v h
        · exact ⟨h1, index.isLt⟩)
    (by
      rintro index s s' ⟨h1, h2, h3, h4⟩ ⟨hv, _, hc0, _, _⟩
      rw [hv]
      refine ⟨by omega, fun h => absurd h (by simp), fun v hv' => ?_, fun v hv' => ?_⟩
      · rcases head_snoc _ _ _ hv' with ⟨he, rfl⟩ | h
        · exact h2 he
        · exact h3 v h
      · rcases mem_snoc _ _ _ hv' with h | rfl
        · exact h4 v h
        · exact ⟨h1, index.isLt⟩)
    (by
      rintro index s s' x ⟨h1, h2, h3, h4⟩ ⟨hv, _, _, _, hc12⟩ _
      rw [hv]
      refine ⟨by omega, fun h => absurd h (by simp), fun v hv' => ?_, fun v hv' => ?_⟩
      · rcases head_snoc _ _ _ hv' with ⟨he, rfl⟩ | h
        · exact h2 he
        · exact h3 v h
      · rcases mem_snoc _ _ _ hv' with h | rfl
        · exact h4 v h
        · exact ⟨h1, index.isLt⟩)
    (fun _ _ h => ⟨h.2.2.1, h.2.2.2⟩)
    (16 - start_index b.type_) (start_index b.type_) (initial_state b data)
    ⟨initial_context_le b, fun _ => rfl, by simp [initial_state], by simp [initial_state]⟩
  obtain ⟨s, hs, hhead, hall⟩ := key
  refine ⟨s, hs, hhead, fun v hv => ?_⟩
  obtain ⟨hc, hi⟩ := hall v hv
  exact ⟨by omega, hi, select_prob_ok tc pt b.type_ v.index v.token_context hi hc⟩

theorem sample_decoders_fit : decoders_fit sample_constants 12 :=
  decoders_fit_of_spec sample_constants 12 sample_constants_spec (by decide)

/-- Witness for C17: the sample constants, on the token stream of 5, -1. -/
theorem token_context_range_witness :
    decoders_fit sample_constants 12 ∧
    ∃ s, parse_tokens script_answer sample_constants flat_tables 12 (zero_block .Y2)
        ⟨[true, true, true, true, false, false, false, false, true, true, false, true, false],
          []⟩ = .ok s ∧
      (∀ v, s.visits.head? = some v → v.token_context = initial_context (zero_block .Y2)) ∧
      ∀ v ∈ s.visits, (v.token_context = 0 ∨ v.token_context = 1 ∨ v.token_context = 2) ∧
        v.index < 16 ∧
        ∃ prob, select_prob sample_constants flat_tables (zero_block .Y2).type_ v.index
          v.token_context = .ok prob :=
  ⟨sample_decoders_fit,
    (token_context_range script_answer sample_constants flat_tables 12 (zero_block .Y2) _
      sample_decoders_fit).2.1⟩

theorem start_index_le (t : BlockType) : start_index t ≤ 16 :=
  le_of_lt (start_index_lt t)

/-- C18: `parse_tokens` starts at position 1 for a block of type Y_after_Y2 and
at position 0 for every other type; whatever the boolean source answers the
pass returns, the positions it visited are the consecutive positions from the
start position on (so each at most once, at most 16 of them, all below 16),
every slot that is not the zigzag image of a position from the start on is
unchanged, and for Y_after_Y2 no visit (hence no query) is at position 0 and
the slot of position 0 is unchanged (zigzag sending no other position there). -/
theorem start_position {σ : Type} (answer : σ → Query → Bool × σ) (tc : TokenConstants)
    (pt : ProbabilityTables) (fuel : Nat) (b : Block) (data : BoolDecoder σ)
    (hfit : decoders_fit tc fuel) :
    (b.type_ = .Y_after_Y2 → start_index b.type_ = 1) ∧
    (b.type_ ≠ .Y_after_Y2 → start_index b.type_ = 0) ∧
    ∃ s, parse_tokens answer tc pt fuel b data = .ok s ∧
      s.visits.map (fun v => v.index) = List.range' (start_index b.type_) s.visits.length ∧
      start_index b.type_ + s.visits.length ≤ 16 ∧
      (s.visits.map (fun v => v.index)).Nodup ∧
      (∀ slot, (∀ j : Fin 16, start_index b.type_ ≤ j.val → tc.zigzag j ≠ slot) →
        s.coefficients_ slot = b.coefficients_ slot) ∧
      (b.type_ = .Y_after_Y2 →
        (∀ v ∈ s.visits, v.index ≠ 0) ∧
        ((∀ j : Fin 16, j ≠ 0 → tc.zigzag j ≠ tc.zigzag 0) →
          s.coefficients_ (tc.zigzag 0) = b.coefficients_ (tc.zigzag 0))) := by
  refine ⟨fun h => by simp [start_index, h], fun h => by simp [start_index, h], ?_⟩
  have key := parse_loop_induction answer tc pt fuel b.type_ hfit
    (fun index s => s.token_context ≤ 2 ∧
      (index = start_index b.type_ + s.visits.length ∧ index ≤ 16) ∧
      s.visits.map (fun v => v.index) = List.range' (start_index b.type_) s.visits.length ∧
      (∀ slot, (∀ j : Fin 16, start_index b.type_ ≤ j.val → tc.zigzag j ≠ slot) →
        s.coefficients_ slot = b.coefficients_ slot))
    (fun s => s.visits.map (fun v => v.index)
        = List.range' (start_index b.type_) s.visits.length ∧
      start_index b.type_ + s.visits.length ≤ 16 ∧
      (∀ slot, (∀ j : Fin 16, start_index b.type_ ≤ j.val → tc.zigzag j ≠ slot) →
        s.coefficients_ slot = b.coefficients_ slot))
    (fun _ _ h => h.1)
    (by
      rintro index s s' ⟨_, ⟨h2, _⟩, h3, h4⟩ ⟨_, hv, hco, _⟩
      have hi := index.isLt
      rw [hv, hco]
      refine ⟨?_, ?_, h4⟩
      · rw [List.map_append, h3, List.length_append, List.length_singleton,
          List.range'_concat]
        simp [h2]
      · rw [List.length_append, List.length_singleton]; omega)
    (by
      rintro index s s' ⟨_, ⟨h2, _⟩, h3, h4⟩ ⟨hv, _, hc0, hco, _⟩
      have hi := index.isLt
      rw [hv, hco]
      refine ⟨by omega, ?_, ?_, h4⟩
      · rw [List.length_append, List.length_singleton]; omega
      · rw [List.map_append, h3, List.length_append, List.length_singleton,
          List.range'_concat]
        simp [h2])
    (by
      rintro index s s' x ⟨_, ⟨h2, _⟩, h3, h4⟩ ⟨hv, _, _, hco, hc12⟩ _
      have hi := index.isLt
      rw [hv, hco]
      refine ⟨by omega, ?_, ?_, ?_⟩
      · rw [List.length_append, List.length_singleton]; omega
      · rw [List.map_append, h3, List.length_append, List.length_singleton,
          List.range'_concat]
        simp [h2]
      · intro slot hslot
        have hne : slot ≠ tc.zigzag index := fun h => hslot index (by omega) h.symm
        rw [Function.update_noteq hne]
        exact h4 slot hslot)
    (fun i s h => ⟨h.2.2.1, by have := h.2.1; omega, h.2.2.2⟩)
    (16 - start_index b.type_) (start_index b.type_) (initial_state b data)
    ⟨initial_context_le b, by
      have := start_index_le b.type_
      simp [initial_state, this], by simp [initial_state], fun _ _ => rfl⟩
  obtain ⟨s, hs, h1, h2, h3⟩ := key
  refine ⟨s, hs, h1, h2, ?_, h3, ?_⟩
  · rw [h1]; exact List.nodup_range' _ _
  · intro ht
    have hst : start_index b.type_ = 1 := by simp [start_index, ht]
    refine ⟨?_, ?_⟩
    · intro v hv h0
      have hm : v.index ∈ s.visits.map (fun v => v.index) := List.mem_map_of_mem _ hv
      rw [h1, List.mem_range'_1] at hm
      omega
    · intro hz
      apply h3
      intro j hj
      apply hz
      intro h
      rw [h, hst] at hj
      simp at hj

/-- Witness for C18: a Y_after_Y2 block over the sample constants, on the token
stream of 5, -1. -/
theorem start_position_witness :
    decoders_fit sample_constants 12 ∧
    ∃ s, parse_tokens script_answer sample_constants flat_tables 12 (zero_block .Y_after_Y2)
        ⟨[true, true, true, true, false, false, false, false, true, true, false, true, false],
          []⟩ = .ok s ∧
      s.visits.map (fun v => v.index)
        = List.range' (start_index (zero_block .Y_after_Y2).type_) s.visits.length ∧
      start_index (zero_block .Y_after_Y2).type_ + s.visits.length ≤ 16 ∧
      (s.visits.map (fun v => v.index)).Nodup ∧
      (∀ slot, (∀ j : Fin 16, start_index (zero_block .Y_after_Y2).type_ ≤ j.val →
          sample_constants.zigzag j ≠ slot) →
        s.coefficients_ slot = (zero_block .Y_after_Y2).coefficients_ slot) ∧
      ((zero_block .Y_after_Y2).type_ = .Y_after_Y2 →
        (∀ v ∈ s.visits, v.index ≠ 0) ∧
        ((∀ j : Fin 16, j ≠ 0 → sample_constants.zigzag j ≠ sample_constants.zigzag 0) →
          s.coefficients_ (sample_constants.zigzag 0)
            = (zero_block .Y_after_Y2).coefficients_ (sample_constants.zigzag 0))) :=
  ⟨sample_decoders_fit,
    (start_position script_answer sample_constants flat_tables 12 (zero_block .Y_after_Y2) _
      sample_decoders_fit).2.2⟩

/-- C16: with the category decoders of the spec, for every boolean source and
all probability tables a pass of `parse_tokens` returns, every value it wrote
(the value token of a visit) is nonzero and `has_nonzero_` is true after it;
a slot whose content changed holds a nonzero value, `has_nonzero_` is never
reset, and it is only true when it was so before or a coefficient is nonzero.
Hence on a block that starts with 16 zero coefficients and `has_nonzero_`
false, `has_nonzero_` is true after the pass if and only if some coefficient
is nonzero. -/
theorem has_nonzero_consistent {σ : Type} (answer : σ → Query → Bool × σ)
    (tc : TokenConstants) (pt : ProbabilityTables) (fuel : Nat) (b : Block)
    (data : BoolDecoder σ) (hcat : spec_categories tc) (hfuel : 11 < fuel) :
    ∃ s, parse_tokens answer tc pt fuel b data = .ok s ∧
      (∀ v ∈ s.visits, ∀ x, v.token = .value x → x ≠ 0 ∧ s.has_nonzero_ = true) ∧
      (∀ slot, s.coefficients_ slot ≠ b.coefficients_ slot →
        s.coefficients_ slot ≠ 0 ∧ s.has_nonzero_ = true) ∧
      (b.has_nonzero_ = true → s.has_nonzero_ = true) ∧
      (s.has_nonzero_ = true → b.has_nonzero_ = true ∨ ∃ slot, s.coefficients_ slot ≠ 0) ∧
      ((∀ slot, b.coefficients_ slot = 0) → b.has_nonzero_ = false →
        (s.has_nonzero_ = true ↔ ∃ slot, s.coefficients_ slot ≠ 0)) := by
  have hfit := decoders_fit_of_spec tc fuel hcat hfuel
  have key := parse_loop_induction answer tc pt fuel b.type_ hfit
    (fun _ s => s.token_context ≤ 2 ∧
      (∀ v ∈ s.visits, ∀ x, v.token = .value x → x ≠ 0 ∧ s.has_nonzero_ = true) ∧
      (∀ slot, s.coefficients_ slot ≠ b.coefficients_ slot →
        s.coefficients_ slot ≠ 0 ∧ s.has_nonzero_ = true) ∧
      (b.has_nonzero_ = true → s.has_nonzero_ = true) ∧
      (s.has_nonzero_ = true → b.has_nonzero_ = true ∨ ∃ slot, s.coefficients_ slot ≠ 0))
    (fun s =>
      (∀ v ∈ s.visits, ∀ x, v.token = .value x → x ≠ 0 ∧ s.has_nonzero_ = true) ∧
      (∀ slot, s.coefficients_ slot ≠ b.coefficients_ slot →
        s.coefficients_ slot ≠ 0 ∧ s.has_nonzero_ = true) ∧
      (b.has_nonzero_ = true → s.has_nonzero_ = true) ∧
      (s.has_nonzero_ = true → b.has_nonzero_ = true ∨ ∃ slot, s.coefficients_ slot ≠ 0))
    (fun _ _ h => h.1)
    (by
      rintro index s s' ⟨_, h1, h2, h3, h4⟩ ⟨_, hv, hco, hnz⟩
      rw [hv, hco, hnz]
      refine ⟨?_, h2, h3, h4⟩
      intro v hm x hx
      rcases mem_snoc _ _ _ hm with hm | rfl
      · exact h1 v hm x hx
      · simp at hx)
    (by
      rintro index s s' ⟨_, h1, h2, h3, h4⟩ ⟨hv, _, hc0, hco, hnz⟩
      rw [hv, hco, hnz]
      refine ⟨by omega, ?_, h2, h3, h4⟩
      intro v hm x hx
      rcases mem_snoc _ _ _ hm with hm | rfl
      · exact h1 v hm x hx
      · simp at hx)
    (by
      rintro index s s' x ⟨_, h1, h2, h3, h4⟩ ⟨hv, _, hnz, hco, hc12⟩ hx
      have hx0 := (hx hcat).1
      rw [hv, hco, hnz]
      refine ⟨by omega, ?_, ?_, fun _ => rfl, fun _ => Or.inr ⟨tc.zigzag index, ?_⟩⟩
      · intro v hm y hy
        rcases mem_snoc _ _ _ hm with hm | rfl
        · exact ⟨(h1 v hm y hy).1, rfl⟩
        · simp only [Token.value.injEq] at hy
          exact ⟨hy ▸ hx0, rfl⟩
      · intro slot hslot
        refine ⟨?_, rfl⟩
        by_cases hs : slot = tc.zigzag index
        · rw [hs, Function.update_same]; exact hx0
        · rw [Function.update_noteq hs] at hslot ⊢
          exact (h2 slot hslot).1
      · rw [Function.update_same]; exact hx0)
    (fun _ _ h => h.2)
    (16 - start_index b.type_) (start_index b.type_) (initial_state b data)
    ⟨initial_context_le b, by simp [initial_state], by simp [initial_state],
      fun h => h, fun h => Or.inl h⟩
  obtain ⟨s, hs, h1, h2, h3, h4⟩ := key
  refine ⟨s, hs, h1, h2, h3, h4, ?_⟩
  intro hz hf
  constructor
  · intro h
    rcases h4 h with h | h
    · rw [hf] at h; exact absurd h (by decide)
    · exact h
  · rintro ⟨slot, h⟩
    exact (h2 slot (by rw [hz slot]; exact h)).2

/-- Witness for C16: the sample constants, on the token stream of 5, -1 read
into a block of zeros. -/
theorem has_nonzero_consistent_witness :
    spec_categories sample_constants ∧ 11 < 12 ∧
    ∃ s, parse_tokens script_answer sample_constants flat_tables 12 (zero_block .Y2)
        ⟨[true, true, true, true, false, false, false, false, true, true, false, true, false],
          []⟩ = .ok s ∧
      (∀ v ∈ s.visits, ∀ x, v.token = .value x → x ≠ 0 ∧ s.has_nonzero_ = true) ∧
      (∀ slot, s.coefficients_ slot ≠ (zero_block .Y2).coefficients_ slot →
        s.coefficients_ slot ≠ 0 ∧ s.has_nonzero_ = true) ∧
      ((zero_block .Y2).has_nonzero_ = true → s.has_nonzero_ = true) ∧
      (s.has_nonzero_ = true →
        (zero_block .Y2).has_nonzero_ = true ∨ ∃ slot, s.coefficients_ slot ≠ 0) ∧
      ((∀ slot, (zero_block .Y2).coefficients_ slot = 0) →
        (zero_block .Y2).has_nonzero_ = false →
        (s.has_nonzero_ = true ↔ ∃ slot, s.coefficients_ slot ≠ 0)) :=
  ⟨sample_constants_spec, by decide,
    has_nonzero_consistent script_answer sample_constants flat_tables 12 (zero_block .Y2) _
      sample_constants_spec (by decide)⟩

/-! ## Block::parse_tokens: when the end-of-block probability is queried -/

theorem get_queries {σ : Type} (answer : σ → Query → Bool × σ) (data : BoolDecoder σ)
    (q : Query) : (data.get answer q).2.queries = data.queries ++ [q] := rfl

theorem parse_large_queries {σ : Type} (answer : σ → Query → Bool × σ) (tc : TokenConstants)
    (fuel : Nat) (prob : ProbabilityArray) (data : BoolDecoder σ) (hfit : decoders_fit tc fuel) :
    ∃ r, parse_large answer tc fuel prob data = .ok r ∧ data.queries <+: r.2.queries := by
  have f1 := hfit tc.token_decoder_1 (by simp [TokenConstants.decoders])
  have f2 := hfit tc.token_decoder_2 (by simp [TokenConstants.decoders])
  have f3 := hfit tc.token_decoder_3 (by simp [TokenConstants.decoders])
  have f4 := hfit tc.token_decoder_4 (by simp [TokenConstants.decoders])
  have f5 := hfit tc.token_decoder_5 (by simp [TokenConstants.decoders])
  simp only [parse_large, bind, Except.bind, pure, Except.pure,
    get_at_ok answer _ 3 (by decide), get_at_ok answer _ 4 (by decide),
    get_at_ok answer _ 5 (by decide), get_at_ok answer _ 6 (by decide),
    get_at_ok answer _ 7 (by decide), get_at_ok answer _ 8 (by decide),
    get_at_ok answer _ 9 (by decide), get_at_ok answer _ 10 (by decide),
    decode_category_eq answer _ fuel _ f1.1 f1.2, decode_category_eq answer _ fuel _ f2.1 f2.2,
    decode_category_eq answer _ fuel _ f3.1 f3.2, decode_category_eq answer _ fuel _ f4.1 f4.2,
    decode_category_eq answer _ fuel _ f5.1 f5.2]
  split_ifs <;>
    exact ⟨_, rfl, by simp only [get_queries, List.append_assoc]; exact List.prefix_append _ _⟩

theorem parse_magnitude_queries {σ : Type} (answer : σ → Query → Bool × σ)
    (tc : TokenConstants) (fuel : Nat) (prob : ProbabilityArray) (data : BoolDecoder σ)
    (hfit : decoders_fit tc fuel) :
    ∃ r, parse_magnitude answer tc fuel prob data = .ok r ∧ data.queries <+: r.2.2.queries := by
  simp only [parse_magnitude, bind, Except.bind, pure, Except.pure,
    get_at_ok answer _ 2 (by decide)]
  split_ifs
  · exact ⟨_, rfl, by simp only [get_queries]; exact List.prefix_append _ _⟩
  · obtain ⟨r, hr, hq⟩ := parse_large_queries answer tc fuel prob
      (BoolDecoder.get answer data (Query.prob (prob ⟨2, by decide⟩))).2 hfit
    rw [hr]
    refine ⟨_, rfl, ?_⟩
    rw [get_queries] at hq
    exact (List.prefix_append _ _).trans hq

theorem parse_after_eob_queries {σ : Type} (answer : σ → Query → Bool × σ)
    (tc : TokenConstants) (fuel : Nat) (prob : ProbabilityArray) (index : Fin 16)
    (e : Bool) (s : ParseState σ) (data : BoolDecoder σ) (hfit : decoders_fit tc fuel) :
    ∃ s', parse_after_eob answer tc fuel prob index.val e s data = .ok (.next s') ∧
      data.queries ++ [.prob (prob 1)] <+: s'.data.queries ∧
      ∃ w, s'.visits = s.visits ++ [w] ∧ w.index = index.val ∧ w.eob_queried = e := by
  simp only [parse_after_eob, bind, Except.bind, pure, Except.pure,
    get_at_ok answer _ 1 (by decide)]
  split_ifs with h1
  · exact ⟨_, rfl, List.prefix_refl _, _, rfl, rfl, rfl⟩
  · obtain ⟨r, hr, hq⟩ := parse_magnitude_queries answer tc fuel prob
      (BoolDecoder.get answer data (Query.prob (prob ⟨1, by decide⟩))).2 hfit
    rw [hr]
    simp only [at_of_lt tc.zigzag index.val index.isLt, at_of_lt s.coefficients_ _ (Fin.is_lt _)]
    refine ⟨_, rfl, ?_, _, rfl, rfl, rfl⟩
    rw [get_queries] at hq
    exact hq.trans (by rw [get_queries]; exact List.prefix_append _ _)

theorem parse_body_queries {σ : Type} (answer : σ → Query → Bool × σ) (tc : TokenConstants)
    (pt : ProbabilityTables) (fuel : Nat) (t : BlockType) (index : Fin 16) (s : ParseState σ)
    (prob : ProbabilityArray) (hprob : select_prob tc pt t index.val s.token_context = .ok prob)
    (hfit : decoders_fit tc fuel) :
    (s.last_was_zero = false →
      ((answer s.data.state (.prob (prob 0))).1 = false →
        ∃ s', parse_body answer tc pt fuel t index.val s = .ok (.stop s') ∧
          s'.data.queries = s.data.queries ++ [.prob (prob 0)] ∧
          s'.coefficients_ = s.coefficients_ ∧ s'.has_nonzero_ = s.has_nonzero_ ∧
          s'.visits = s.visits ++ [⟨index.val, s.token_context, true, .EOB⟩]) ∧
      ((answer s.data.state (.prob (prob 0))).1 = true →
        ∃ s', parse_body answer tc pt fuel t index.val s = .ok (.next s') ∧
          s.data.queries ++ [.prob (prob 0), .prob (prob 1)] <+: s'.data.queries ∧
          ∃ w, s'.visits = s.visits ++ [w] ∧ w.index = index.val ∧ w.eob_queried = true)) ∧
    (s.last_was_zero = true →
      ∃ s', parse_body answer tc pt fuel t index.val s = .ok (.next s') ∧
        s.data.queries ++ [.prob (prob 1)] <+: s'.data.queries ∧
        ∃ w, s'.visits = s.visits ++ [w] ∧ w.index = index.val ∧ w.eob_queried = false) := by
  simp only [parse_body, hprob, bind, Except.bind, pure, Except.pure,
    get_at_ok answer _ 0 (by decide)]
  refine ⟨fun hz => ⟨fun h0 => ?_, fun h0 => ?_⟩, fun hz => ?_⟩
  · have h0' : (BoolDecoder.get answer s.data (Query.prob (prob ⟨0, by decide⟩))).1 = false := h0
    simp only [hz, h0', Bool.not_false, if_true]
    exact ⟨_, rfl, rfl, rfl, rfl, rfl⟩
  · have h0' : (BoolDecoder.get answer s.data (Query.prob (prob ⟨0, by decide⟩))).1 = true := h0
    simp only [hz, h0', Bool.not_false, Bool.not_true, if_true, Bool.false_eq_true, if_false]
    obtain ⟨s', hs, hq, hw⟩ := parse_after_eob_queries answer tc fuel prob index true s
      (BoolDecoder.get answer s.data (Query.prob (prob ⟨0, by decide⟩))).2 hfit
    refine ⟨s', hs, ?_, hw⟩
    rw [get_queries, List.append_assoc] at hq
    exact hq
  · simp only [hz, Bool.not_true, Bool.false_eq_true, if_false]
    exact parse_after_eob_queries answer tc fuel prob index false s s.data hfit

theorem eob_chain_snoc (vs : List Visit) (w : Visit) (h : List.Chain' eob_link vs)
    (hl : ∀ v ∈ vs.getLast?, eob_link v w) : List.Chain' eob_link (vs ++ [w]) := by
  rw [List.chain'_append]
  refine ⟨h, List.chain'_singleton _, ?_⟩
  intro x hx y hy
  simp only [List.head?_cons, Option.mem_def, Option.some.injEq] at hy
  subst hy
  exact hl x hx

/-- C15: in an iteration of `parse_tokens` that follows no zero
(`last_was_zero` false) the first query is the end-of-block probability, tree
position 0; a false answer stops the pass after that single query with the
coefficients and `has_nonzero_` unchanged, a true answer is followed by the
query of tree position 1. In an iteration that follows a zero the first query
is directly the one of tree position 1. Over a whole pass, which returns: the
first visit is at the start position and queries the end-of-block
probability; a later visit queries it if and only if the visit before it
decoded a value (nonzero, with the category decoders of the spec), and not
after a zero; an end-of-block token is only drawn from that query and is the
last visit; and a slot changes only through a value decoded at a visited
position, so the positions after the one that ended the block are untouched. -/
theorem eob_query_rule {σ : Type} (answer : σ → Query → Bool × σ) (tc : TokenConstants)
    (pt : ProbabilityTables) (fuel : Nat) (b : Block) (data : BoolDecoder σ)
    (hfit : decoders_fit tc fuel) :
    (∀ (index : Fin 16) (s : ParseState σ) (prob : ProbabilityArray),
      select_prob tc pt b.type_ index.val s.token_context = .ok prob →
      (s.last_was_zero = false →
        ((answer s.data.state (.prob (prob 0))).1 = false →
          ∃ s', parse_body answer tc pt fuel b.type_ index.val s = .ok (.stop s') ∧
            s'.data.queries = s.data.queries ++ [.prob (prob 0)] ∧
            s'.coefficients_ = s.coefficients_ ∧ s'.has_nonzero_ = s.has_nonzero_ ∧
            s'.visits = s.visits ++ [⟨index.val, s.token_context, true, .EOB⟩]) ∧
        ((answer s.data.state (.prob (prob 0))).1 = true →
          ∃ s', parse_body answer tc pt fuel b.type_ index.val s = .ok (.next s') ∧
            s.data.queries ++ [.prob (prob 0), .prob (prob 1)] <+: s'.data.queries ∧
            ∃ w, s'.visits = s.visits ++ [w] ∧ w.index = index.val ∧ w.eob_queried = true)) ∧
      (s.last_was_zero = true →
        ∃ s', parse_body answer tc pt fuel b.type_ index.val s = .ok (.next s') ∧
          s.data.queries ++ [.prob (prob 1)] <+: s'.data.queries ∧
          ∃ w, s'.visits = s.visits ++ [w] ∧ w.index = index.val ∧ w.eob_queried = false)) ∧
    ∃ s, parse_tokens answer tc pt fuel b data = .ok s ∧
      (∀ v, s.visits.head? = some v → v.index = start_index b.type_ ∧ v.eob_queried = true) ∧
      (∀ pre v w post, s.visits = pre ++ v :: w :: post →
        v.token ≠ .EOB ∧ (w.eob_queried = true ↔ ∃ x, v.token = .value x) ∧
        (v.token = .ZERO → w.eob_queried = false)) ∧
      (spec_categories tc → ∀ v ∈ s.visits, ∀ x, v.token = .value x → x ≠ 0) ∧
      (∀ v ∈ s.visits, v.token = .EOB → v.eob_queried = true) ∧
      (∀ slot, s.coefficients_ slot ≠ b.coefficients_ slot →
        ∃ v ∈ s.visits, ∃ x, v.token = .value x ∧
          ∃ i : Fin 16, i.val = v.index ∧ tc.zigzag i = slot) := by
  refine ⟨fun index s prob hprob =>
    parse_body_queries answer tc pt fuel b.type_ index s prob hprob hfit, ?_⟩
  have key := parse_loop_induction answer tc pt fuel b.type_ hfit
    (fun index s => s.token_context ≤ 2 ∧ List.Chain' eob_link s.visits ∧
      (∀ v ∈ s.visits.getLast?, v.token ≠ .EOB ∧
        (s.last_was_zero = false ↔ ∃ x, v.token = .value x)) ∧
      (s.visits = [] → s.last_was_zero = false ∧ index = start_index b.type_) ∧
      (∀ v, s.visits.head? = some v → v.index = start_index b.type_ ∧ v.eob_queried = true) ∧
      (spec_categories tc → ∀ v ∈ s.visits, ∀ x, v.token = .value x → x ≠ 0) ∧
      (∀ v ∈ s.visits, v.token = .EOB → v.eob_queried = true) ∧
      (∀ slot, s.coefficients_ slot ≠ b.coefficients_ slot →
        ∃ v ∈ s.visits, ∃ x, v.token = .value x ∧
          ∃ i : Fin 16, i.val = v.index ∧ tc.zigzag i = slot))
    (fun s => List.Chain' eob_link s.visits ∧
      (∀ v, s.visits.head? = some v → v.index = start_index b.type_ ∧ v.eob_queried = true) ∧
      (spec_categories tc → ∀ v ∈ s.visits, ∀ x, v.token = .value x → x ≠ 0) ∧
      (∀ v ∈ s.visits, v.token = .EOB → v.eob_queried = true) ∧
      (∀ slot, s.coefficients_ slot ≠ b.coefficients_ slot →
        ∃ v ∈ s.visits, ∃ x, v.token = .value x ∧
          ∃ i : Fin 16, i.val = v.index ∧ tc.zigzag i = slot))
    (fun _ _ h => h.1)
    (by
      rintro index s s' ⟨_, h1, h2, h3, h4, h5, h6, h7⟩ ⟨hz, hv, hco, _⟩
      rw [hv, hco]
      refine ⟨eob_chain_snoc _ _ h1 ?_, ?_, ?_, ?_, ?_⟩
      · intro v hm
        exact ⟨(h2 v hm).1, by simpa [hz] using (h2 v hm).2⟩
      · intro v hh
        rcases head_snoc _ _ _ hh with ⟨hnil, rfl⟩ | hh
        · exact ⟨(h3 hnil).2, rfl⟩
        · exact h4 v hh
      · intro hc v hm x hx
        rcases mem_snoc _ _ _ hm with hm | rfl
        · exact h5 hc v hm x hx
        · simp at hx
      · intro v hm hx
        rcases mem_snoc _ _ _ hm with hm | rfl
        · exact h6 v hm hx
        · rfl
      · intro slot hslot
        obtain ⟨v, hm, r⟩ := h7 slot hslot
        exact ⟨v, List.mem_append_left _ hm, r⟩)
    (by
      rintro index s s' ⟨_, h1, h2, h3, h4, h5, h6, h7⟩ ⟨hv, hlz, hc0, hco, _⟩
      rw [hv, hco]
      refine ⟨by omega, eob_chain_snoc _ _ h1 ?_, ?_, ?_, ?_, ?_, ?_, ?_⟩
      · intro v hm
        refine ⟨(h2 v hm).1, ?_⟩
        rw [← (h2 v hm).2]
        cases s.last_was_zero <;> simp
      · intro v hm
        rw [mem_getLast_snoc _ _ _ hm, hlz]
        simp
      · intro hnil; simp at hnil
      · intro v hh
        rcases head_snoc _ _ _ hh with ⟨hnil, rfl⟩ | hh
        · exact ⟨(h3 hnil).2, by simp [(h3 hnil).1]⟩
        · exact h4 v hh
      · intro hc v hm x hx
        rcases mem_snoc _ _ _ hm with hm | rfl
        · exact h5 hc v hm x hx
        · simp at hx
      · intro v hm hx
        rcases mem_snoc _ _ _ hm with hm | rfl
        · exact h6 v hm hx
        · simp at hx
      · intro slot hslot
        obtain ⟨v, hm, r⟩ := h7 slot hslot
        exact ⟨v, List.mem_append_left _ hm, r⟩)
    (by
      rintro index s s' x ⟨_, h1, h2, h3, h4, h5, h6, h7⟩ ⟨hv, hlz, _, hco, hc12⟩ hx
      rw [hv, hco]
      refine ⟨by omega, eob_chain_snoc _ _ h1 ?_, ?_, ?_, ?_, ?_, ?_, ?_⟩
      · intro v hm
        refine ⟨(h2 v hm).1, ?_⟩
        rw [← (h2 v hm).2]
        cases s.last_was_zero <;> simp
      · intro v hm
        rw [mem_getLast_snoc _ _ _ hm, hlz]
        simp
      · intro hnil; simp at hnil
      · intro v hh
        rcases head_snoc _ _ _ hh with ⟨hnil, rfl⟩ | hh
        · exact ⟨(h3 hnil).2, by simp [(h3 hnil).1]⟩
        · exact h4 v hh
      · intro hc v hm y hy
        rcases mem_snoc _ _ _ hm with hm | rfl
        · exact h5 hc v hm y hy
        · simp only [Token.value.injEq] at hy
          exact hy ▸ (hx hc).1
      · intro v hm hx
        rcases mem_snoc _ _ _ hm with hm | rfl
        · exact h6 v hm hx
        · simp at hx
      · intro slot hslot
        by_cases hs : slot = tc.zigzag index
        · exact ⟨_, List.mem_append_right _ (List.mem_singleton_self _), x, rfl, index, rfl,
            hs.symm⟩
        · rw [Function.update_noteq hs] at hslot
          obtain ⟨v, hm, r⟩ := h7 slot hslot
          exact ⟨v, List.mem_append_left _ hm, r⟩)
    (fun _ _ h => ⟨h.2.1, h.2.2.2.2⟩)
    (16 - start_index b.type_) (start_index b.type_) (initial_state b data)
    ⟨initial_context_le b, List.chain'_nil, by simp [initial_state],
      fun _ => ⟨rfl, rfl⟩, by simp [initial_state], by simp [initial_state],
      by simp [initial_state], fun slot h => absurd rfl h⟩
  obtain ⟨s, hs, hch, h4, h5, h6, h7⟩ := key
  refine ⟨s, hs, h4, ?_, h5, h6, h7⟩
  intro pre v w post hvis
  rw [hvis] at hch
  have h2 := (List.chain'_split.mp hch).2
  have h3 := (List.chain'_cons.mp h2).1
  refine ⟨h3.1, h3.2, fun hz => ?_⟩
  cases hw : w.eob_queried
  · rfl
  · obtain ⟨x, hx⟩ := h3.2.mp hw
    rw [hz] at hx
    cases hx

/-- Witness for C15: the sample constants, on the token stream of 5, -1. -/
theorem eob_query_rule_witness :
    decoders_fit sample_constants 12 ∧
    ∃ s, parse_tokens script_answer sample_constants flat_tables 12 (zero_block .Y2)
        ⟨[true, true, true, true, false, false, false, false, true, true, false, true, false],
          []⟩ = .ok s ∧
      (∀ v, s.visits.head? = some v →
        v.index = start_index (zero_block .Y2).type_ ∧ v.eob_queried = true) ∧
      (∀ pre v w post, s.visits = pre ++ v :: w :: post →
        v.token ≠ .EOB ∧ (w.eob_queried = true ↔ ∃ x, v.token = .value x) ∧
        (v.token = .ZERO → w.eob_queried = false)) ∧
      (spec_categories sample_constants → ∀ v ∈ s.visits, ∀ x, v.token = .value x → x ≠ 0) ∧
      (∀ v ∈ s.visits, v.token = .EOB → v.eob_queried = true) ∧
      (∀ slot, s.coefficients_ slot ≠ (zero_block .Y2).coefficients_ slot →
        ∃ v ∈ s.visits, ∃ x, v.token = .value x ∧
          ∃ i : Fin 16, i.val = v.index ∧ sample_constants.zigzag i = slot) :=
  ⟨sample_decoders_fit,
    (eob_query_rule script_answer sample_constants flat_tables 12 (zero_block .Y2) _
      sample_decoders_fit).2⟩

/-! ## luma_mb_inter_predict: empty vectors -/

theorem empty_iff_zero (mv : MotionVector) : mv.empty = true ↔ mv = MotionVector.zero := by
  cases mv with
  | mk x y => simp [MotionVector.empty, MotionVector.zero]

theorem candidate_mv_empty_iff {P : Type} (env : InterContext P) (mode : mbmode)
    (mv : MotionVector) (h : candidate_mv env mode = .ok (some mv)) :
    mv = MotionVector.zero ↔ mode = .ZEROMV := by
  cases mode with
  | ZEROMV =>
    simp only [candidate_mv, Except.ok.injEq, Option.some.injEq] at h
    simp [h.symm]
  | NEARESTMV =>
    simp only [candidate_mv] at h
    split_ifs at h with he
    · simp at h
    · simp only [Except.ok.injEq, Option.some.injEq] at h
      subst h
      simp only [reduceCtorEq, iff_false]
      exact fun hz => he ((empty_iff_zero _).mpr hz)
  | NEARMV =>
    simp only [candidate_mv] at h
    split_ifs at h with he
    · simp at h
    · simp only [Except.ok.injEq, Option.some.injEq] at h
      subst h
      simp only [reduceCtorEq, iff_false]
      exact fun hz => he ((empty_iff_zero _).mpr hz)
  | NEWMV =>
    simp only [candidate_mv] at h
    split_ifs at h with he
    · simp at h
    · simp only [Except.ok.injEq, Option.some.injEq] at h
      subst h
      simp only [reduceCtorEq, iff_false]
      exact fun hz => he ((empty_iff_zero _).mpr hz)
  | DC_PRED => simp [candidate_mv] at h
  | V_PRED => simp [candidate_mv] at h
  | H_PRED => simp [candidate_mv] at h
  | TM_PRED => simp [candidate_mv] at h
  | B_PRED => simp [candidate_mv] at h
  | SPLITMV => simp [candidate_mv] at h

theorem try_mode_skip {P : Type} (env : InterContext P) (mode : mbmode)
    (h : candidate_mv env mode = .ok none) :
    scored env mode = none ∧ ∀ sel, try_mode env sel mode = .ok sel := by
  simp [scored, try_mode, h]

/-- C19: a NEARESTMV, NEARMV or NEWMV candidate whose clamped vector is empty
is abandoned before it is scored (no record, the selection is left as it
was), so a scored candidate has the zero vector if and only if its mode is
ZEROMV. Hence, the pre-computed intra candidate having an intra mode,
whenever `luma_mb_inter_predict` marks the macroblock inter-coded, the mode
it committed to `Y2` is one of the four inter modes and the committed base
motion vector is the zero vector if and only if that mode is ZEROMV. -/
theorem empty_vector_only_zeromv {P : Type} (env : InterContext P) (reconstructed_Y : P)
    (frame_mb : InterFrameMacroblock)
    (hintra : env.intra_best.prediction_mode.rank ≤ mbmode.B_PRED.rank) :
    ((env.clamp env.census_nearest).empty = true →
      candidate_mv env .NEARESTMV = .ok none ∧ scored env .NEARESTMV = none ∧
      ∀ sel, try_mode env sel .NEARESTMV = .ok sel) ∧
    ((env.clamp env.census_near).empty = true →
      candidate_mv env .NEARMV = .ok none ∧ scored env .NEARMV = none ∧
      ∀ sel, try_mode env sel .NEARMV = .ok sel) ∧
    ((env.clamp (newmv_loop env 7 MotionVector.zero)).empty = true →
      candidate_mv env .NEWMV = .ok none ∧ scored env .NEWMV = none ∧
      ∀ sel, try_mode env sel .NEWMV = .ok sel) ∧
    (∀ mode mv, candidate_mv env mode = .ok (some mv) →
      (mv = MotionVector.zero ↔ mode = .ZEROMV)) ∧
    ∃ r, luma_mb_inter_predict env reconstructed_Y frame_mb = .ok r ∧
      (r.frame_mb.header.is_inter_mb = true →
        r.frame_mb.Y2.prediction_mode ∈ inter_modes ∧
        (r.frame_mb.base_motion_vector = MotionVector.zero ↔
          r.frame_mb.Y2.prediction_mode = .ZEROMV)) := by
  refine ⟨fun h => ?_, fun h => ?_, fun h => ?_,
    fun mode mv h => candidate_mv_empty_iff env mode mv h, ?_⟩
  · have hc : candidate_mv env .NEARESTMV = .ok none := by simp [candidate_mv, h]
    exact ⟨hc, try_mode_skip env _ hc⟩
  · have hc : candidate_mv env .NEARMV = .ok none := by simp [candidate_mv, h]
    exact ⟨hc, try_mode_skip env _ hc⟩
  · have hc : candidate_mv env .NEWMV = .ok none := by simp [candidate_mv, h]
    exact ⟨hc, try_mode_skip env _ hc⟩
  · obtain ⟨sel, r, _, hr, hs, _, h3, hlow, hhigh⟩ := luma_run env reconstructed_Y frame_mb
    refine ⟨r, hr, fun hinter => ?_⟩
    have hrank : mbmode.B_PRED.rank < sel.best_pred.prediction_mode.rank := by
      by_contra hn
      rw [(hlow (not_lt.mp hn)).1] at hinter
      exact absurd hinter (by decide)
    obtain ⟨_, _, hmode, hmv, _⟩ := hhigh hrank
    rw [hmode, hmv]
    rcases h3 with h3 | ⟨mode, hm, hcand, hp, _⟩
    · rw [h3] at hrank
      exact absurd hrank (not_lt.mpr hintra)
    · have hmode : sel.best_pred.prediction_mode = mode := by rw [hp]; rfl
      rw [hmode]
      exact ⟨hm, candidate_mv_empty_iff env mode sel.best_mv hcand⟩

/-- Witness for C19: the sample context, whose census vectors are empty. -/
theorem empty_vector_only_zeromv_witness :
    sample_inter.intra_best.prediction_mode.rank ≤ mbmode.B_PRED.rank ∧
    ∃ r, luma_mb_inter_predict sample_inter () sample_macroblock = .ok r ∧
      (r.frame_mb.header.is_inter_mb = true →
        r.frame_mb.Y2.prediction_mode ∈ inter_modes ∧
        (r.frame_mb.base_motion_vector = MotionVector.zero ↔
          r.frame_mb.Y2.prediction_mode = .ZEROMV)) :=
  ⟨by decide,
    (empty_vector_only_zeromv sample_inter () sample_macroblock (by decide)).2.2.2.2⟩

/-! ## optimize_interframe_probs: the header probabilities -/

theorem count_reference_fold (macroblocks : List InterFrameMacroblock) :
    ∀ counts : ReferenceCounts,
      counts.inter_count < 18446744073709551616 → counts.last_count < 18446744073709551616 →
      counts.golden_count < 18446744073709551616 →
      counts.total_count < 18446744073709551616 →
      macroblocks.foldl count_reference counts =
        ⟨(counts.inter_count + reference_count .CURRENT_FRAME macroblocks)
            % 18446744073709551616,
          (counts.last_count + reference_count .LAST_FRAME macroblocks)
            % 18446744073709551616,
          (counts.golden_count + reference_count .GOLDEN_FRAME macroblocks)
            % 18446744073709551616,
          (counts.total_count + macroblocks.length) % 18446744073709551616⟩ := by
  induction macroblocks with
  | nil =>
    intro counts h1 h2 h3 h4
    simp [reference_count, Nat.mod_eq_of_lt, h1, h2, h3, h4]
  | cons mb rest ih =>
    intro counts h1 h2 h3 h4
    rw [List.foldl_cons]
    have hM : (0 : Nat) < 18446744073709551616 := by norm_num
    rcases hr : mb.header.reference with _ | _ | _ | _ <;>
    · rw [ih _ (by simp only [count_reference, hr, size_t_succ]; first | exact Nat.mod_lt _ hM | exact h1)
        (by simp only [count_reference, hr, size_t_succ]; first | exact Nat.mod_lt _ hM | exact h2)
        (by simp only [count_reference, hr, size_t_succ]; first | exact Nat.mod_lt _ hM | exact h3)
        (by simp only [count_reference, hr, size_t_succ]; exact Nat.mod_lt _ hM)]
      simp only [count_reference, hr, size_t_succ, reference_count, List.countP_cons,
        List.length_cons, decide_True, decide_False, if_true, if_false, reduceCtorEq,
        Bool.false_eq_true, ReferenceCounts.mk.injEq]
      refine ⟨?_, ?_, ?_, ?_⟩ <;> omega

theorem reference_count_sum (macroblocks : List InterFrameMacroblock) :
    reference_count .CURRENT_FRAME macroblocks + reference_count .LAST_FRAME macroblocks
      + reference_count .GOLDEN_FRAME macroblocks + reference_count .ALTREF_FRAME macroblocks
      = macroblocks.length := by
  induction macroblocks with
  | nil => rfl
  | cons mb rest ih =>
    simp only [reference_count, List.countP_cons, List.length_cons] at ih ⊢
    rcases hr : mb.header.reference with _ | _ | _ | _ <;> simp <;> omega

theorem reference_count_le (r : reference_frame) (macroblocks : List InterFrameMacroblock) :
    reference_count r macroblocks ≤ macroblocks.length :=
  List.countP_le_length _

/-- C11: for a frame whose number of macroblocks `t` fits a `size_t`,
`optimize_interframe_probs` sets `prob_inter = calc_prob(c, t)`,
`prob_references_last = calc_prob(l, t)` and `prob_references_golden =
calc_prob(g, t)`, where `c`, `l`, `g` are the numbers of macroblocks whose
header reference is `CURRENT_FRAME`, `LAST_FRAME`, `GOLDEN_FRAME`; the
macroblocks are left as they were; a macroblock on `ALTREF_FRAME` counts only
in `t`, so `c + l + g + a = t` with `a` their number, `c + l + g <= t`, with
equality exactly when no macroblock references `ALTREF_FRAME`. -/
theorem header_probabilities (calc_prob : Nat → Nat → Probability) (frame : InterFrame)
    (hsize : frame.macroblocks.length < 18446744073709551616) :
    (optimize_interframe_probs calc_prob frame).header.prob_inter
      = calc_prob (reference_count .CURRENT_FRAME frame.macroblocks) frame.macroblocks.length ∧
    (optimize_interframe_probs calc_prob frame).header.prob_references_last
      = calc_prob (reference_count .LAST_FRAME frame.macroblocks) frame.macroblocks.length ∧
    (optimize_interframe_probs calc_prob frame).header.prob_references_golden
      = calc_prob (reference_count .GOLDEN_FRAME frame.macroblocks) frame.macroblocks.length ∧
    (optimize_interframe_probs calc_prob frame).macroblocks = frame.macroblocks ∧
    reference_count .CURRENT_FRAME frame.macroblocks
      + reference_count .LAST_FRAME frame.macroblocks
      + reference_count .GOLDEN_FRAME frame.macroblocks
      + reference_count .ALTREF_FRAME frame.macroblocks = frame.macroblocks.length ∧
    reference_count .CURRENT_FRAME frame.macroblocks
      + reference_count .LAST_FRAME frame.macroblocks
      + reference_count .GOLDEN_FRAME frame.macroblocks ≤ frame.macroblocks.length ∧
    (reference_count .CURRENT_FRAME frame.macroblocks
      + reference_count .LAST_FRAME frame.macroblocks
      + reference_count .GOLDEN_FRAME frame.macroblocks = frame.macroblocks.length ↔
      ∀ frame_mb ∈ frame.macroblocks, frame_mb.header.reference ≠ .ALTREF_FRAME) := by
  have hfold := count_reference_fold frame.macroblocks ⟨0, 0, 0, 0⟩
    (by norm_num) (by norm_num) (by norm_num) (by norm_num)
  have hsum := reference_count_sum frame.macroblocks
  have hc := reference_count_le .CURRENT_FRAME frame.macroblocks
  have hl := reference_count_le .LAST_FRAME frame.macroblocks
  have hg := reference_count_le .GOLDEN_FRAME frame.macroblocks
  simp only [Nat.zero_add] at hfold
  rw [Nat.mod_eq_of_lt (lt_of_le_of_lt hc hsize), Nat.mod_eq_of_lt (lt_of_le_of_lt hl hsize),
    Nat.mod_eq_of_lt (lt_of_le_of_lt hg hsize), Nat.mod_eq_of_lt hsize] at hfold
  simp only [optimize_interframe_probs, hfold]
  refine ⟨trivial, trivial, trivial, trivial, hsum, by omega, ?_⟩
  have hzero : reference_count .ALTREF_FRAME frame.macroblocks = 0 ↔
      ∀ frame_mb ∈ frame.macroblocks, frame_mb.header.reference ≠ .ALTREF_FRAME := by
    simp [reference_count, List.countP_eq_zero]
  rw [← hzero]
  omega

/-- Witness for C11: the sample frame, with `calc_prob( count, total ) =
count * 255 / total`. -/
theorem header_probabilities_witness :
    sample_frame.macroblocks.length < 18446744073709551616 ∧
    (optimize_interframe_probs (fun count total => count * 255 / total)
        sample_frame).header.prob_inter
      = (fun count total => count * 255 / total)
          (reference_count .CURRENT_FRAME sample_frame.macroblocks)
          sample_frame.macroblocks.length :=
  ⟨by decide,
    (header_probabilities (fun count total => count * 255 / total) sample_frame
      (by decide)).1⟩

/-! ## chroma_mb_inter_predict: the vectors of the chroma sub-blocks -/

theorem Y_at_ok (Y : Fin 4 → Fin 4 → YBlock) (column row : Nat) (hc : column < 4)
    (hr : row < 4) : Y_at Y column row = .ok (Y ⟨column, hc⟩ ⟨row, hr⟩) := by
  simp [Y_at, hc, hr]

theorem chroma_vector_visit_ok {P : Type} (env : ChromaContext P)
    (Y : Fin 4 → Fin 4 → YBlock) (U : Fin 2 → Fin 2 → UVBlock) (ij : Fin 2 × Fin 2) :
    chroma_vector_visit env Y U ij
      = .ok (Function.update U ij.1 (Function.update (U ij.1) ij.2
          { U ij.1 ij.2 with motion_vector := co_located_vector env Y ij.1 ij.2 })) := by
  have h1 := ij.1.isLt
  have h2 := ij.2.isLt
  simp only [chroma_vector_visit, bind, Except.bind, pure, Except.pure,
    Y_at_ok Y (ij.1.val * 2) (ij.2.val * 2) (by omega) (by omega),
    Y_at_ok Y (ij.1.val * 2 + 1) (ij.2.val * 2) (by omega) (by omega),
    Y_at_ok Y (ij.1.val * 2) (ij.2.val * 2 + 1) (by omega) (by omega),
    Y_at_ok Y (ij.1.val * 2 + 1) (ij.2.val * 2 + 1) (by omega) (by omega)]
  rfl

theorem chroma_vector_fold {P : Type} (env : ChromaContext P) (Y : Fin 4 → Fin 4 → YBlock)
    (U : Fin 2 → Fin 2 → UVBlock) :
    ∃ U', forall_ij_order_uv.foldlM (chroma_vector_visit env Y) U = .ok U' ∧
      ∀ column row, (U' column row).motion_vector = co_located_vector env Y column row := by
  simp only [forall_ij_order_uv, List.foldlM, chroma_vector_visit_ok, bind, Except.bind,
    pure, Except.pure]
  refine ⟨_, rfl, ?_⟩
  intro column row
  fin_cases column <;> fin_cases row <;> simp [Function.update]

theorem chroma_residual_visit_vector {P : Type} (env : ChromaContext P)
    (sd : Fin 2 → Fin 2 → SafeArray Int 16) (plane : Fin 2 → Fin 2 → UVBlock)
    (ij : Fin 2 × Fin 2) (column row : Fin 2) :
    (chroma_residual_visit env sd plane ij column row).motion_vector
      = (plane column row).motion_vector := by
  unfold chroma_residual_visit
  by_cases hc : column = ij.1
  · subst hc
    rw [Function.update_same]
    by_cases hr : row = ij.2
    · subst hr; rw [Function.update_same]
    · rw [Function.update_noteq hr]
  · rw [Function.update_noteq hc]

theorem chroma_residual_fold_vector {P : Type} (env : ChromaContext P)
    (sd : Fin 2 → Fin 2 → SafeArray Int 16) (order : List (Fin 2 × Fin 2)) :
    ∀ (plane : Fin 2 → Fin 2 → UVBlock) (column row : Fin 2),
      (order.foldl (chroma_residual_visit env sd) plane column row).motion_vector
        = (plane column row).motion_vector := by
  induction order with
  | nil => intro plane column row; rfl
  | cons ij rest ih =>
    intro plane column row
    rw [List.foldl_cons, ih, chroma_residual_visit_vector]

theorem chroma_run {P : Type} (env : ChromaContext P) (frame_mb : InterFrameMacroblock)
    (chroma : ChromaBlocks) (h : frame_mb.inter_coded = true) :
    ∃ r, chroma_mb_inter_predict env frame_mb chroma = .ok r ∧
      (∀ column row, (r.blocks.U column row).motion_vector
        = co_located_vector env frame_mb.Y column row) ∧
      (∀ column row, (r.blocks.V column row).motion_vector
        = (chroma.V column row).motion_vector) ∧
      r.reconstructed_U = env.u_inter_predict (co_located_vector env frame_mb.Y 0 0) ∧
      r.reconstructed_V = env.v_inter_predict (co_located_vector env frame_mb.Y 0 0) := by
  obtain ⟨U', hU, hvec⟩ := chroma_vector_fold env frame_mb.Y chroma.U
  have hat : UV_at U' 0 0 = .ok (U' 0 0) := by simp [UV_at]
  simp only [chroma_mb_inter_predict, h, Bool.not_true, Bool.false_eq_true, if_false, hU, hat]
  refine ⟨_, rfl, ?_, ?_, ?_, ?_⟩
  · intro column row
    rw [chroma_residual_fold_vector]
    exact hvec column row
  · intro column row
    rw [chroma_residual_fold_vector]
  · simp only [hvec]
  · simp only [hvec]

/-- C20 (amended): on an inter-coded macroblock `chroma_mb_inter_predict`
returns, and afterwards every sub-block of the U plane at (column, row) has as
motion vector `luma_to_chroma` of the vectors of the four co-located luma
sub-blocks (2*column, 2*row), (2*column+1, 2*row), (2*column, 2*row+1),
(2*column+1, 2*row+1); the motion vectors of the sub-blocks of the V plane are
left as they were, and the predictions of both planes are made with the
vector of the U sub-block at (0, 0). -/
theorem chroma_vector_derivation {P : Type} (env : ChromaContext P)
    (frame_mb : InterFrameMacroblock) (chroma : ChromaBlocks)
    (h : frame_mb.inter_coded = true) :
    ∃ r, chroma_mb_inter_predict env frame_mb chroma = .ok r ∧
      (∀ column row, (r.blocks.U column row).motion_vector
        = co_located_vector env frame_mb.Y column row) ∧
      (∀ column row, (r.blocks.V column row).motion_vector
        = (chroma.V column row).motion_vector) ∧
      r.reconstructed_U = env.u_inter_predict (r.blocks.U 0 0).motion_vector ∧
      r.reconstructed_V = env.v_inter_predict (r.blocks.U 0 0).motion_vector := by
  obtain ⟨r, hr, hu, hv, hru, hrv⟩ := chroma_run env frame_mb chroma h
  exact ⟨r, hr, hu, hv, by rw [hu]; exact hru, by rw [hu]; exact hrv⟩

/-- Witness for C20 (amended): the sample chroma context on a macroblock whose
luma vectors are all (4, 4). -/
theorem chroma_vector_derivation_witness :
    inter_macroblock.inter_coded = true ∧
    ∃ r, chroma_mb_inter_predict sample_chroma inter_macroblock fresh_chroma = .ok r ∧
      (∀ column row, (r.blocks.U column row).motion_vector
        = co_located_vector sample_chroma inter_macroblock.Y column row) ∧
      (∀ column row, (r.blocks.V column row).motion_vector
        = (fresh_chroma.V column row).motion_vector) ∧
      r.reconstructed_U = sample_chroma.u_inter_predict (r.blocks.U 0 0).motion_vector ∧
      r.reconstructed_V = sample_chroma.v_inter_predict (r.blocks.U 0 0).motion_vector :=
  ⟨rfl, chroma_vector_derivation sample_chroma inter_macroblock fresh_chroma rfl⟩

/-- Counterexample to C20 as stated: on a macroblock whose luma vectors are all
(4, 4), with `luma_to_chroma` the mean, the call returns, the U sub-block at
(0, 0) gets the vector (4, 4), and the V sub-block at (0, 0) still has the
empty vector it had, which is not `luma_to_chroma` of the co-located luma
vectors. -/
theorem chroma_v_vector_not_derived :
    ∃ r, chroma_mb_inter_predict sample_chroma inter_macroblock fresh_chroma = .ok r ∧
      co_located_vector sample_chroma inter_macroblock.Y 0 0 = ⟨4, 4⟩ ∧
      (r.blocks.U 0 0).motion_vector = ⟨4, 4⟩ ∧
      (r.blocks.V 0 0).motion_vector = ⟨0, 0⟩ ∧
      (r.blocks.V 0 0).motion_vector ≠ co_located_vector sample_chroma inter_macroblock.Y 0 0 :=
  ⟨_, rfl, by decide, by decide, by decide, by decide⟩

/-! ## encode_with_quantizer: the precondition of chroma_mb_inter_predict -/

theorem chroma_assertion {P : Type} (env : ChromaContext P) (frame_mb : InterFrameMacroblock)
    (chroma : ChromaBlocks) (h : frame_mb.inter_coded = false) :
    chroma_mb_inter_predict env frame_mb chroma = .error .assertion_failed := by
  simp [chroma_mb_inter_predict, h]

theorem encode_macroblock_spec {P Q : Type} (env : MacroblockContext P Q) :
    ∃ r step, luma_mb_inter_predict env.luma env.reconstructed_Y env.frame_mb = .ok r ∧
      encode_macroblock env = .ok step ∧
      step.frame_mb = after_luma env.apply_intra r ∧
      (step.chroma_call = .chroma_mb_inter_predict ↔ step.frame_mb.inter_coded = true) ∧
      (step.chroma_call = .chroma_mb_intra_predict ↔ step.frame_mb.inter_coded = false) ∧
      (step.chroma_call = .chroma_mb_inter_predict →
        ∃ c, chroma_mb_inter_predict env.chroma step.frame_mb env.chroma_blocks = .ok c ∧
          step.chroma_blocks = c.blocks) := by
  obtain ⟨_, r, _, hr, _⟩ := luma_run env.luma env.reconstructed_Y env.frame_mb
  cases hc : (after_luma env.apply_intra r).inter_coded
  · refine ⟨r, ⟨after_luma env.apply_intra r, .chroma_mb_intra_predict,
      env.chroma_intra (after_luma env.apply_intra r) env.chroma_blocks⟩, hr, ?_, rfl, ?_, ?_, ?_⟩
    · simp [encode_macroblock, hr, hc]
    · simp [hc]
    · simp [hc]
    · intro h; cases h
  · obtain ⟨c, hcr, _⟩ := chroma_run env.chroma (after_luma env.apply_intra r)
      env.chroma_blocks hc
    refine ⟨r, ⟨after_luma env.apply_intra r, .chroma_mb_inter_predict, c.blocks⟩, hr,
      ?_, rfl, ?_, ?_, ?_⟩
    · simp [encode_macroblock, hr, hc, hcr]
    · simp [hc]
    · simp [hc]
    · intro _; exact ⟨c, hcr, rfl⟩

theorem encode_macroblocks_spec {P Q : Type} (envs : List (MacroblockContext P Q)) :
    ∃ steps, encode_macroblocks envs = .ok steps ∧ steps.length = envs.length ∧
      ∀ step ∈ steps,
        (step.chroma_call = .chroma_mb_inter_predict ↔ step.frame_mb.inter_coded = true) ∧
        (step.chroma_call = .chroma_mb_intra_predict ↔ step.frame_mb.inter_coded = false) := by
  induction envs with
  | nil => exact ⟨[], rfl, rfl, fun _ h => absurd h (List.not_mem_nil _)⟩
  | cons env rest ih =>
    obtain ⟨steps, hs, hl, hall⟩ := ih
    obtain ⟨_, step, _, he, _, h1, h2, _⟩ := encode_macroblock_spec env
    refine ⟨step :: steps, by simp [encode_macroblocks, he, hs], by simp [hl], ?_⟩
    intro s hm
    rcases List.mem_cons.mp hm with rfl | hm
    · exact ⟨h1, h2⟩
    · exact hall s hm

/-- C12: in `encode_with_quantizer<InterFrame>` the loop over the macroblocks
returns, and for each macroblock `chroma_mb_inter_predict` is the chroma
function called if and only if the macroblock is inter-coded after
`luma_mb_inter_predict`, `chroma_mb_intra_predict` being called otherwise; the
call of `chroma_mb_inter_predict` made there returns, that is, its assertion
`frame_mb.inter_coded()` holds, whereas the same function called on a
macroblock that is not inter-coded stops on that assertion. -/
theorem chroma_precondition {P Q : Type} (envs : List (MacroblockContext P Q)) :
    (∀ (env : ChromaContext Q) (frame_mb : InterFrameMacroblock) (chroma : ChromaBlocks),
      frame_mb.inter_coded = false →
      chroma_mb_inter_predict env frame_mb chroma = .error .assertion_failed) ∧
    (∀ env ∈ envs, ∃ r step,
      luma_mb_inter_predict env.luma env.reconstructed_Y env.frame_mb = .ok r ∧
      encode_macroblock env = .ok step ∧
      step.frame_mb = after_luma env.apply_intra r ∧
      (step.chroma_call = .chroma_mb_inter_predict ↔ step.frame_mb.inter_coded = true) ∧
      (step.chroma_call = .chroma_mb_intra_predict ↔ step.frame_mb.inter_coded = false) ∧
      (step.chroma_call = .chroma_mb_inter_predict →
        ∃ c, chroma_mb_inter_predict env.chroma step.frame_mb env.chroma_blocks = .ok c ∧
          step.chroma_blocks = c.blocks)) ∧
    ∃ steps, encode_macroblocks envs = .ok steps ∧ steps.length = envs.length ∧
      ∀ step ∈ steps,
        (step.chroma_call = .chroma_mb_inter_predict ↔ step.frame_mb.inter_coded = true) ∧
        (step.chroma_call = .chroma_mb_intra_predict ↔ step.frame_mb.inter_coded = false) :=
  ⟨fun env frame_mb chroma h => chroma_assertion env frame_mb chroma h,
    fun env _ => encode_macroblock_spec env, encode_macroblocks_spec envs⟩

/-! ## luma_mb_inter_predict: the input of the second-order transform -/

theorem walsh_index_injective : Function.Injective walsh_index := by
  intro a b h
  have h1 := a.1.isLt
  have h2 := b.1.isLt
  have h3 : a.1.val + 4 * a.2.val = b.1.val + 4 * b.2.val := congrArg Fin.val h
  apply Prod.ext <;> apply Fin.ext <;> omega

theorem residual_visit_eq {P : Type} (env : InterContext P) (reconstructed_Y : P)
    (st : ResidualState) (ij : Fin 4 × Fin 4) :
    residual_visit env reconstructed_Y st ij = .ok
      { Y := Function.update st.Y ij.1 (Function.update (st.Y ij.1) ij.2
          { motion_vector := (st.Y ij.1 ij.2).motion_vector,
            coefficients :=
              env.quantize (Function.update (env.subtract_dct reconstructed_Y ij.1 ij.2) 0 0),
            type_ := .Y_after_Y2,
            has_nonzero := env.calculate_has_nonzero .Y_after_Y2
              (env.quantize
                (Function.update (env.subtract_dct reconstructed_Y ij.1 ij.2) 0 0)) }),
        walsh_input := Function.update st.walsh_input (walsh_index ij)
          (some (env.subtract_dct reconstructed_Y ij.1 ij.2 0)),
        writes := Function.update st.writes (walsh_index ij)
          (st.writes (walsh_index ij) + 1) } := by
  have h : ij.1.val + 4 * ij.2.val < 16 := (walsh_index ij).isLt
  simp only [residual_visit, dif_pos h]
  rfl

theorem residual_fold_spec {P : Type} (env : InterContext P) (reconstructed_Y : P) :
    ∀ (l : List (Fin 4 × Fin 4)) (st : ResidualState),
      ∃ st', l.foldlM (residual_visit env reconstructed_Y) st = .ok st' ∧
        (∀ k, st'.writes k = st.writes k + l.countP (fun ij => decide (walsh_index ij = k))) ∧
        (∀ ij ∈ l, st'.walsh_input (walsh_index ij)
          = some (env.subtract_dct reconstructed_Y ij.1 ij.2 0)) ∧
        (∀ k, (∀ ij ∈ l, walsh_index ij ≠ k) → st'.walsh_input k = st.walsh_input k) ∧
        (∀ ij ∈ l, st'.Y ij.1 ij.2 =
          { motion_vector := (st.Y ij.1 ij.2).motion_vector,
            coefficients :=
              env.quantize (Function.update (env.subtract_dct reconstructed_Y ij.1 ij.2) 0 0),
            type_ := .Y_after_Y2,
            has_nonzero := env.calculate_has_nonzero .Y_after_Y2
              (env.quantize
                (Function.update (env.subtract_dct reconstructed_Y ij.1 ij.2) 0 0)) }) ∧
        (∀ ij, ij ∉ l → st'.Y ij.1 ij.2 = st.Y ij.1 ij.2) := by
  intro l
  induction l with
  | nil =>
    intro st
    exact ⟨st, rfl, fun _ => by simp, fun _ h => absurd h (List.not_mem_nil _),
      fun _ _ => rfl, fun _ h => absurd h (List.not_mem_nil _), fun _ _ => rfl⟩
  | cons a l ih =>
    intro st
    have h1 := residual_visit_eq env reconstructed_Y st a
    obtain ⟨s1, hs1, hmv⟩ := residual_visit_ok env reconstructed_Y st a
    rw [h1] at hs1
    cases hs1
    obtain ⟨st', h3, hw, hin, hout, hY, hYout⟩ := ih _
    refine ⟨st', by rw [List.foldlM_cons, h1]; exact h3, ?_, ?_, ?_, ?_, ?_⟩
    · intro k
      rw [hw k, List.countP_cons]
      by_cases hk : walsh_index a = k
      · subst hk
        simp only [Function.update_same, decide_True, if_true]
        omega
      · have hk' : k ≠ walsh_index a := fun h => hk h.symm
        simp only [Function.update_noteq hk', hk, decide_False, Bool.false_eq_true, if_false]
        omega
    · intro ij hij
      rcases List.mem_cons.mp hij with rfl | hij
      · by_cases hmem : ij ∈ l
        · exact hin ij hmem
        · rw [hout (walsh_index ij) (fun ij' hij' h => hmem (walsh_index_injective h ▸ hij'))]
          simp only [Function.update_same]
      · exact hin ij hij
    · intro k hk
      rw [hout k (fun ij hij => hk ij (List.mem_cons_of_mem _ hij))]
      have hne : k ≠ walsh_index a := fun h => hk a (List.mem_cons_self _ _) h.symm
      simp only [Function.update_noteq hne]
    · intro ij hij
      by_cases hmem : ij ∈ l
      · rw [hY ij hmem]
        have := hmv ij.1 ij.2
        rw [this]
      · rcases List.mem_cons.mp hij with rfl | hij
        · rw [hYout ij hmem]
          simp only [Function.update_same]
        · exact absurd hij hmem
    · intro ij hij
      have hne : ij ≠ a := fun h => hij (h ▸ List.mem_cons_self _ _)
      have hl : ij ∉ l := fun h => hij (List.mem_cons_of_mem _ h)
      rw [hYout ij hl]
      dsimp only
      by_cases hc : ij.1 = a.1
      · have hr : ij.2 ≠ a.2 := fun hr => hne (Prod.ext hc hr)
        rw [hc, Function.update_same, Function.update_noteq hr]
      · rw [Function.update_noteq hc]

theorem forall_ij_order_complete : ∀ ij : Fin 4 × Fin 4, ij ∈ forall_ij_order := by decide

theorem forall_ij_order_once :
    ∀ k : Fin 16, forall_ij_order.countP (fun ij => decide (walsh_index ij = k)) = 1 := by
  decide

theorem commit_inter_residual {P : Type} (env : InterContext P)
    (frame_mb : InterFrameMacroblock) (sel : Selection P)
    (h : mbmode.B_PRED.rank < sel.best_pred.prediction_mode.rank) :
    ∃ r, commit_selection env frame_mb sel = .ok r ∧ r.selection = sel ∧
      (∀ k, r.writes k = 1) ∧
      (∀ ij : Fin 4 × Fin 4, r.walsh_input (walsh_index ij)
        = some (env.subtract_dct sel.reconstructed_Y ij.1 ij.2 0)) ∧
      (∀ ij : Fin 4 × Fin 4, r.frame_mb.Y ij.1 ij.2 =
        { motion_vector := sel.best_mv,
          coefficients :=
            env.quantize (Function.update (env.subtract_dct sel.reconstructed_Y ij.1 ij.2) 0 0),
          type_ := .Y_after_Y2,
          has_nonzero := env.calculate_has_nonzero .Y_after_Y2
            (env.quantize
              (Function.update (env.subtract_dct sel.reconstructed_Y ij.1 ij.2) 0 0)) }) ∧
      r.frame_mb.Y2.coded = true ∧
      r.frame_mb.Y2.coefficients = env.quantize_y2 (env.wht r.walsh_input) := by
  obtain ⟨st, h1, hw, hin, _, hY, _⟩ := residual_fold_spec env sel.reconstructed_Y
    forall_ij_order
    { Y := fun column row => { frame_mb.Y column row with motion_vector := sel.best_mv },
      walsh_input := fun _ => none, writes := fun _ => 0 }
  simp only [commit_selection, if_neg (not_le.mpr h), h1]
  refine ⟨_, rfl, rfl, ?_, ?_, ?_, rfl, rfl⟩
  · intro k
    have := hw k
    rw [forall_ij_order_once k] at this
    simpa using this
  · intro ij
    exact hin ij (forall_ij_order_complete ij)
  · intro ij
    exact hY ij (forall_ij_order_complete ij)

/-- C21: `luma_mb_inter_predict` returns, and when it commits an inter mode
(the macroblock is marked inter-coded), for each of the 16 luma sub-blocks at
(sb_column, sb_row) the entry `sb_column + 4 * sb_row` of `walsh_input` holds
the coefficient of index 0 that `subtract_dct` produced for that sub-block;
distinct sub-blocks assign distinct entries and every one of the 16 entries
is assigned exactly once; and each sub-block goes through the states
transformed, DC set to 0 (the other coefficients kept), marked `Y_after_Y2`,
quantized, flagged, in that order, so that the quantization reads the
coefficients with the DC term already 0 on a sub-block already marked
`Y_after_Y2`. The second-order block is coded from `wht( walsh_input )`. -/
theorem second_order_input {P : Type} (env : InterContext P) (reconstructed_Y : P)
    (frame_mb : InterFrameMacroblock) :
    Function.Injective walsh_index ∧
    ∃ r, luma_mb_inter_predict env reconstructed_Y frame_mb = .ok r ∧
      (r.frame_mb.header.is_inter_mb = true →
        (∀ sb_column sb_row : Fin 4,
          (walsh_index (sb_column, sb_row)).val = sb_column.val + 4 * sb_row.val ∧
          r.walsh_input (walsh_index (sb_column, sb_row))
            = some (env.subtract_dct r.selection.reconstructed_Y sb_column sb_row 0) ∧
          ∃ transformed without_dc marked quantized flagged,
            residual_states env r.selection.reconstructed_Y
                { frame_mb.Y sb_column sb_row with motion_vector := r.selection.best_mv }
                (sb_column, sb_row)
              = [transformed, without_dc, marked, quantized, flagged] ∧
            r.walsh_input (walsh_index (sb_column, sb_row))
              = some (transformed.coefficients 0) ∧
            without_dc.coefficients 0 = 0 ∧
            (∀ i, i ≠ 0 → without_dc.coefficients i = transformed.coefficients i) ∧
            marked.coefficients = without_dc.coefficients ∧
            marked.type_ = .Y_after_Y2 ∧
            quantized.coefficients = env.quantize marked.coefficients ∧
            quantized.type_ = .Y_after_Y2 ∧
            r.frame_mb.Y sb_column sb_row = flagged) ∧
        (∀ k : Fin 16, r.writes k = 1 ∧
          ∃ ij : Fin 4 × Fin 4, walsh_index ij = k ∧
            r.walsh_input k = some (env.subtract_dct r.selection.reconstructed_Y ij.1 ij.2 0)) ∧
        r.frame_mb.Y2.coded = true ∧
        r.frame_mb.Y2.coefficients = env.quantize_y2 (env.wht r.walsh_input)) := by
  refine ⟨walsh_index_injective, ?_⟩
  obtain ⟨sel, h1, _⟩ := select_mode_spec env reconstructed_Y
  by_cases hrank : mbmode.B_PRED.rank < sel.best_pred.prediction_mode.rank
  · obtain ⟨r, hr, hs, hw, hin, hY, hc, hy2⟩ := commit_inter_residual env frame_mb sel hrank
    refine ⟨r, by simp only [luma_mb_inter_predict, h1, hr], fun _ => ⟨?_, ?_, hc, hy2⟩⟩
    · intro sb_column sb_row
      rw [hs]
      refine ⟨rfl, hin (sb_column, sb_row), _, _, _, _, _, rfl, hin (sb_column, sb_row),
        ?_, ?_, rfl, rfl, rfl, rfl, hY (sb_column, sb_row)⟩
      · simp [YBlock.set_dc_coefficient]
      · intro i hi
        simp [YBlock.set_dc_coefficient, Function.update_noteq hi]
    · intro k
      have hk := k.isLt
      have hidx : walsh_index (⟨k.val % 4, by omega⟩, ⟨k.val / 4, by omega⟩) = k := by
        apply Fin.ext
        simp only [walsh_index]
        omega
      refine ⟨hw k, (⟨k.val % 4, by omega⟩, ⟨k.val / 4, by omega⟩), hidx, ?_⟩
      rw [hs, ← hin, hidx]
  · obtain ⟨r, hr, hi, _, _⟩ := commit_intra env frame_mb sel (not_lt.mp hrank)
    refine ⟨r, by simp only [luma_mb_inter_predict, h1, hr], fun h => ?_⟩
    rw [hi] at h
    exact absurd h (by decide)

/-- Witness for C21: in the sample context an inter mode is committed, every
entry of `walsh_input` is assigned once and holds the DC coefficient of its
sub-block. -/
theorem second_order_input_witness :
    ∃ r, luma_mb_inter_predict sample_inter () sample_macroblock = .ok r ∧
      r.frame_mb.header.is_inter_mb = true ∧
      (∀ sb_column sb_row : Fin 4,
        r.walsh_input (walsh_index (sb_column, sb_row))
          = some (sample_inter.subtract_dct r.selection.reconstructed_Y sb_column sb_row 0)) ∧
      (∀ k : Fin 16, r.writes k = 1) ∧
      r.frame_mb.Y2.coded = true := by
  obtain ⟨r, hr, h⟩ := (second_order_input sample_inter () sample_macroblock).2
  obtain ⟨sel, r', _, hr', _, h4, h5, _, hhigh⟩ := luma_run sample_inter () sample_macroblock
  have hrr : r = r' := Except.ok.inj (hr.symm.trans hr')
  have hrank : mbmode.B_PRED.rank < sel.best_pred.prediction_mode.rank :=
    (retained_inter_iff sample_inter sel () (by decide) h4 h5).1.mpr sample_zeromv_cheaper
  have hinter : r.frame_mb.header.is_inter_mb = true := by
    rw [hrr]; exact (hhigh hrank).1
  obtain ⟨ha, hb, hc, _⟩ := h hinter
  exact ⟨r, hr, hinter, fun c w => (ha c w).2.1, fun k => (hb k).1, hc⟩

end Alfalfa
